import Mathlib

/-!
Verification development for the golox bytecode VM (a Go implementation of
the Lox language following the clox design of Crafting Interpreters).

The Go sources are shallowly embedded: each Lean definition mirrors one Go
function or data type from the repository (`src/vm/value.go`, `src/vm/vm.go`,
`src/vm/compiler.go`, `src/vm/chunk.go`).  Go heap objects (strings, function
prototypes, closures, classes, instances, bound methods, upvalue cells) are
represented by indices into explicit heaps carried in the VM state, so that
Go pointer identity becomes index equality.  Go `float64` numbers are
modelled as rationals (`Rat`); none of the verified properties depends on
IEEE-754 rounding, infinities or NaN.  Byte code is a `List Nat` of byte
values, exactly mirroring the byte-level chunk layout (including the
two-byte big-endian jump operands written by `patchJump` / `emitLoop`).

Conventions:
- `getD` heap reads stand for Go pointer dereferences; the states appearing
  in the theorems always keep the indices in range, so the defaults are
  never exercised there.
- Go `panic` (out-of-range index, failed type assertion, nil dereference)
  is the `.fault` outcome, kept distinct from Lox runtime errors.
- Error values only retain the `Reason` string of the Go `RuntimeError`;
  source-line bookkeeping (`Chunk.lines`) is omitted because no verified
  claim mentions it.
-/

namespace Golox

/-! ## Runtime values (src/vm/value.go)

A Go `Value` is an interface; the object variants (`*VStr`, `*VFun`,
`*VClos`, `*VNativeFun`, `*VClass`, `*VInstance`, `*VBoundMethod`) are
pointers.  Here each object variant carries the index of its object in the
corresponding heap of the VM state, so Go interface equality (`v == w`)
coincides with decidable equality of `Value`. -/

inductive Value where
  | vnil : Value
  | vbool (b : Bool) : Value
  | vnum (q : Rat) : Value
  | vstr (id : Nat) : Value
  | vfun (id : Nat) : Value
  | vclos (id : Nat) : Value
  | vnative (id : Nat) : Value
  | vclass (id : Nat) : Value
  | vinst (id : Nat) : Value
  | vbound (id : Nat) : Value
deriving DecidableEq, Repr, Inhabited

/-- Mirrors `VTruthy` of src/vm/value.go: only `nil` and `false` are falsy. -/
def vTruthy : Value → Bool
  | .vbool b => b
  | .vnil => false
  | _ => true

/-- Mirrors `VEq` of src/vm/value.go (line 324): `return v == w`, Go
interface equality.  For the pointer-backed variants this is pointer
identity, which the heap-index representation renders as index equality. -/
def vEq (v w : Value) : Bool := v == w

/-- Mirrors `VSub`: defined only on two numbers (`ok` is `some`). -/
def vSub : Value → Value → Option Value
  | .vnum a, .vnum b => some (.vnum (a - b))
  | _, _ => none

/-- Mirrors `VMul`. -/
def vMul : Value → Value → Option Value
  | .vnum a, .vnum b => some (.vnum (a * b))
  | _, _ => none

/-- Mirrors `VDiv` (division is total on `Rat`; the IEEE behaviour at zero
is irrelevant to the verified claims). -/
def vDiv : Value → Value → Option Value
  | .vnum a, .vnum b => some (.vnum (a / b))
  | _, _ => none

/-- Mirrors `VGreater`. -/
def vGreater : Value → Value → Option Value
  | .vnum a, .vnum b => some (.vbool (decide (b < a)))
  | _, _ => none

/-- Mirrors `VLess`. -/
def vLess : Value → Value → Option Value
  | .vnum a, .vnum b => some (.vbool (decide (a < b)))
  | _, _ => none

/-- Mirrors `VNeg`. -/
def vNeg : Value → Option Value
  | .vnum a => some (.vnum (-a))
  | _ => none

/-- Mirrors `NewVStr` (src/vm/value.go lines 167-174): `&VStr{intern.String(s)}`
allocates a fresh `VStr` struct whose pointer identifies the value.  The
`intern.String` call canonicalises only the backing bytes of the Go string,
never the `*VStr` pointer, so every call yields a distinct identity even
for equal content.  Returns the fresh id and the grown string heap. -/
def newVStr (strs : List String) (s : String) : Nat × List String :=
  (strs.length, strs ++ [s])

/-- Mirrors `VAdd`: number addition, or string concatenation through
`NewVStr` (which allocates), otherwise a type error (`none`). -/
def vAdd (strs : List String) : Value → Value → Option (Value × List String)
  | .vnum a, .vnum b => some (.vnum (a + b), strs)
  | .vstr a, .vstr b =>
      let r := newVStr strs ((strs.getD a "") ++ (strs.getD b ""))
      some (.vstr r.1, r.2)
  | _, _ => none

/-! ## Chunks and heap objects -/

/-- Mirrors `Chunk` of src/vm/chunk.go: instruction bytes and the constant
pool (`lines` is omitted, see the header comment). -/
structure Chunk where
  code : List Nat
  consts : List Value
deriving DecidableEq, Repr, Inhabited

/-- Mirrors `Chunk.Write` for a single byte. -/
def Chunk.write (c : Chunk) (b : Nat) : Chunk := { c with code := c.code ++ [b] }

/-- Mirrors `Chunk.AddConst`: appends and returns the new index. -/
def Chunk.addConst (c : Chunk) (v : Value) : Nat × Chunk :=
  (c.consts.length, { c with consts := c.consts ++ [v] })

/-- Mirrors `VFun` of src/vm/value.go: a compiled prototype. `name` is the
id of an interned string, `none` for the top-level script. -/
structure FunObj where
  name : Option Nat
  arity : Nat
  upvalCount : Nat
  chunk : Chunk
deriving DecidableEq, Repr, Inhabited

/-- Mirrors `VClos`: a function prototype plus captured upvalue cells.
`upvals` holds cell ids; `none` is the Go nil `*VUpval` that
`NewVClos`'s `make([]*VUpval, n)` starts with before `OpClos` fills it. -/
structure ClosObj where
  funId : Nat
  upvals : List (Option Nat)
deriving DecidableEq, Repr, Inhabited

/-- Value of an upvalue cell.  Modelled from the spec (§3.4), the final
value.go revision being absent from the sources: the cell's `val` field is
a `*Value` that either points into the VM value stack (`stackRef`, the
pointer `&vm.stack[i]` created by `NewVUpval`) or points at a detached
boxed copy (`boxed`, the fresh box `utils.Ref(...)` written by
`OpSetUpval`). -/
inductive CellVal where
  | stackRef (i : Nat) : CellVal
  | boxed (v : Value) : CellVal
deriving DecidableEq, Repr, Inhabited

/-- Modelled from the spec (§3.4) plus the uses in src/vm/vm.go: an upvalue
cell `VUpval` has a value pointer `val` and an open-index pointer `idx`
(`nil`, i.e. `none`, once closed).  The intrusive `next` chain is
represented by the order of the `openUpvals` id list in the VM state. -/
structure Cell where
  val : CellVal
  idx : Option Nat
deriving DecidableEq, Repr, Inhabited

/-- Mirrors `VClass`: display name (string id) and the method table.  Go's
`map[VStr]Value` is keyed by the `VStr` struct, i.e. by string content, so
the model keys methods by `String`. -/
structure ClassObj where
  nameId : Nat
  methods : List (String × Value)
deriving DecidableEq, Repr, Inhabited

/-- Mirrors `VInstance`: its class and the content-keyed field table. -/
structure InstObj where
  classId : Nat
  fields : List (String × Value)
deriving DecidableEq, Repr, Inhabited

/-- Mirrors `VBoundMethod`: receiver (`this`) plus the method closure. -/
structure BoundObj where
  self : Value
  closId : Nat
deriving DecidableEq, Repr, Inhabited

/-- Content-keyed lookup in a Go `map[VStr]Value` model. -/
def alookup (m : List (String × Value)) (k : String) : Option Value :=
  (m.find? (fun p => p.1 == k)).map (·.2)

/-- Content-keyed insert/overwrite in a Go `map[VStr]Value` model. -/
def aset (m : List (String × Value)) (k : String) (v : Value) :
    List (String × Value) :=
  match m with
  | [] => [(k, v)]
  | p :: rest => if p.1 == k then (k, v) :: rest else p :: aset rest k v

/-! ## VM state (src/vm/vm.go) -/

/-- Mirrors `CallFrame`: active closure id, instruction pointer, and the
stack index of slot 0. -/
structure Frame where
  closId : Nat
  ip : Nat
  base : Nat
deriving DecidableEq, Repr, Inhabited

/-- Mirrors the `VM` struct plus the explicit heaps for the pointer-backed
objects.  `openUpvals` is the intrusive list of open cells, head first,
sorted descending by stack index.  `prints` records the values printed by
`OpPrint` (output formatting is not modelled). -/
structure VMSt where
  stack : List Value
  frames : List Frame
  globals : List (String × Value)
  openUpvals : List Nat
  cells : List Cell
  strs : List String
  funs : List FunObj
  closes : List ClosObj
  classes : List ClassObj
  insts : List InstObj
  bounds : List BoundObj
  prints : List Value
deriving DecidableEq, Repr, Inhabited

/-- Chunk of the frame's closure (`vm.chunk()`). -/
def VMSt.chunkOf (st : VMSt) (fr : Frame) : Chunk :=
  (st.funs.getD (st.closes.getD fr.closId default).funId default).chunk

/-- Current (innermost) frame, `vm.frame()`. -/
def VMSt.frame (st : VMSt) : Option Frame := st.frames.getLast?

/-- Replace the innermost frame's ip (the Go code mutates `frame.ip` in
place through `vm.ip()`). -/
def VMSt.setIp (st : VMSt) (i : Nat) : VMSt :=
  match st.frames.getLast? with
  | none => st
  | some fr => { st with frames := st.frames.dropLast ++ [{ fr with ip := i }] }

/-- Mirrors `vm.push`. -/
def VMSt.push (st : VMSt) (v : Value) : VMSt := { st with stack := st.stack ++ [v] }

/-- Mirrors `vm.peek(distance)`; `none` when the index underflows (Go
panics there). -/
def VMSt.peekAt (st : VMSt) (d : Nat) : Option Value :=
  if d < st.stack.length then st.stack.get? (st.stack.length - 1 - d) else none

/-! ## Opcodes

The final `chunk.go` revision carrying the full opcode enumeration is not
among the sources; the opcode list is modelled from the spec (§6.2), which
names every instruction and its operands.  The concrete byte values are
immaterial: compiler and VM share the same encoding, exactly as the Go
enum does. -/

inductive OpCode where
  | opReturn | opConst | opNil | opTrue | opFalse | opPop
  | opGetLocal | opSetLocal | opGetGlobal | opDefGlobal | opSetGlobal
  | opGetUpval | opSetUpval | opGetProp | opSetProp
  | opEqual | opGreater | opLess | opNot | opNeg
  | opAdd | opSub | opMul | opDiv | opPrint
  | opJump | opJumpUnless | opLoop | opCall | opInvoke
  | opClos | opCloseUpval | opClass | opMethod
deriving DecidableEq, Repr, Inhabited

/-- Byte value of an opcode (`byte(inst)` in Go). -/
def OpCode.toByte : OpCode → Nat
  | .opReturn => 0 | .opConst => 1 | .opNil => 2 | .opTrue => 3 | .opFalse => 4
  | .opPop => 5 | .opGetLocal => 6 | .opSetLocal => 7 | .opGetGlobal => 8
  | .opDefGlobal => 9 | .opSetGlobal => 10 | .opGetUpval => 11 | .opSetUpval => 12
  | .opGetProp => 13 | .opSetProp => 14 | .opEqual => 15 | .opGreater => 16
  | .opLess => 17 | .opNot => 18 | .opNeg => 19 | .opAdd => 20 | .opSub => 21
  | .opMul => 22 | .opDiv => 23 | .opPrint => 24 | .opJump => 25
  | .opJumpUnless => 26 | .opLoop => 27 | .opCall => 28 | .opInvoke => 29
  | .opClos => 30 | .opCloseUpval => 31 | .opClass => 32 | .opMethod => 33

/-- Decoding used by the dispatch switch (`OpCode(readByte())`); bytes
outside the enum hit the `default` arm of `run`. -/
def decodeOp (b : Nat) : Option OpCode :=
  match b with
  | 0 => some .opReturn | 1 => some .opConst | 2 => some .opNil
  | 3 => some .opTrue | 4 => some .opFalse | 5 => some .opPop
  | 6 => some .opGetLocal | 7 => some .opSetLocal | 8 => some .opGetGlobal
  | 9 => some .opDefGlobal | 10 => some .opSetGlobal | 11 => some .opGetUpval
  | 12 => some .opSetUpval | 13 => some .opGetProp | 14 => some .opSetProp
  | 15 => some .opEqual | 16 => some .opGreater | 17 => some .opLess
  | 18 => some .opNot | 19 => some .opNeg | 20 => some .opAdd
  | 21 => some .opSub | 22 => some .opMul | 23 => some .opDiv
  | 24 => some .opPrint | 25 => some .opJump | 26 => some .opJumpUnless
  | 27 => some .opLoop | 28 => some .opCall | 29 => some .opInvoke
  | 30 => some .opClos | 31 => some .opCloseUpval | 32 => some .opClass
  | 33 => some .opMethod | _ => none

/-- Shorthand for emitting an opcode byte. -/
def ob (o : OpCode) : Nat := o.toByte

/-! ## Upvalue protocol (src/vm/vm.go lines 639-668) -/

/-- Mirrors `closeUpvals(minStackIdx)`: peel cells off the head of the open
list while the head's stack index is `≥ minStackIdx`, setting each peeled
cell's `idx` to `nil` (closed).  The loop dereferences `*(*curr).idx`, so a
closed cell sitting in the open list would be a Go nil dereference: that is
the `none` result.  Note the Go code copies no value: `val` keeps pointing
wherever it pointed. -/
def closeUpvals (cells : List Cell) (ups : List Nat) (minStackIdx : Nat) :
    Option (List Cell × List Nat) :=
  match ups with
  | [] => some (cells, [])
  | c :: rest =>
    match (cells.getD c default).idx with
    | none => none
    | some i =>
      if minStackIdx ≤ i then
        closeUpvals (cells.set c { cells.getD c default with idx := none }) rest minStackIdx
      else
        some (cells, c :: rest)

/-- Mirrors the walk inside `captureUpval`: skip cells with index above
`stackIdx`; reuse an exact match; otherwise splice the fresh id `newId` in
front of the remainder.  Fails (`none`) on the Go nil dereference of a
closed cell in the open list. -/
def captureWalk (cells : List Cell) (newId stackIdx : Nat) :
    List Nat → Option (Nat × List Nat)
  | [] => some (newId, [newId])
  | c :: rest =>
    match (cells.getD c default).idx with
    | none => none
    | some i =>
      if stackIdx < i then
        match captureWalk cells newId stackIdx rest with
        | none => none
        | some (rid, rest1) => some (rid, c :: rest1)
      else if i == stackIdx then some (c, c :: rest)
      else some (newId, newId :: c :: rest)

/-- Mirrors `captureUpval(stackIdx)`: returns the cell id for the slot, the
cell heap, and the new open list.  A fresh cell (`NewVUpval(&vm.stack[stackIdx],
stackIdx)`) is allocated exactly when the walk did not find an existing
cell; `&vm.stack[stackIdx]` requires the slot to exist, else Go panics
(`none`). -/
def captureUpval (st : VMSt) (stackIdx : Nat) : Option (Nat × VMSt) :=
  if stackIdx < st.stack.length then
    match captureWalk st.cells st.cells.length stackIdx st.openUpvals with
    | none => none
    | some (rid, ups1) =>
      if rid == st.cells.length then
        some (rid, { st with
          cells := st.cells ++ [{ val := .stackRef stackIdx, idx := some stackIdx }],
          openUpvals := ups1 })
      else
        some (rid, { st with openUpvals := ups1 })
  else none

/-- Reading through a cell's `val` pointer (`*upval.val`).  An open cell
points at a live stack slot; a closed-but-never-reassigned cell still
points into the stack's backing storage, which the plain-list stack of
this model can no longer represent once the slot is popped, hence `none`
(the dedicated Go-slice model below covers that aliasing for the
`closeUpvals` claim). -/
def readCellVal (st : VMSt) : CellVal → Option Value
  | .boxed v => some v
  | .stackRef i => st.stack.get? i

/-! ## Calling convention (src/vm/vm.go lines 585-637) -/

/-- Outcome of `vm.call` and of a dispatch step. -/
inductive CallOut where
  | okSt (st : VMSt) : CallOut
  | errOut (reason : String) (st : VMSt) : CallOut
  | fault (st : VMSt) : CallOut
deriving Repr

/-- Mirrors `callClos`: arity check, then push a frame with
`base = len(stack) - argCount - 1` and `ip = 0`. -/
def callClos (st : VMSt) (cid argCount : Nat) : CallOut :=
  let base := st.stack.length - argCount - 1
  let arity := (st.funs.getD (st.closes.getD cid default).funId default).arity
  if argCount ≠ arity then
    .errOut (s!"expected {arity} arguments but got {argCount}") st
  else
    .okSt { st with frames := st.frames ++ [{ closId := cid, ip := 0, base := base }] }

/-- Mirrors `vm.call(callee, argCount)`.  The class arm replaces the callee
slot with a fresh instance, then runs `init` if it exists and is a closure;
with no `init` a nonzero `argCount` is the "expected 0 arguments" error.
The native arm is applied to `vm.stack[base:]` (callee included, as in Go)
and splices the result in place of the frame slots. -/
def vmCall (runNative : Nat → List Value → Except String Value)
    (st : VMSt) (callee : Value) (argCount : Nat) : CallOut :=
  if st.stack.length < argCount + 1 then .fault st else
  let base := st.stack.length - argCount - 1
  match callee with
  | .vclass cid =>
    let instId := st.insts.length
    let st1 := { st with
      insts := st.insts ++ [{ classId := cid, fields := [] }],
      stack := st.stack.set base (.vinst instId) }
    match alookup (st.classes.getD cid default).methods "init" with
    | some (.vclos icid) => callClos st1 icid argCount
    | some _ => .okSt st1
    | none =>
      if argCount ≠ 0 then
        .errOut (s!"expected 0 arguments but got {argCount}.") st1
      else .okSt st1
  | .vbound bid =>
    let b := st.bounds.getD bid default
    callClos { st with stack := st.stack.set base b.self } b.closId argCount
  | .vclos cid => callClos st cid argCount
  | .vnative nid =>
    match runNative nid (st.stack.drop base) with
    | .ok res => .okSt { st with stack := st.stack.take base ++ [res] }
    | .error e => .errOut e st
  | _ => .errOut "can only call functions and classes" st

/-- Mirrors `invokeFromClass`. -/
def invokeFromClass (runNative : Nat → List Value → Except String Value)
    (st : VMSt) (classId : Nat) (methodName : String) (argCount : Nat) : CallOut :=
  match alookup (st.classes.getD classId default).methods methodName with
  | none => .errOut ("undefined property " ++ methodName) st
  | some m => vmCall runNative st m argCount

/-- Behaviour of the native functions.  Modelled from the spec (§6.4): the
only native ever registered is `clock`, which ignores its arguments and
returns a `Num` (wall-clock time, an external input; the model fixes the
reading to 0 — no claim depends on it). -/
def runNative (_id : Nat) (_args : List Value) : Except String Value :=
  .ok (.vnum 0)

/-! ## The dispatch loop (src/vm/vm.go `run`) -/

/-- Outcome of one iteration of the dispatch loop. -/
inductive StepOut where
  | cont (st : VMSt) : StepOut
  | done (v : Value) (st : VMSt) : StepOut
  | errOut (reason : String) (st : VMSt) : StepOut
  | fault (st : VMSt) : StepOut
deriving Repr

/-- Upvalue-pair loop of the `OpClos` case: `i` is the position in the new
closure's `upvals`, `n` the remaining pair count, `bytes` the operand
bytes `(isLocal, idx)*`.  `isLocal` uses `utils.IntToBool` (any nonzero
byte). -/
def closCapture (frBase closId : Nat) : Nat → Nat → List Nat → VMSt → Option VMSt
  | _, 0, _, st => some st
  | i, n + 1, bl :: bi :: rest2, st =>
    let setUv (st1 : VMSt) (v : Option Nat) : VMSt :=
      let c := st1.closes.getD closId default
      { st1 with closes := st1.closes.set closId { c with upvals := c.upvals.set i v } }
    if bl ≠ 0 then
      match captureUpval st (frBase + bi) with
      | none => none
      | some (cid, st1) => closCapture frBase closId (i + 1) n rest2 (setUv st1 (some cid))
    else
      match st.frames.getLast? with
      | none => none
      | some fr =>
        match (st.closes.getD fr.closId default).upvals.get? bi with
        | none => none
        | some ov => closCapture frBase closId (i + 1) n rest2 (setUv st ov)
  | _, _ + 1, _, _ => none

/-- Map a `CallOut` into a `StepOut`. -/
def CallOut.toStep : CallOut → StepOut
  | .okSt st => .cont st
  | .errOut r st => .errOut r st
  | .fault st => .fault st

/-- One iteration of the dispatch switch of `run` (src/vm/vm.go lines
361-582), given the decoded opcode and the code bytes following it.
`fr` is the current frame; Go `panic`s (index/type-assertion/nil failures)
are `.fault`. -/
def execOp (st : VMSt) (fr : Frame) (op : OpCode) (rest : List Nat) : StepOut :=
  let K := st.chunkOf fr
  match op with
  | .opReturn =>
    match st.stack.getLast? with
    | none => .fault st
    | some res =>
      let st1 := { st with stack := st.stack.dropLast }
      match closeUpvals st1.cells st1.openUpvals fr.base with
      | none => .fault st1
      | some (cells1, ups1) =>
        let st2 := { st1 with
          cells := cells1, openUpvals := ups1, frames := st1.frames.dropLast }
        if st2.frames.isEmpty then
          match st2.stack.length with
          | 1 => .done res { st2 with stack := [] }
          | 2 =>
            match st2.stack.getLast? with
            | none => .fault st2
            | some res2 => .done res2 { st2 with stack := [] }
          | _ => .errOut "unexpected number of values in the stack" st2
        else
          .cont { st2 with stack := st2.stack.take fr.base ++ [res] }
  | .opConst =>
    match rest.get? 0 with
    | none => .fault st
    | some c =>
      match K.consts.get? c with
      | none => .fault st
      | some v => .cont ((st.setIp (fr.ip + 2)).push v)
  | .opNil => .cont ((st.setIp (fr.ip + 1)).push .vnil)
  | .opTrue => .cont ((st.setIp (fr.ip + 1)).push (.vbool true))
  | .opFalse => .cont ((st.setIp (fr.ip + 1)).push (.vbool false))
  | .opPop =>
    match st.stack.getLast? with
    | none => .fault st
    | some _ => .cont { st.setIp (fr.ip + 1) with stack := st.stack.dropLast }
  | .opGetLocal =>
    match rest.get? 0 with
    | none => .fault st
    | some slot =>
      match st.stack.get? (fr.base + slot) with
      | none => .fault st
      | some v => .cont ((st.setIp (fr.ip + 2)).push v)
  | .opSetLocal =>
    match rest.get? 0 with
    | none => .fault st
    | some slot =>
      match st.peekAt 0 with
      | none => .fault st
      | some v =>
        if fr.base + slot < st.stack.length then
          .cont { st.setIp (fr.ip + 2) with stack := st.stack.set (fr.base + slot) v }
        else .fault st
  | .opGetGlobal =>
    match rest.get? 0 with
    | none => .fault st
    | some c =>
      match K.consts.get? c with
      | some (.vstr id) =>
        let name := st.strs.getD id ""
        match alookup st.globals name with
        | none => .errOut ("undefined variable " ++ name) st
        | some v => .cont ((st.setIp (fr.ip + 2)).push v)
      | _ => .fault st
  | .opDefGlobal =>
    match rest.get? 0 with
    | none => .fault st
    | some c =>
      match K.consts.get? c with
      | some (.vstr id) =>
        let name := st.strs.getD id ""
        match st.stack.getLast? with
        | none => .fault st
        | some v =>
          .cont { st.setIp (fr.ip + 2) with
                  stack := st.stack.dropLast, globals := aset st.globals name v }
      | _ => .fault st
  | .opSetGlobal =>
    match rest.get? 0 with
    | none => .fault st
    | some c =>
      match K.consts.get? c with
      | some (.vstr id) =>
        let name := st.strs.getD id ""
        match alookup st.globals name with
        | none => .errOut ("undefined variable " ++ name) st
        | some _ =>
          match st.peekAt 0 with
          | none => .fault st
          | some v =>
            .cont { st.setIp (fr.ip + 2) with globals := aset st.globals name v }
      | _ => .fault st
  | .opGetUpval =>
    match rest.get? 0 with
    | none => .fault st
    | some slot =>
      match (st.closes.getD fr.closId default).upvals.get? slot with
      | none => .fault st
      | some none => .fault st
      | some (some cid) =>
        match readCellVal st (st.cells.getD cid default).val with
        | none => .fault st
        | some v => .cont ((st.setIp (fr.ip + 2)).push v)
  | .opSetUpval =>
    match rest.get? 0 with
    | none => .fault st
    | some slot =>
      match (st.closes.getD fr.closId default).upvals.get? slot with
      | none => .fault st
      | some none => .fault st
      | some (some cid) =>
        match st.peekAt 0 with
        | none => .fault st
        | some v =>
          .cont { st.setIp (fr.ip + 2) with
                  cells := st.cells.set cid
                    { val := .boxed v, idx := some (st.stack.length - 1) } }
  | .opGetProp =>
    match st.peekAt 0 with
    | none => .fault st
    | some this =>
      match this with
      | .vinst iid =>
        match rest.get? 0 with
        | none => .fault st
        | some c =>
          match K.consts.get? c with
          | some (.vstr id) =>
            let name := st.strs.getD id ""
            let inst := st.insts.getD iid default
            match alookup inst.fields name with
            | some res =>
              .cont { st.setIp (fr.ip + 2) with
                      stack := st.stack.set (st.stack.length - 1) res }
            | none =>
              match alookup (st.classes.getD inst.classId default).methods name with
              | none => .errOut ("undefined property " ++ name) st
              | some (.vclos mcid) =>
                let bid := st.bounds.length
                .cont { st.setIp (fr.ip + 2) with
                        bounds := st.bounds ++ [{ self := this, closId := mcid }],
                        stack := st.stack.set (st.stack.length - 1) (.vbound bid) }
              | some _ => .fault st
          | _ => .fault st
      | _ => .errOut "only instances have properties" st
  | .opSetProp =>
    match st.peekAt 1 with
    | none => .fault st
    | some this =>
      match this with
      | .vinst iid =>
        match rest.get? 0 with
        | none => .fault st
        | some c =>
          match K.consts.get? c with
          | some (.vstr id) =>
            let name := st.strs.getD id ""
            match st.peekAt 0 with
            | none => .fault st
            | some rhs =>
              let inst := st.insts.getD iid default
              .cont { st.setIp (fr.ip + 2) with
                      insts := st.insts.set iid
                        { inst with fields := aset inst.fields name rhs },
                      stack := st.stack.take (st.stack.length - 2) ++ [rhs] }
          | _ => .fault st
      | _ => .errOut "only instances have fields" st
  | .opEqual =>
    match st.stack.getLast? with
    | none => .fault st
    | some rhs =>
      let s1 := st.stack.dropLast
      match s1.getLast? with
      | none => .fault st
      | some lhs =>
        .cont { st.setIp (fr.ip + 1) with
                stack := s1.dropLast ++ [.vbool (vEq lhs rhs)] }
  | .opGreater =>
    match st.stack.getLast? with
    | none => .fault st
    | some rhs =>
      let s1 := st.stack.dropLast
      match s1.getLast? with
      | none => .fault st
      | some lhs =>
        match vGreater lhs rhs with
        | none => .errOut "operands must be numbers" { st with stack := s1.dropLast }
        | some v =>
          .cont { st.setIp (fr.ip + 1) with stack := s1.dropLast ++ [v] }
  | .opLess =>
    match st.stack.getLast? with
    | none => .fault st
    | some rhs =>
      let s1 := st.stack.dropLast
      match s1.getLast? with
      | none => .fault st
      | some lhs =>
        match vLess lhs rhs with
        | none => .errOut "operands must be numbers" { st with stack := s1.dropLast }
        | some v =>
          .cont { st.setIp (fr.ip + 1) with stack := s1.dropLast ++ [v] }
  | .opNot =>
    match st.stack.getLast? with
    | none => .fault st
    | some v =>
      .cont { st.setIp (fr.ip + 1) with
              stack := st.stack.dropLast ++ [.vbool (!vTruthy v)] }
  | .opNeg =>
    match st.stack.getLast? with
    | none => .fault st
    | some v =>
      match vNeg v with
      | none => .errOut "operand must be a number" { st with stack := st.stack.dropLast }
      | some r =>
        .cont { st.setIp (fr.ip + 1) with stack := st.stack.dropLast ++ [r] }
  | .opAdd =>
    match st.stack.getLast? with
    | none => .fault st
    | some rhs =>
      let s1 := st.stack.dropLast
      match s1.getLast? with
      | none => .fault st
      | some lhs =>
        match vAdd st.strs lhs rhs with
        | none =>
          .errOut "operands must be all numbers or all strings" { st with stack := s1.dropLast }
        | some (v, strs1) =>
          .cont { st.setIp (fr.ip + 1) with stack := s1.dropLast ++ [v], strs := strs1 }
  | .opSub =>
    match st.stack.getLast? with
    | none => .fault st
    | some rhs =>
      let s1 := st.stack.dropLast
      match s1.getLast? with
      | none => .fault st
      | some lhs =>
        match vSub lhs rhs with
        | none => .errOut "operands must be numbers" { st with stack := s1.dropLast }
        | some v =>
          .cont { st.setIp (fr.ip + 1) with stack := s1.dropLast ++ [v] }
  | .opMul =>
    match st.stack.getLast? with
    | none => .fault st
    | some rhs =>
      let s1 := st.stack.dropLast
      match s1.getLast? with
      | none => .fault st
      | some lhs =>
        match vMul lhs rhs with
        | none => .errOut "operands must be numbers" { st with stack := s1.dropLast }
        | some v =>
          .cont { st.setIp (fr.ip + 1) with stack := s1.dropLast ++ [v] }
  | .opDiv =>
    match st.stack.getLast? with
    | none => .fault st
    | some rhs =>
      let s1 := st.stack.dropLast
      match s1.getLast? with
      | none => .fault st
      | some lhs =>
        match vDiv lhs rhs with
        | none => .errOut "operands must be numbers" { st with stack := s1.dropLast }
        | some v =>
          .cont { st.setIp (fr.ip + 1) with stack := s1.dropLast ++ [v] }
  | .opPrint =>
    match st.stack.getLast? with
    | none => .fault st
    | some v =>
      .cont { st.setIp (fr.ip + 1) with
              stack := st.stack.dropLast, prints := st.prints ++ [v] }
  | .opJump =>
    match rest.get? 0, rest.get? 1 with
    | some hi, some lo => .cont (st.setIp (fr.ip + 3 + (hi * 256 + lo)))
    | _, _ => .fault st
  | .opJumpUnless =>
    match rest.get? 0, rest.get? 1 with
    | some hi, some lo =>
      match st.peekAt 0 with
      | none => .fault st
      | some v =>
        if vTruthy v then .cont (st.setIp (fr.ip + 3))
        else .cont (st.setIp (fr.ip + 3 + (hi * 256 + lo)))
    | _, _ => .fault st
  | .opLoop =>
    match rest.get? 0, rest.get? 1 with
    | some hi, some lo =>
      if fr.ip + 3 < hi * 256 + lo then .fault st
      else .cont (st.setIp (fr.ip + 3 - (hi * 256 + lo)))
    | _, _ => .fault st
  | .opCall =>
    match rest.get? 0 with
    | none => .fault st
    | some argCount =>
      match st.peekAt argCount with
      | none => .fault st
      | some callee => (vmCall runNative (st.setIp (fr.ip + 2)) callee argCount).toStep
  | .opInvoke =>
    match rest.get? 0, rest.get? 1 with
    | some c, some argCount =>
      match K.consts.get? c with
      | some (.vstr id) =>
        let name := st.strs.getD id ""
        let st1 := st.setIp (fr.ip + 3)
        match st1.peekAt argCount with
        | none => .fault st1
        | some this =>
          match this with
          | .vinst iid =>
            let inst := st1.insts.getD iid default
            match alookup inst.fields name with
            | some field =>
              let base := st1.stack.length - argCount - 1
              let st2 := { st1 with stack := st1.stack.set base field }
              (vmCall runNative st2 field argCount).toStep
            | none =>
              (invokeFromClass runNative st1 inst.classId name argCount).toStep
          | _ => .errOut "only instances have methods" st1
      | _ => .fault st
    | _, _ => .fault st
  | .opClos =>
    match rest.get? 0 with
    | none => .fault st
    | some c =>
      match K.consts.get? c with
      | some (.vfun fid) =>
        let n := (st.funs.getD fid default).upvalCount
        let closId := st.closes.length
        let st1 := (st.setIp (fr.ip + 2 + 2 * n)).push (.vclos closId)
        let st2 := { st1 with
          closes := st1.closes ++ [{ funId := fid, upvals := List.replicate n none }] }
        match closCapture fr.base closId 0 n (rest.drop 1) st2 with
        | none => .fault st
        | some st3 => .cont st3
      | _ => .fault st
  | .opCloseUpval =>
    match closeUpvals st.cells st.openUpvals (st.stack.length - 1) with
    | none => .fault st
    | some (cells1, ups1) =>
      match st.stack.getLast? with
      | none => .fault st
      | some _ =>
        .cont { st.setIp (fr.ip + 1) with
                cells := cells1, openUpvals := ups1, stack := st.stack.dropLast }
  | .opClass =>
    match rest.get? 0 with
    | none => .fault st
    | some c =>
      match K.consts.get? c with
      | some (.vstr id) =>
        let classId := st.classes.length
        let st1 := (st.setIp (fr.ip + 2)).push (.vclass classId)
        .cont { st1 with classes := st1.classes ++ [{ nameId := id, methods := [] }] }
      | _ => .fault st
  | .opMethod =>
    match rest.get? 0 with
    | none => .fault st
    | some c =>
      match K.consts.get? c with
      | some (.vstr id) =>
        let name := st.strs.getD id ""
        match st.stack.getLast? with
        | none => .fault st
        | some method =>
          let s1 := st.stack.dropLast
          match s1.getLast? with
          | some (.vclass cid) =>
            let cls := st.classes.getD cid default
            .cont { st.setIp (fr.ip + 2) with
                    stack := s1,
                    classes := st.classes.set cid
                      { cls with methods := aset cls.methods name method } }
          | _ => .fault st
      | _ => .fault st

/-- One iteration of `run`'s `for` loop: fetch the byte at the current
frame's ip and dispatch.  No frame / out-of-range fetch is a Go panic;
an unknown byte is the `default` arm's runtime error. -/
def step (st : VMSt) : StepOut :=
  match st.frames.getLast? with
  | none => .fault st
  | some fr =>
    match (st.chunkOf fr).code.drop fr.ip with
    | [] => .fault st
    | b :: rest =>
      match decodeOp b with
      | none => .errOut "unknown instruction" st
      | some op => execOp st fr op rest

/-! ## Fuel-indexed run relation -/

/-- Outcome of `run` (src/vm/vm.go lines 334-583) under a fuel bound. -/
inductive RunOut where
  | okOut (v : Value) (st : VMSt) : RunOut
  | failOut (reason : String) (st : VMSt) : RunOut
  | faultOut (st : VMSt) : RunOut
  | outOfFuel (st : VMSt) : RunOut
deriving Repr

/-- Iterate `step` up to `fuel` times, mirroring `run`'s `for` loop. -/
def runFuel : Nat → VMSt → RunOut
  | 0, st => .outOfFuel st
  | n + 1, st =>
    match step st with
    | .cont st1 => runFuel n st1
    | .done v st1 => .okOut v st1
    | .errOut r st1 => .failOut r st1
    | .fault st1 => .faultOut st1

/-- Reflexive-transitive closure of successful (`.cont`) dispatch steps. -/
def StepsTo (a b : VMSt) : Prop :=
  Relation.ReflTransGen (fun x y => step x = .cont y) a b

/-! ## Compile-time state and emission helpers (src/vm/compiler.go)

The Pratt token driver (source text → syntax) is not embedded; expressions
enter as the syntax tree `Expr` below, and each constructor's compilation
mirrors the corresponding emitter method of `Parser` byte for byte.
`CompSt` is the part of the parser state those emitters touch: the chunk
under construction and the process string heap (`NewVStr` allocations made
while compiling). -/

structure CompSt where
  code : List Nat
  consts : List Value
  strs : List String
deriving DecidableEq, Repr, Inhabited

/-- Mirrors `Parser.emitBytes` (line bookkeeping omitted). -/
def emitBytesC (σ : CompSt) (bs : List Nat) : CompSt := { σ with code := σ.code ++ bs }

/-- Mirrors `Parser.mkConst`: `AddConst` plus the 255 limit (`none` is the
"too many consts in one chunk" panic). -/
def mkConst (σ : CompSt) (v : Value) : Option (Nat × CompSt) :=
  let idx := σ.consts.length
  if 255 < idx then none
  else some (idx, { σ with consts := σ.consts ++ [v] })

/-- Mirrors `Parser.emitConst`. -/
def emitConstC (σ : CompSt) (v : Value) : Option CompSt :=
  (mkConst σ v).map (fun p => emitBytesC p.2 [ob .opConst, p.1])

/-- Mirrors `Parser.identConst`: `mkConst(NewVStr(name))`. -/
def identConst (σ : CompSt) (name : String) : Option (Nat × CompSt) :=
  let r := newVStr σ.strs name
  mkConst { σ with strs := r.2 } (.vstr r.1)

/-- Mirrors `Parser.emitJump` (src/vm/compiler.go lines 872-875): emit the
opcode and two `0xff` placeholder bytes, return the placeholder offset. -/
def emitJump (σ : CompSt) (inst : OpCode) : Nat × CompSt :=
  let σ1 := emitBytesC σ [ob inst, 255, 255]
  (σ1.code.length - 2, σ1)

/-- Mirrors `Parser.patchJump` (src/vm/compiler.go lines 877-887): write
`len(code) - (offset + 2)` as two big-endian bytes at the placeholder;
`none` is the "too much code to jump over" panic past `math.MaxUint16`. -/
def patchJump (σ : CompSt) (offset : Nat) : Option CompSt :=
  let jump := σ.code.length - (offset + 2)
  if 65535 < jump then none
  else some { σ with
    code := (σ.code.set offset ((jump >>> 8) &&& 255)).set (offset + 1) (jump &&& 255) }

/-- Mirrors `Parser.emitLoop` (src/vm/compiler.go lines 889-898): emit
`OpLoop`, then `len(code) + 2 - start` (measured after the opcode byte) as
two big-endian operand bytes; `none` is the "loop body too large" panic. -/
def emitLoop (σ : CompSt) (start : Nat) : Option CompSt :=
  let σ1 := emitBytesC σ [ob .opLoop]
  let backJump := σ1.code.length + 2 - start
  if 65535 < backJump then none
  else some (emitBytesC σ1 [(backJump >>> 8) &&& 255, backJump &&& 255])

/-! ## Scope exit (src/vm/compiler.go lines 822-836) -/

/-- Mirrors `Local` of the compiler: name lexeme, scope depth (`-1` is
`Uninit`), capture flag. -/
structure Local where
  name : String
  depth : Int
  isCaptured : Bool
deriving DecidableEq, Repr, Inhabited

/-- Loop body of `endScope`, walking the locals from the innermost end
(the argument list is `locals.reverse`): stop at the first local whose
depth is `≤` the new depth, else emit exactly one clean-up byte —
`OpCloseUpval` when captured, `OpPop` otherwise — and discard the local. -/
def endScopeRev (d : Int) : List Local → List Nat → List Local × List Nat
  | [], code => ([], code)
  | l :: rest, code =>
    if l.depth ≤ d then (l :: rest, code)
    else endScopeRev d rest
      (code ++ [if l.isCaptured then ob .opCloseUpval else ob .opPop])

/-- Mirrors `Parser.endScope`: decrement the depth, then pop trailing
locals of deeper scopes, emitting one clean-up instruction each.  Returns
the new depth, the surviving locals, and the code grown by the emitted
clean-up bytes. -/
def endScope (depth : Int) (locals : List Local) (code : List Nat) :
    Int × List Local × List Nat :=
  let r := endScopeRev (depth - 1) locals.reverse code
  (depth - 1, r.1.reverse, r.2)

/-! ## Expression syntax and its compilation

`Expr` is the expression fragment of the grammar (§4.2.1/4.2.3 of the
spec) as produced by the Pratt driver at the top level of a script, where
every identifier resolves to a global (`resolveLocal` and `resolveUpval`
fail for the script frame).  Each case of `compileE` transcribes the
emission performed by the corresponding `Parser` method (`num`, `str`,
`lit`, `namedVar`, `unary`, `binary`, `and`, `or`, `call`, `dot`). -/

inductive BinOp where
  | add | sub | mul | div | beq | bne | blt | bgt | ble | bge
deriving DecidableEq, Repr

/-- Opcode sequence emitted by `Parser.binary` for each operator. -/
def binOpBytes : BinOp → List Nat
  | .bne => [ob .opEqual, ob .opNot]
  | .beq => [ob .opEqual]
  | .bgt => [ob .opGreater]
  | .bge => [ob .opLess, ob .opNot]
  | .blt => [ob .opLess]
  | .ble => [ob .opGreater, ob .opNot]
  | .add => [ob .opAdd]
  | .sub => [ob .opSub]
  | .mul => [ob .opMul]
  | .div => [ob .opDiv]

inductive Expr where
  | enum (q : Rat) : Expr
  | estr (s : String) : Expr
  | ebool (b : Bool) : Expr
  | enil : Expr
  | eget (name : String) : Expr
  | eset (name : String) (rhs : Expr) : Expr
  | enot (e : Expr) : Expr
  | eneg (e : Expr) : Expr
  | ebin (op : BinOp) (l r : Expr) : Expr
  | eand (l r : Expr) : Expr
  | eor (l r : Expr) : Expr
  | ecall (f : Expr) (args : List Expr) : Expr
  | egetp (o : Expr) (name : String) : Expr
  | esetp (o : Expr) (name : String) (rhs : Expr) : Expr
  | einvoke (o : Expr) (name : String) (args : List Expr) : Expr
deriving Repr

mutual

/-- Compilation of one expression, mirroring the `Parser` emitters; `none`
collects both the compile panics (constant overflow, jump overflow) and
the "too many arguments" parse error, all of which abort `Interpret`
before `run`. -/
def compileE : Expr → CompSt → Option CompSt
  | .enum q, σ => emitConstC σ (.vnum q)
  | .estr s, σ =>
    let r := newVStr σ.strs s
    emitConstC { σ with strs := r.2 } (.vstr r.1)
  | .ebool true, σ => some (emitBytesC σ [ob .opTrue])
  | .ebool false, σ => some (emitBytesC σ [ob .opFalse])
  | .enil, σ => some (emitBytesC σ [ob .opNil])
  | .eget n, σ => do
    let p ← identConst σ n
    some (emitBytesC p.2 [ob .opGetGlobal, p.1])
  | .eset n r, σ => do
    let p ← identConst σ n
    let σ2 ← compileE r p.2
    some (emitBytesC σ2 [ob .opSetGlobal, p.1])
  | .enot e, σ => do
    let σ1 ← compileE e σ
    some (emitBytesC σ1 [ob .opNot])
  | .eneg e, σ => do
    let σ1 ← compileE e σ
    some (emitBytesC σ1 [ob .opNeg])
  | .ebin op l r, σ => do
    let σ1 ← compileE l σ
    let σ2 ← compileE r σ1
    some (emitBytesC σ2 (binOpBytes op))
  | .eand l r, σ => do
    let σ1 ← compileE l σ
    let p := emitJump σ1 .opJumpUnless
    let σ3 := emitBytesC p.2 [ob .opPop]
    let σ4 ← compileE r σ3
    patchJump σ4 p.1
  | .eor l r, σ => do
    let σ1 ← compileE l σ
    let pElse := emitJump σ1 .opJumpUnless
    let pEnd := emitJump pElse.2 .opJump
    let σ4 ← patchJump pEnd.2 pElse.1
    let σ5 := emitBytesC σ4 [ob .opPop]
    let σ6 ← compileE r σ5
    patchJump σ6 pEnd.1
  | .ecall f args, σ => do
    let σ1 ← compileE f σ
    if 255 ≤ args.length then none else
    let σ2 ← compileArgs args σ1
    some (emitBytesC σ2 [ob .opCall, args.length])
  | .egetp o n, σ => do
    let σ1 ← compileE o σ
    let p ← identConst σ1 n
    some (emitBytesC p.2 [ob .opGetProp, p.1])
  | .esetp o n r, σ => do
    let σ1 ← compileE o σ
    let p ← identConst σ1 n
    let σ3 ← compileE r p.2
    some (emitBytesC σ3 [ob .opSetProp, p.1])
  | .einvoke o n args, σ => do
    let σ1 ← compileE o σ
    let p ← identConst σ1 n
    if 255 ≤ args.length then none else
    let σ3 ← compileArgs args p.2
    some (emitBytesC σ3 [ob .opInvoke, p.1, args.length])

/-- Argument list of `Parser.argList`: each argument compiled in order. -/
def compileArgs : List Expr → CompSt → Option CompSt
  | [], σ => some σ
  | e :: rest, σ => do
    let σ1 ← compileE e σ
    compileArgs rest σ1

end

/-- Mirrors `Parser.Compile` + `compileWithRule` for the source `e;`
parsed as a declaration (an `exprStmt`): the expression, `OpPop`, then
`endCompiler`'s implicit return (`OpNil OpReturn` for a script).  Returns
the script prototype and the grown string heap. -/
def compileExprStmtScript (strs0 : List String) (e : Expr) :
    Option (FunObj × List String) := do
  let σ1 ← compileE e { code := [], consts := [], strs := strs0 }
  let σ2 := emitBytesC σ1 [ob .opPop]
  let σ3 := emitBytesC σ2 [ob .opNil, ob .opReturn]
  some ({ name := none, arity := 0, upvalCount := 0,
          chunk := { code := σ3.code, consts := σ3.consts } }, σ3.strs)

/-- Mirrors the REPL fallback of `Parser.Compile`: when the declaration
parse of the line fails, the whole source is re-compiled with the bare
`expr` rule, so the chunk is the expression followed by the implicit
`OpNil OpReturn` (no `OpPop`). -/
def compileExprModeScript (strs0 : List String) (e : Expr) :
    Option (FunObj × List String) := do
  let σ1 ← compileE e { code := [], consts := [], strs := strs0 }
  let σ3 := emitBytesC σ1 [ob .opNil, ob .opReturn]
  some ({ name := none, arity := 0, upvalCount := 0,
          chunk := { code := σ3.code, consts := σ3.consts } }, σ3.strs)

/-! ## Interpret (src/vm/vm.go lines 312-332) -/

/-- Mirrors `VM.Recover` (src/vm/vm.go lines 214-217): reset the value
stack and the call stack, touch nothing else. -/
def recoverVM (st : VMSt) : VMSt := { st with stack := [], frames := [] }

/-- Mirrors `NewVM`: empty VM with the native `clock` registered under the
interned string "clock". -/
def newVM : VMSt :=
  { stack := [], frames := [], globals := [("clock", .vnative 0)],
    openUpvals := [], cells := [], strs := ["clock"], funs := [], closes := [],
    classes := [], insts := [], bounds := [], prints := [] }

/-- Outcome of `Interpret`: result value and final state; the deferred
`Recover` has already been applied on the error outcomes. -/
inductive InterpOut where
  | okOut (v : Value) (st : VMSt) : InterpOut
  | errOut (reason : String) (st : VMSt) : InterpOut
  | faultOut (st : VMSt) : InterpOut
  | outOfFuel (st : VMSt) : InterpOut
deriving Repr

/-- Mirrors `VM.Interpret` downstream of `parser.Compile`: on a compile
error return it with the deferred `Recover` applied; otherwise allocate
the closure over the compiled script, push it, set up the initial frame
through `vm.call`, and run.  A runtime error also lands in the deferred
`Recover`. -/
def interpretCompiled (st0 : VMSt) (cres : Option (FunObj × List String))
    (fuel : Nat) : InterpOut :=
  match cres with
  | none => .errOut "compile error" (recoverVM st0)
  | some (funObj, strs1) =>
    let fid := st0.funs.length
    let cid := st0.closes.length
    let st1 := { st0 with
      strs := strs1
      funs := st0.funs ++ [funObj]
      closes := st0.closes ++
        [({ funId := fid, upvals := List.replicate funObj.upvalCount none } : ClosObj)] }
    let st2 := st1.push (.vclos cid)
    match vmCall runNative st2 (.vclos cid) 0 with
    | .errOut e s => .errOut e (recoverVM s)
    | .fault s => .faultOut s
    | .okSt st3 =>
      match runFuel fuel st3 with
      | .okOut v s => .okOut v s
      | .failOut e s => .errOut e (recoverVM s)
      | .faultOut s => .faultOut s
      | .outOfFuel s => .outOfFuel s

/-- `Interpret` of the declaration-parsed source `e;`. -/
def interpretExprStmt (st0 : VMSt) (e : Expr) (fuel : Nat) : InterpOut :=
  interpretCompiled st0 (compileExprStmtScript st0.strs e) fuel

/-- `Interpret` of a bare expression through the REPL fallback path. -/
def interpretExprMode (st0 : VMSt) (e : Expr) (fuel : Nat) : InterpOut :=
  interpretCompiled st0 (compileExprModeScript st0.strs e) fuel

/-- Result value of an `Interpret` outcome, when it succeeded. -/
def InterpOut.value? : InterpOut → Option Value
  | .okOut v _ => some v
  | _ => none

/-- Final VM state of an `Interpret` outcome. -/
def InterpOut.state : InterpOut → VMSt
  | .okOut _ st => st
  | .errOut _ st => st
  | .faultOut st => st
  | .outOfFuel st => st

/-! ## Go-slice model of the value stack (for the `closeUpvals` claim)

`vm.stack` is a Go slice; `NewVUpval(&vm.stack[stackIdx], stackIdx)` takes
the address of a slot inside the slice's backing array.  The plain-list
stack of the main model cannot express what such a pointer reads once the
slot is no longer live, so this auxiliary model keeps the backing array
explicit: `arr` is the backing array (its length is the capacity) and
`len` the live length (`vm.stack` is `arr.take len`).  An append with
spare capacity writes in place — that path is fixed by the Go
specification ("if s has sufficient capacity, the destination is resliced
to accommodate the new elements") and is the only path the theorems
exercise; the reallocating path is not modelled (`goPush` is `none`
there). -/

structure GoStack where
  arr : List Value
  len : Nat
deriving DecidableEq, Repr, Inhabited

/-- Reading through a cell's `val` pointer against the backing array: a
`stackRef` pointer stays valid (and aliased) beyond the live length. -/
def readBacking (g : GoStack) : CellVal → Value
  | .boxed v => v
  | .stackRef i => g.arr.getD i default

/-- Go `append` with spare capacity: write the slot `len` of the backing
array in place.  `none` on the reallocating path (never taken here). -/
def goPush (g : GoStack) (v : Value) : Option GoStack :=
  if g.len < g.arr.length then some { arr := g.arr.set g.len v, len := g.len + 1 }
  else none

/-- Reslicing `vm.stack[:n]` (as `OpReturn` does with `frame.base`): only
the live length changes, the backing array is untouched. -/
def goTruncate (g : GoStack) (n : Nat) : GoStack := { g with len := n }

/-! ## Invariants and helpers for the expression round-trip proof -/

/-- Values that top-level expressions can produce in the initial global
environment: everything except the class/closure/instance machinery
(`clock` being the only callable registered by `NewVM`). -/
def scalarish : Value → Bool
  | .vnil => true
  | .vbool _ => true
  | .vnum _ => true
  | .vstr _ => true
  | .vnative _ => true
  | _ => false

/-- Global environments reachable from `NewVM` by running top-level
expressions: every stored value is scalarish. -/
def GlobalsOk (g : List (String × Value)) : Prop :=
  ∀ p ∈ g, scalarish p.2 = true

/-- `t` extends `s` on the right (Go append-only growth of the string
heap and the constant pool). -/
def ListExtends {α : Type} (s t : List α) : Prop := ∃ u, t = s ++ u

/-- State reached while executing expression code in the innermost frame
`fr` of `st`: only the frame's ip, the value stack, the globals and the
string heap move. -/
def advE (st : VMSt) (fr : Frame) (ip : Nat) (stk : List Value)
    (g : List (String × Value)) (s : List String) : VMSt :=
  { st with
    frames := st.frames.dropLast ++ [{ fr with ip := ip }],
    stack := stk, globals := g, strs := s }

/-- The chunk code holds the byte sequence `mid` starting at position
`ip`, possibly followed by further code (the rest of the surrounding
compilation). -/
def CodeAt (c : List Nat) (ip : Nat) (mid : List Nat) : Prop :=
  ∃ u, c.drop ip = mid ++ u

/-- The script function produced by `Parser.Compile` for the declaration
parse of `e;` (see `compileExprStmtScript`): the expression's code,
`OpPop`, then the implicit `OpNil OpReturn`. -/
def stmtScriptFun (σ1 : CompSt) : FunObj :=
  { name := none, arity := 0, upvalCount := 0,
    chunk := { code := σ1.code ++ [ob .opPop, ob .opNil, ob .opReturn], consts := σ1.consts } }

/-- The script function produced by the REPL fallback of `Parser.Compile`
(see `compileExprModeScript`): the expression's code followed by the
implicit `OpNil OpReturn`, with no `OpPop`. -/
def modeScriptFun (σ1 : CompSt) : FunObj :=
  { name := none, arity := 0, upvalCount := 0,
    chunk := { code := σ1.code ++ [ob .opNil, ob .opReturn], consts := σ1.consts } }

/-- The state from which `run` starts after `Interpret`'s setup on a
fresh VM: script closure allocated and pushed, initial frame installed by
`vm.call` (the theorem `interpretCompiled_run` below proves that
`interpretCompiled` computes exactly this state). -/
def scriptInitSt (F : FunObj) (S : List String) : VMSt :=
  { stack := [.vclos 0],
    frames := [{ closId := 0, ip := 0, base := 0 }],
    globals := [("clock", .vnative 0)], openUpvals := [], cells := [],
    strs := S, funs := [F], closes := [{ funId := 0, upvals := [] }],
    classes := [], insts := [], bounds := [], prints := [] }

/-- Concrete single-frame state used to exercise the `and` block of
`true and 7`: the left operand's value is on the stack and the ip points
right after the left operand's code. -/
def c5StA : VMSt :=
  { stack := [.vbool true], frames := [{ closId := 0, ip := 1, base := 0 }],
    globals := [], openUpvals := [], cells := [], strs := [],
    funs := [{ name := none, arity := 0, upvalCount := 0, chunk := { code := [ob .opTrue, ob .opJumpUnless, 0, 3, ob .opPop, ob .opConst, 0], consts := [.vnum 7] } }],
    closes := [{ funId := 0, upvals := [] }], classes := [], insts := [],
    bounds := [], prints := [] }

/-- The same state over the compiled `or` block of `true or 7`. -/
def c5StO : VMSt :=
  { stack := [.vbool true], frames := [{ closId := 0, ip := 1, base := 0 }],
    globals := [], openUpvals := [], cells := [], strs := [],
    funs := [{ name := none, arity := 0, upvalCount := 0, chunk := { code := [ob .opTrue, ob .opJumpUnless, 0, 3, ob .opJump, 0, 3, ob .opPop, ob .opConst, 0], consts := [.vnum 7] } }],
    closes := [{ funId := 0, upvals := [] }], classes := [], insts := [],
    bounds := [], prints := [] }

/-! ## Small lemmas about the run relation -/

theorem stepsTo_refl (a : VMSt) : StepsTo a a := Relation.ReflTransGen.refl

theorem stepsTo_single {a b : VMSt} (h : step a = .cont b) : StepsTo a b :=
  Relation.ReflTransGen.single h

theorem stepsTo_trans {a b c : VMSt} (h1 : StepsTo a b) (h2 : StepsTo b c) :
    StepsTo a c := Relation.ReflTransGen.trans h1 h2

theorem stepsTo_head {a b c : VMSt} (h1 : step a = .cont b) (h2 : StepsTo b c) :
    StepsTo a c := Relation.ReflTransGen.head h1 h2

/-- A finished run can be realised by `runFuel` with enough fuel. -/
theorem runFuel_of_stepsTo_done {a b c : VMSt} {v : Value}
    (h : StepsTo a b) (hend : step b = .done v c) :
    ∃ n, runFuel n a = .okOut v c := by
  induction h using Relation.ReflTransGen.head_induction_on with
  | refl => exact ⟨1, by simp [runFuel, hend]⟩
  | head hstep _ ih =>
    obtain ⟨n, hn⟩ := ih
    exact ⟨n + 1, by simp [runFuel, hstep, hn]⟩

/-- A run ending in a runtime error can be realised by `runFuel`. -/
theorem runFuel_of_stepsTo_err {a b c : VMSt} {r : String}
    (h : StepsTo a b) (hend : step b = .errOut r c) :
    ∃ n, runFuel n a = .failOut r c := by
  induction h using Relation.ReflTransGen.head_induction_on with
  | refl => exact ⟨1, by simp [runFuel, hend]⟩
  | head hstep _ ih =>
    obtain ⟨n, hn⟩ := ih
    exact ⟨n + 1, by simp [runFuel, hstep, hn]⟩

/-! ## C1: string equality under `OpEqual` -/

/-- C1 (code evaluated at the failing inputs): the claim says any two
string results with the same content compare equal under `OpEqual`, and
in particular two occurrences of the literal `"a"`, or `"ab"` against the
concatenation `"a" + "b"`, yield `true`.  The code disagrees: `VEq` is Go
interface equality, `NewVStr` allocates a fresh `*VStr` for every literal
and every concatenation (`intern.String` only dedups the backing bytes),
so both comparisons evaluate to `false`.  Only the cross-type clause of
the claim holds (third conjunct: `1 == "a"` is `false` without error). -/
theorem c1_str_equality_failing_inputs :
    (interpretExprMode newVM (.ebin .beq (.estr "a") (.estr "a")) 100).value? =
      some (.vbool false) ∧
    (interpretExprMode newVM
        (.ebin .beq (.estr "ab") (.ebin .add (.estr "a") (.estr "b"))) 100).value? =
      some (.vbool false) ∧
    (interpretExprMode newVM (.ebin .beq (.enum 1) (.estr "a")) 100).value? =
      some (.vbool false) :=
  ⟨rfl, rfl, rfl⟩

/-! ## C9: jump and loop encoding -/

/-- Big-endian recomposition of the two bytes written by the jump emitters. -/
theorem jump_bytes_recompose (j : Nat) (h : j ≤ 65535) :
    ((j >>> 8) &&& 255) * 256 + (j &&& 255) = j ∧
    (j >>> 8) &&& 255 < 256 ∧ j &&& 255 < 256 := by
  have h1 : j &&& 255 = j % 256 := Nat.and_pow_two_sub_one_eq_mod j 8
  have h3 : j >>> 8 &&& 255 = (j >>> 8) % 256 := Nat.and_pow_two_sub_one_eq_mod _ 8
  have h2 : j >>> 8 = j / 256 := by
    have := Nat.shiftRight_eq_div_pow j 8; norm_num at this; exact this
  refine ⟨?_, ?_, ?_⟩
  · rw [h3, h2, h1]; omega
  · rw [h3, h2]; omega
  · rw [h1]; omega

/-- C9: `patchJump` back-patches the two placeholder bytes with the
big-endian encoding of `len(code) − (offset + 2)`, and `emitLoop` emits
`OpLoop` followed by the big-endian encoding of `len(code) + 2 − loopStart`
(the length being measured after the `OpLoop` byte, as in the source); in
both cases a distance above 65535 makes compilation panic (`none`). -/
theorem c9_jump_encoding (σ : CompSt) (offset start : Nat)
    (_hoff : offset + 2 ≤ σ.code.length) (_hstart : start ≤ σ.code.length) :
    (σ.code.length - (offset + 2) ≤ 65535 →
      ∃ σ' hi lo, patchJump σ offset = some σ' ∧
        σ'.code = (σ.code.set offset hi).set (offset + 1) lo ∧
        σ'.consts = σ.consts ∧ σ'.strs = σ.strs ∧
        hi * 256 + lo = σ.code.length - (offset + 2) ∧ hi < 256 ∧ lo < 256) ∧
    (65535 < σ.code.length - (offset + 2) → patchJump σ offset = none) ∧
    ((σ.code.length + 1) + 2 - start ≤ 65535 →
      ∃ σ' hi lo, emitLoop σ start = some σ' ∧
        σ'.code = σ.code ++ [ob .opLoop, hi, lo] ∧
        σ'.consts = σ.consts ∧ σ'.strs = σ.strs ∧
        hi * 256 + lo = (σ.code.length + 1) + 2 - start ∧ hi < 256 ∧ lo < 256) ∧
    (65535 < (σ.code.length + 1) + 2 - start → emitLoop σ start = none) := by
  refine ⟨?_, ?_, ?_, ?_⟩
  · intro hle
    obtain ⟨hrec, hhi, hlo⟩ := jump_bytes_recompose (σ.code.length - (offset + 2)) hle
    refine ⟨⟨(σ.code.set offset ((σ.code.length - (offset + 2)) >>> 8 &&& 255)).set
        (offset + 1) ((σ.code.length - (offset + 2)) &&& 255), σ.consts, σ.strs⟩,
      _, _, ?_, rfl, rfl, rfl, hrec, hhi, hlo⟩
    simp only [patchJump]
    rw [if_neg (by omega)]
  · intro hgt
    simp only [patchJump]
    rw [if_pos hgt]
  · intro hle
    obtain ⟨hrec, hhi, hlo⟩ :=
      jump_bytes_recompose ((σ.code.length + 1) + 2 - start) hle
    refine ⟨⟨σ.code ++ [ob .opLoop, ((σ.code.length + 1) + 2 - start) >>> 8 &&& 255,
        ((σ.code.length + 1) + 2 - start) &&& 255], σ.consts, σ.strs⟩,
      _, _, ?_, rfl, rfl, rfl, hrec, hhi, hlo⟩
    unfold emitLoop
    simp only [emitBytesC, List.length_append, List.length_cons, List.length_nil]
    rw [if_neg (by omega)]
    simp
  · intro hgt
    unfold emitLoop
    simp only [emitBytesC, List.length_append, List.length_cons, List.length_nil]
    rw [if_pos (by omega)]

/-- Witness for C9 at a concrete chunk: code `[OpJump, 0xff, 0xff, OpNil]`,
placeholder at offset 1 (distance 1), and a loop back to position 0
(distance 7). -/
theorem c9_jump_encoding_witness :
    (∃ σ' hi lo,
        patchJump ⟨[ob .opJump, 255, 255, ob .opNil], [], []⟩ 1 = some σ' ∧
        σ'.code = (([ob .opJump, 255, 255, ob .opNil]).set 1 hi).set 2 lo ∧
        σ'.consts = [] ∧ σ'.strs = [] ∧
        hi * 256 + lo = 1 ∧ hi < 256 ∧ lo < 256) ∧
    (∃ σ' hi lo,
        emitLoop ⟨[ob .opJump, 255, 255, ob .opNil], [], []⟩ 0 = some σ' ∧
        σ'.code = [ob .opJump, 255, 255, ob .opNil] ++ [ob .opLoop, hi, lo] ∧
        σ'.consts = [] ∧ σ'.strs = [] ∧
        hi * 256 + lo = 7 ∧ hi < 256 ∧ lo < 256) := by
  have h := c9_jump_encoding ⟨[ob .opJump, 255, 255, ob .opNil], [], []⟩ 1 0
    (by decide) (by decide)
  exact ⟨h.1 (by decide), h.2.2.1 (by decide)⟩

/-! ## C8: scope exit emits one clean-up instruction per block local -/

/-- Loop characterisation of `endScopeRev`: the walked-off suffix (given
innermost first) is mapped to exactly one clean-up byte each, and the walk
stops at the first survivor. -/
theorem endScopeRev_spec (d : Int) (ds ks : List Local) (code : List Nat)
    (hds : ∀ l ∈ ds, ¬ l.depth ≤ d)
    (hks : ∀ l, ks.head? = some l → l.depth ≤ d) :
    endScopeRev d (ds ++ ks) code =
      (ks, code ++ ds.map (fun l => if l.isCaptured then ob .opCloseUpval else ob .opPop)) := by
  induction ds generalizing code with
  | nil =>
    cases ks with
    | nil => simp [endScopeRev]
    | cons l rest =>
      have := hks l rfl
      simp [endScopeRev, this]
  | cons a ds ih =>
    have ha := hds a (by simp)
    simp only [List.cons_append, endScopeRev, if_neg ha, List.map_cons, List.append_eq]
    rw [ih _ (fun l hl => hds l (List.mem_cons_of_mem a hl))]
    simp

/-- Element of a list found at the head of its reverse. -/
theorem mem_of_reverse_head {α : Type} {l : List α} {a : α}
    (h : l.reverse.head? = some a) : a ∈ l := by
  have hm : a ∈ l.reverse := by
    cases hr : l.reverse with
    | nil => rw [hr] at h; simp at h
    | cons x xs =>
      rw [hr] at h
      simp only [List.head?_cons, Option.some.injEq] at h
      subst h
      exact List.mem_cons_self _ _
  exact List.mem_reverse.mp hm

/-- C8: at block exit, `endScope` emits exactly one clean-up instruction
for every local of the closing block (depth above the new depth) —
`OpCloseUpval` when the local is captured, `OpPop` otherwise, innermost
local first — and removes exactly those locals, leaving locals of
shallower depths untouched. -/
theorem c8_endScope_one_cleanup_per_local (d : Int) (keep dropped : List Local)
    (code : List Nat)
    (hdrop : ∀ l ∈ dropped, d - 1 < l.depth)
    (hkeep : ∀ l ∈ keep, l.depth ≤ d - 1) :
    endScope d (keep ++ dropped) code =
      (d - 1, keep,
        code ++ dropped.reverse.map
          (fun l => if l.isCaptured then ob .opCloseUpval else ob .opPop)) := by
  unfold endScope
  rw [List.reverse_append]
  rw [endScopeRev_spec (d - 1) dropped.reverse keep.reverse code
    (fun l hl => by have := hdrop l (List.mem_reverse.mp hl); omega)
    (fun l hl => hkeep l (mem_of_reverse_head hl))]
  simp

/-- Witness for C8: a block at depth 2 holding one captured and one plain
local over one outer local; exactly `[OpPop, OpCloseUpval]` is emitted
(innermost first) and the outer local survives. -/
theorem c8_endScope_witness :
    endScope 2 ([({ name := "x", depth := 1, isCaptured := false } : Local)] ++
        [({ name := "y", depth := 2, isCaptured := true } : Local),
         ({ name := "z", depth := 2, isCaptured := false } : Local)]) [] =
      (1, [({ name := "x", depth := 1, isCaptured := false } : Local)],
        [] ++ [({ name := "z", depth := 2, isCaptured := false } : Local),
               ({ name := "y", depth := 2, isCaptured := true } : Local)].map
          (fun l => if l.isCaptured then ob .opCloseUpval else ob .opPop)) :=
  c8_endScope_one_cleanup_per_local 2 _ _ []
    (by intro l hl; fin_cases hl <;> norm_num)
    (by intro l hl; fin_cases hl; norm_num)

/-! ## C2: `closeUpvals` marks and removes, but copies nothing -/

/-- `getD` after `set` at the same (in-range) position. -/
theorem getD_set_self {α : Type} [Inhabited α] (l : List α) (i : Nat) (x : α)
    (h : i < l.length) : (l.set i x).getD i default = x := by
  simp [List.getD_eq_getElem?_getD, List.getElem?_set, h]

/-- `getD` after `set` at a different position. -/
theorem getD_set_ne {α : Type} [Inhabited α] (l : List α) (i j : Nat) (x : α)
    (h : j ≠ i) : (l.set i x).getD j default = l.getD j default := by
  simp only [List.getD_eq_getElem?_getD, List.getElem?_set]
  rw [if_neg (fun hh => h hh.symm)]

/-- C2 (amended): on an open list whose prefix `pre` holds exactly the open
cells with stack index `≥ m` (the list being sorted descending, the
remainder `post` starting below `m`), `closeUpvals` removes `pre` from the
open list and clears the `idx` of each of its cells — and does nothing
else: in particular every cell's `val` pointer is left untouched, so no
stack value is copied into any cell. -/
theorem c2_closeUpvals_amended (cells : List Cell) (pre post : List Nat) (m : Nat)
    (hpre : ∀ id ∈ pre, ∃ i, (cells.getD id default).idx = some i ∧ m ≤ i)
    (hpost : ∀ id, post.head? = some id →
      ∃ i, (cells.getD id default).idx = some i ∧ i < m)
    (hnodup : pre.Nodup)
    (hlt : ∀ id ∈ pre, id < cells.length) :
    ∃ cells', closeUpvals cells (pre ++ post) m = some (cells', post) ∧
      cells'.length = cells.length ∧
      (∀ id ∈ pre, cells'.getD id default = { cells.getD id default with idx := none }) ∧
      (∀ j, j ∉ pre → cells'.getD j default = cells.getD j default) ∧
      (∀ j, (cells'.getD j default).val = (cells.getD j default).val) := by
  induction pre generalizing cells with
  | nil =>
    refine ⟨cells, ?_, rfl, by simp, fun j _ => rfl, fun j => rfl⟩
    cases post with
    | nil => simp [closeUpvals]
    | cons id rest =>
      obtain ⟨i, hidx, hlt2⟩ := hpost id rfl
      simp only [closeUpvals]
      rw [hidx]
      simp [Nat.not_le.mpr hlt2]
  | cons a pre ih =>
    obtain ⟨i, hidx, hge⟩ := hpre a (by simp)
    have haLt : a < cells.length := hlt a (by simp)
    have haNotMem : a ∉ pre := (List.nodup_cons.mp hnodup).1
    have hnodup' : pre.Nodup := (List.nodup_cons.mp hnodup).2
    have hgeta : (cells.set a { cells.getD a default with idx := none }).getD a default
        = { cells.getD a default with idx := none } := getD_set_self _ _ _ haLt
    have hgetne : ∀ j, j ≠ a →
        (cells.set a { cells.getD a default with idx := none }).getD j default
          = cells.getD j default := fun j hj => getD_set_ne _ _ _ _ hj
    have step1 : closeUpvals cells ((a :: pre) ++ post) m =
        closeUpvals (cells.set a { cells.getD a default with idx := none })
          (pre ++ post) m := by
      simp only [List.cons_append, closeUpvals, hidx]
      rw [if_pos hge]
      rfl
    obtain ⟨cells', h1, h2, h3, h4, h5⟩ :=
      ih (cells.set a { cells.getD a default with idx := none })
        (fun id hid => by
          rw [hgetne id (fun he => haNotMem (he ▸ hid))]
          exact hpre id (List.mem_cons_of_mem a hid))
        (fun id hid => by
          obtain ⟨i', hidx', hlt2'⟩ := hpost id hid
          have hne : id ≠ a := by
            intro he
            rw [he, hidx] at hidx'
            injection hidx' with h'
            omega
          rw [hgetne id hne]
          exact ⟨i', hidx', hlt2'⟩)
        hnodup'
        (fun id hid => by
          rw [List.length_set]
          exact hlt id (List.mem_cons_of_mem a hid))
    refine ⟨cells', step1.trans h1, by rw [h2, List.length_set], ?_, ?_, ?_⟩
    · intro id hid
      rcases List.mem_cons.mp hid with he | hm
      · subst he
        rw [h4 id haNotMem, hgeta]
      · rw [h3 id hm, hgetne id (fun he => haNotMem (he ▸ hm))]
    · intro j hj
      have hj1 : j ∉ pre := fun hm => hj (List.mem_cons_of_mem a hm)
      have hj2 : j ≠ a := fun he => hj (he ▸ List.mem_cons_self a pre)
      rw [h4 j hj1, hgetne j hj2]
    · intro j
      rw [h5 j]
      by_cases hj : j = a
      · subst hj; rw [hgeta]
      · rw [hgetne j hj]

/-- Witness for the amended C2 at a concrete state: two open cells (stack
indices 2 and 0, descending), closing from index 1 up. -/
theorem c2_closeUpvals_amended_witness :
    ∃ cells', closeUpvals
        [({ val := .stackRef 2, idx := some 2 } : Cell),
         ({ val := .stackRef 0, idx := some 0 } : Cell)]
        ([0] ++ [1]) 1 = some (cells', [1]) ∧
      cells'.length = 2 ∧
      (∀ id ∈ [0], cells'.getD id default =
        { ([({ val := .stackRef 2, idx := some 2 } : Cell),
            ({ val := .stackRef 0, idx := some 0 } : Cell)]).getD id default with
          idx := none }) ∧
      (∀ j, j ∉ [0] → cells'.getD j default =
        ([({ val := .stackRef 2, idx := some 2 } : Cell),
          ({ val := .stackRef 0, idx := some 0 } : Cell)]).getD j default) ∧
      (∀ j, (cells'.getD j default).val =
        (([({ val := .stackRef 2, idx := some 2 } : Cell),
           ({ val := .stackRef 0, idx := some 0 } : Cell)]).getD j default).val) :=
  c2_closeUpvals_amended
    [({ val := .stackRef 2, idx := some 2 } : Cell),
     ({ val := .stackRef 0, idx := some 0 } : Cell)]
    [0] [1] 1
    (by intro id hid; fin_cases hid; exact ⟨2, rfl, by omega⟩)
    (by intro id hid; simp only [List.head?_cons, Option.some.injEq] at hid
        subst hid; exact ⟨0, rfl, by omega⟩)
    (by simp)
    (by intro id hid; fin_cases hid; simp)

/-- C2 (counterexample to the claim as stated): the claim says that after
`closeUpvals(m)` a closed cell "retains that last-written value" — later
pushes do not change what it yields.  In the Go code the cell's `val`
pointer keeps aliasing the backing array of the value stack, so when the
stack shrinks (the `OpReturn` reslice) and later pushes rewrite that
backing slot in place (the sufficient-capacity `append` path fixed by the
Go specification), the closed cell yields the newly pushed value.  Here a
cell closed over stack slot 2 (holding 30) yields 77 after two pushes,
not 30. -/
theorem c2_closeUpvals_retention_counterexample :
    closeUpvals [({ val := .stackRef 2, idx := some 2 } : Cell)] [0] 1 =
      some ([{ val := .stackRef 2, idx := none }], []) ∧
    readBacking
      ⟨[.vnum 10, .vnum 20, .vnum 30, .vnil, .vnil, .vnil, .vnil, .vnil], 3⟩
      (.stackRef 2) = .vnum 30 ∧
    (goPush (goTruncate
        ⟨[.vnum 10, .vnum 20, .vnum 30, .vnil, .vnil, .vnil, .vnil, .vnil], 3⟩ 1)
        (.vnum 99)).bind (fun g => goPush g (.vnum 77)) =
      some ⟨[.vnum 10, .vnum 99, .vnum 77, .vnil, .vnil, .vnil, .vnil, .vnil], 3⟩ ∧
    readBacking
      ⟨[.vnum 10, .vnum 99, .vnum 77, .vnil, .vnil, .vnil, .vnil, .vnil], 3⟩
      (.stackRef 2) = .vnum 77 ∧
    Value.vnum 77 ≠ Value.vnum 30 := by
  refine ⟨rfl, rfl, rfl, rfl, by decide⟩

/-! ## Dispatch toolkit: reducing `step` to `execOp` -/

/-- Decoding inverts the opcode byte assignment. -/
theorem decode_ob (o : OpCode) : decodeOp (ob o) = some o := by
  cases o <;> rfl

/-- One dispatch iteration, given the last frame and the code at its ip. -/
theorem step_eq_execOp (st : VMSt) (fr : Frame) (b : Nat) (rest : List Nat)
    (op : OpCode)
    (hfr : st.frames.getLast? = some fr)
    (hdrop : (st.chunkOf fr).code.drop fr.ip = b :: rest)
    (hb : decodeOp b = some op) :
    step st = execOp st fr op rest := by
  unfold step
  rw [hfr]
  dsimp only
  rw [hdrop]
  dsimp only
  rw [hb]

/-! ### Per-opcode characterisations of `execOp` -/

theorem exec_const (st : VMSt) (fr : Frame) (rest : List Nat) (c : Nat) (v : Value)
    (hc : rest.get? 0 = some c) (hv : (st.chunkOf fr).consts.get? c = some v) :
    execOp st fr .opConst rest = .cont ((st.setIp (fr.ip + 2)).push v) := by
  simp only [execOp]
  rw [hc]; dsimp only; rw [hv]

theorem exec_nil (st : VMSt) (fr : Frame) (rest : List Nat) :
    execOp st fr .opNil rest = .cont ((st.setIp (fr.ip + 1)).push .vnil) := rfl

theorem exec_true (st : VMSt) (fr : Frame) (rest : List Nat) :
    execOp st fr .opTrue rest = .cont ((st.setIp (fr.ip + 1)).push (.vbool true)) := rfl

theorem exec_false (st : VMSt) (fr : Frame) (rest : List Nat) :
    execOp st fr .opFalse rest = .cont ((st.setIp (fr.ip + 1)).push (.vbool false)) := rfl

theorem exec_pop (st : VMSt) (fr : Frame) (rest : List Nat) (v : Value)
    (hlast : st.stack.getLast? = some v) :
    execOp st fr .opPop rest =
      .cont { st.setIp (fr.ip + 1) with stack := st.stack.dropLast } := by
  simp only [execOp]
  rw [hlast]

theorem exec_getGlobal_found (st : VMSt) (fr : Frame) (rest : List Nat)
    (c id : Nat) (v : Value)
    (hc : rest.get? 0 = some c)
    (hk : (st.chunkOf fr).consts.get? c = some (.vstr id))
    (hg : alookup st.globals (st.strs.getD id "") = some v) :
    execOp st fr .opGetGlobal rest = .cont ((st.setIp (fr.ip + 2)).push v) := by
  simp only [execOp]
  rw [hc]; dsimp only; rw [hk]; dsimp only; rw [hg]

theorem exec_getGlobal_missing (st : VMSt) (fr : Frame) (rest : List Nat)
    (c id : Nat)
    (hc : rest.get? 0 = some c)
    (hk : (st.chunkOf fr).consts.get? c = some (.vstr id))
    (hg : alookup st.globals (st.strs.getD id "") = none) :
    execOp st fr .opGetGlobal rest =
      .errOut ("undefined variable " ++ st.strs.getD id "") st := by
  simp only [execOp]
  rw [hc]; dsimp only; rw [hk]; dsimp only; rw [hg]

theorem exec_setGlobal_found (st : VMSt) (fr : Frame) (rest : List Nat)
    (c id : Nat) (w v : Value)
    (hc : rest.get? 0 = some c)
    (hk : (st.chunkOf fr).consts.get? c = some (.vstr id))
    (hg : alookup st.globals (st.strs.getD id "") = some w)
    (hpeek : st.peekAt 0 = some v) :
    execOp st fr .opSetGlobal rest =
      .cont { st.setIp (fr.ip + 2) with
              globals := aset st.globals (st.strs.getD id "") v } := by
  simp only [execOp]
  rw [hc]; dsimp only; rw [hk]; dsimp only; rw [hg]; dsimp only; rw [hpeek]

theorem exec_setGlobal_missing (st : VMSt) (fr : Frame) (rest : List Nat)
    (c id : Nat)
    (hc : rest.get? 0 = some c)
    (hk : (st.chunkOf fr).consts.get? c = some (.vstr id))
    (hg : alookup st.globals (st.strs.getD id "") = none) :
    execOp st fr .opSetGlobal rest =
      .errOut ("undefined variable " ++ st.strs.getD id "") st := by
  simp only [execOp]
  rw [hc]; dsimp only; rw [hk]; dsimp only; rw [hg]

theorem exec_equal (st : VMSt) (fr : Frame) (rest : List Nat) (lhs rhs : Value)
    (h1 : st.stack.getLast? = some rhs)
    (h2 : st.stack.dropLast.getLast? = some lhs) :
    execOp st fr .opEqual rest =
      .cont { st.setIp (fr.ip + 1) with
              stack := st.stack.dropLast.dropLast ++ [.vbool (vEq lhs rhs)] } := by
  simp only [execOp]
  rw [h1]; dsimp only; rw [h2]

theorem exec_not (st : VMSt) (fr : Frame) (rest : List Nat) (v : Value)
    (hlast : st.stack.getLast? = some v) :
    execOp st fr .opNot rest =
      .cont { st.setIp (fr.ip + 1) with
              stack := st.stack.dropLast ++ [.vbool (!vTruthy v)] } := by
  simp only [execOp]
  rw [hlast]

theorem exec_neg_ok (st : VMSt) (fr : Frame) (rest : List Nat) (v r : Value)
    (hlast : st.stack.getLast? = some v) (hn : vNeg v = some r) :
    execOp st fr .opNeg rest =
      .cont { st.setIp (fr.ip + 1) with stack := st.stack.dropLast ++ [r] } := by
  simp only [execOp]
  rw [hlast]; dsimp only; rw [hn]

theorem exec_neg_err (st : VMSt) (fr : Frame) (rest : List Nat) (v : Value)
    (hlast : st.stack.getLast? = some v) (hn : vNeg v = none) :
    execOp st fr .opNeg rest =
      .errOut "operand must be a number" { st with stack := st.stack.dropLast } := by
  simp only [execOp]
  rw [hlast]; dsimp only; rw [hn]

theorem exec_add_ok (st : VMSt) (fr : Frame) (rest : List Nat)
    (lhs rhs v : Value) (strs1 : List String)
    (h1 : st.stack.getLast? = some rhs)
    (h2 : st.stack.dropLast.getLast? = some lhs)
    (ha : vAdd st.strs lhs rhs = some (v, strs1)) :
    execOp st fr .opAdd rest =
      .cont { st.setIp (fr.ip + 1) with
              stack := st.stack.dropLast.dropLast ++ [v], strs := strs1 } := by
  simp only [execOp]
  rw [h1]; dsimp only; rw [h2]; dsimp only; rw [ha]

theorem exec_add_err (st : VMSt) (fr : Frame) (rest : List Nat) (lhs rhs : Value)
    (h1 : st.stack.getLast? = some rhs)
    (h2 : st.stack.dropLast.getLast? = some lhs)
    (ha : vAdd st.strs lhs rhs = none) :
    execOp st fr .opAdd rest =
      .errOut "operands must be all numbers or all strings"
        { st with stack := st.stack.dropLast.dropLast } := by
  simp only [execOp]
  rw [h1]; dsimp only; rw [h2]; dsimp only; rw [ha]

theorem exec_sub_ok (st : VMSt) (fr : Frame) (rest : List Nat) (lhs rhs v : Value)
    (h1 : st.stack.getLast? = some rhs)
    (h2 : st.stack.dropLast.getLast? = some lhs)
    (ha : vSub lhs rhs = some v) :
    execOp st fr .opSub rest =
      .cont { st.setIp (fr.ip + 1) with
              stack := st.stack.dropLast.dropLast ++ [v] } := by
  simp only [execOp]
  rw [h1]; dsimp only; rw [h2]; dsimp only; rw [ha]

theorem exec_sub_err (st : VMSt) (fr : Frame) (rest : List Nat) (lhs rhs : Value)
    (h1 : st.stack.getLast? = some rhs)
    (h2 : st.stack.dropLast.getLast? = some lhs)
    (ha : vSub lhs rhs = none) :
    execOp st fr .opSub rest =
      .errOut "operands must be numbers" { st with stack := st.stack.dropLast.dropLast } := by
  simp only [execOp]
  rw [h1]; dsimp only; rw [h2]; dsimp only; rw [ha]

theorem exec_mul_ok (st : VMSt) (fr : Frame) (rest : List Nat) (lhs rhs v : Value)
    (h1 : st.stack.getLast? = some rhs)
    (h2 : st.stack.dropLast.getLast? = some lhs)
    (ha : vMul lhs rhs = some v) :
    execOp st fr .opMul rest =
      .cont { st.setIp (fr.ip + 1) with
              stack := st.stack.dropLast.dropLast ++ [v] } := by
  simp only [execOp]
  rw [h1]; dsimp only; rw [h2]; dsimp only; rw [ha]

theorem exec_mul_err (st : VMSt) (fr : Frame) (rest : List Nat) (lhs rhs : Value)
    (h1 : st.stack.getLast? = some rhs)
    (h2 : st.stack.dropLast.getLast? = some lhs)
    (ha : vMul lhs rhs = none) :
    execOp st fr .opMul rest =
      .errOut "operands must be numbers" { st with stack := st.stack.dropLast.dropLast } := by
  simp only [execOp]
  rw [h1]; dsimp only; rw [h2]; dsimp only; rw [ha]

theorem exec_div_ok (st : VMSt) (fr : Frame) (rest : List Nat) (lhs rhs v : Value)
    (h1 : st.stack.getLast? = some rhs)
    (h2 : st.stack.dropLast.getLast? = some lhs)
    (ha : vDiv lhs rhs = some v) :
    execOp st fr .opDiv rest =
      .cont { st.setIp (fr.ip + 1) with
              stack := st.stack.dropLast.dropLast ++ [v] } := by
  simp only [execOp]
  rw [h1]; dsimp only; rw [h2]; dsimp only; rw [ha]

theorem exec_div_err (st : VMSt) (fr : Frame) (rest : List Nat) (lhs rhs : Value)
    (h1 : st.stack.getLast? = some rhs)
    (h2 : st.stack.dropLast.getLast? = some lhs)
    (ha : vDiv lhs rhs = none) :
    execOp st fr .opDiv rest =
      .errOut "operands must be numbers" { st with stack := st.stack.dropLast.dropLast } := by
  simp only [execOp]
  rw [h1]; dsimp only; rw [h2]; dsimp only; rw [ha]

theorem exec_greater_ok (st : VMSt) (fr : Frame) (rest : List Nat) (lhs rhs v : Value)
    (h1 : st.stack.getLast? = some rhs)
    (h2 : st.stack.dropLast.getLast? = some lhs)
    (ha : vGreater lhs rhs = some v) :
    execOp st fr .opGreater rest =
      .cont { st.setIp (fr.ip + 1) with
              stack := st.stack.dropLast.dropLast ++ [v] } := by
  simp only [execOp]
  rw [h1]; dsimp only; rw [h2]; dsimp only; rw [ha]

theorem exec_greater_err (st : VMSt) (fr : Frame) (rest : List Nat) (lhs rhs : Value)
    (h1 : st.stack.getLast? = some rhs)
    (h2 : st.stack.dropLast.getLast? = some lhs)
    (ha : vGreater lhs rhs = none) :
    execOp st fr .opGreater rest =
      .errOut "operands must be numbers" { st with stack := st.stack.dropLast.dropLast } := by
  simp only [execOp]
  rw [h1]; dsimp only; rw [h2]; dsimp only; rw [ha]

theorem exec_less_ok (st : VMSt) (fr : Frame) (rest : List Nat) (lhs rhs v : Value)
    (h1 : st.stack.getLast? = some rhs)
    (h2 : st.stack.dropLast.getLast? = some lhs)
    (ha : vLess lhs rhs = some v) :
    execOp st fr .opLess rest =
      .cont { st.setIp (fr.ip + 1) with
              stack := st.stack.dropLast.dropLast ++ [v] } := by
  simp only [execOp]
  rw [h1]; dsimp only; rw [h2]; dsimp only; rw [ha]

theorem exec_less_err (st : VMSt) (fr : Frame) (rest : List Nat) (lhs rhs : Value)
    (h1 : st.stack.getLast? = some rhs)
    (h2 : st.stack.dropLast.getLast? = some lhs)
    (ha : vLess lhs rhs = none) :
    execOp st fr .opLess rest =
      .errOut "operands must be numbers" { st with stack := st.stack.dropLast.dropLast } := by
  simp only [execOp]
  rw [h1]; dsimp only; rw [h2]; dsimp only; rw [ha]

theorem exec_jump (st : VMSt) (fr : Frame) (rest : List Nat) (hi lo : Nat)
    (h0 : rest.get? 0 = some hi) (h1 : rest.get? 1 = some lo) :
    execOp st fr .opJump rest = .cont (st.setIp (fr.ip + 3 + (hi * 256 + lo))) := by
  simp only [execOp]
  rw [h0, h1]

theorem exec_jumpUnless_truthy (st : VMSt) (fr : Frame) (rest : List Nat)
    (hi lo : Nat) (v : Value)
    (h0 : rest.get? 0 = some hi) (h1 : rest.get? 1 = some lo)
    (hpeek : st.peekAt 0 = some v) (htr : vTruthy v = true) :
    execOp st fr .opJumpUnless rest = .cont (st.setIp (fr.ip + 3)) := by
  simp only [execOp]
  rw [h0, h1]; dsimp only; rw [hpeek]; dsimp only; rw [htr]; simp

theorem exec_jumpUnless_falsy (st : VMSt) (fr : Frame) (rest : List Nat)
    (hi lo : Nat) (v : Value)
    (h0 : rest.get? 0 = some hi) (h1 : rest.get? 1 = some lo)
    (hpeek : st.peekAt 0 = some v) (htr : vTruthy v = false) :
    execOp st fr .opJumpUnless rest =
      .cont (st.setIp (fr.ip + 3 + (hi * 256 + lo))) := by
  simp only [execOp]
  rw [h0, h1]; dsimp only; rw [hpeek]; dsimp only; rw [htr]; simp

theorem exec_call (st : VMSt) (fr : Frame) (rest : List Nat) (argCount : Nat)
    (callee : Value)
    (h0 : rest.get? 0 = some argCount) (hpeek : st.peekAt argCount = some callee) :
    execOp st fr .opCall rest =
      (vmCall runNative (st.setIp (fr.ip + 2)) callee argCount).toStep := by
  simp only [execOp]
  rw [h0]; dsimp only; rw [hpeek]

/-! ### State algebra for single-frame execution -/

theorem dropLast_concat_of_getLast {α : Type} {l : List α} {a : α}
    (h : l.getLast? = some a) : l.dropLast ++ [a] = l := by
  induction l using List.reverseRecOn with
  | nil => simp at h
  | append_singleton xs x _ =>
    rw [List.getLast?_concat] at h
    obtain rfl : x = a := by injection h
    simp

theorem advE_frames_getLast (st : VMSt) (fr : Frame) (ip : Nat)
    (stk : List Value) (g : List (String × Value)) (s : List String) :
    (advE st fr ip stk g s).frames.getLast? = some { fr with ip := ip } := by
  simp [advE]

theorem advE_chunkOf (st : VMSt) (fr fr' : Frame) (ip : Nat) (stk : List Value)
    (g : List (String × Value)) (s : List String) :
    (advE st fr ip stk g s).chunkOf fr' = st.chunkOf fr' := rfl

theorem advE_advE (st : VMSt) (fr : Frame) (ip1 ip2 : Nat)
    (stk1 stk2 : List Value) (g1 g2 : List (String × Value))
    (s1 s2 : List String) :
    advE (advE st fr ip1 stk1 g1 s1) { fr with ip := ip1 } ip2 stk2 g2 s2 =
      advE st fr ip2 stk2 g2 s2 := by
  simp [advE]

theorem advE_self (st : VMSt) (fr : Frame) (hfr : st.frames.getLast? = some fr) :
    advE st fr fr.ip st.stack st.globals st.strs = st := by
  have h := dropLast_concat_of_getLast hfr
  simp [advE, h]

theorem setIp_push_advE (st : VMSt) (fr : Frame) (i : Nat) (v : Value)
    (hfr : st.frames.getLast? = some fr) :
    (st.setIp i).push v = advE st fr i (st.stack ++ [v]) st.globals st.strs := by
  simp [VMSt.setIp, VMSt.push, advE, hfr]

theorem setIp_advE (st : VMSt) (fr : Frame) (i : Nat)
    (hfr : st.frames.getLast? = some fr) :
    st.setIp i = advE st fr i st.stack st.globals st.strs := by
  simp [VMSt.setIp, advE, hfr]

theorem setIp_with_stack_advE (st : VMSt) (fr : Frame) (i : Nat) (X : List Value)
    (hfr : st.frames.getLast? = some fr) :
    { st.setIp i with stack := X } = advE st fr i X st.globals st.strs := by
  simp [VMSt.setIp, advE, hfr]

theorem setIp_with_stack_strs_advE (st : VMSt) (fr : Frame) (i : Nat)
    (X : List Value) (S : List String)
    (hfr : st.frames.getLast? = some fr) :
    { st.setIp i with stack := X, strs := S } = advE st fr i X st.globals S := by
  simp [VMSt.setIp, advE, hfr]

theorem setIp_with_globals_advE (st : VMSt) (fr : Frame) (i : Nat)
    (G : List (String × Value))
    (hfr : st.frames.getLast? = some fr) :
    { st.setIp i with globals := G } = advE st fr i st.stack G st.strs := by
  simp [VMSt.setIp, advE, hfr]

theorem exec_getUpval (st : VMSt) (fr : Frame) (rest : List Nat)
    (slot cid : Nat) (v : Value)
    (h0 : rest.get? 0 = some slot)
    (hup : (st.closes.getD fr.closId default).upvals.get? slot = some (some cid))
    (hread : readCellVal st (st.cells.getD cid default).val = some v) :
    execOp st fr .opGetUpval rest = .cont ((st.setIp (fr.ip + 2)).push v) := by
  simp only [execOp]
  rw [h0]; dsimp only; rw [hup]; dsimp only; rw [hread]

theorem exec_setUpval (st : VMSt) (fr : Frame) (rest : List Nat)
    (slot cid : Nat) (v : Value)
    (h0 : rest.get? 0 = some slot)
    (hup : (st.closes.getD fr.closId default).upvals.get? slot = some (some cid))
    (hpeek : st.peekAt 0 = some v) :
    execOp st fr .opSetUpval rest =
      .cont { st.setIp (fr.ip + 2) with
              cells := st.cells.set cid
                { val := .boxed v, idx := some (st.stack.length - 1) } } := by
  simp only [execOp]
  rw [h0]; dsimp only; rw [hup]; dsimp only; rw [hpeek]

theorem exec_getProp_noninst (st : VMSt) (fr : Frame) (rest : List Nat) (v : Value)
    (hpeek : st.peekAt 0 = some v) (hni : ∀ iid, v ≠ .vinst iid) :
    execOp st fr .opGetProp rest = .errOut "only instances have properties" st := by
  simp only [execOp]
  rw [hpeek]; dsimp only
  cases v
  case vinst iid => exact absurd rfl (hni iid)
  all_goals rfl

theorem exec_setProp_noninst (st : VMSt) (fr : Frame) (rest : List Nat) (v : Value)
    (hpeek : st.peekAt 1 = some v) (hni : ∀ iid, v ≠ .vinst iid) :
    execOp st fr .opSetProp rest = .errOut "only instances have fields" st := by
  simp only [execOp]
  rw [hpeek]; dsimp only
  cases v
  case vinst iid => exact absurd rfl (hni iid)
  all_goals rfl

theorem exec_invoke_noninst (st : VMSt) (fr : Frame) (rest : List Nat)
    (c argCount id : Nat) (v : Value)
    (h0 : rest.get? 0 = some c) (h1 : rest.get? 1 = some argCount)
    (hk : (st.chunkOf fr).consts.get? c = some (.vstr id))
    (hpeek : (st.setIp (fr.ip + 3)).peekAt argCount = some v)
    (hni : ∀ iid, v ≠ .vinst iid) :
    execOp st fr .opInvoke rest =
      .errOut "only instances have methods" (st.setIp (fr.ip + 3)) := by
  simp only [execOp]
  rw [h0, h1]; dsimp only; rw [hk]; dsimp only; rw [hpeek]; dsimp only
  cases v
  case vinst iid => exact absurd rfl (hni iid)
  all_goals rfl

theorem exec_return_top1 (st : VMSt) (fr : Frame) (rest : List Nat) (res : Value)
    (cells1 : List Cell) (ups1 : List Nat)
    (hres : st.stack.getLast? = some res)
    (hclose : closeUpvals st.cells st.openUpvals fr.base = some (cells1, ups1))
    (hfr1 : st.frames = [fr])
    (hlen : st.stack.dropLast.length = 1) :
    execOp st fr .opReturn rest =
      .done res { st with
        stack := [], frames := [], cells := cells1, openUpvals := ups1 } := by
  simp only [execOp]
  rw [hres]; dsimp only; rw [hclose]
  rw [hfr1]
  dsimp only
  rw [hlen]
  simp

theorem exec_return_top2 (st : VMSt) (fr : Frame) (rest : List Nat)
    (res res2 : Value) (cells1 : List Cell) (ups1 : List Nat)
    (hres : st.stack.getLast? = some res)
    (hclose : closeUpvals st.cells st.openUpvals fr.base = some (cells1, ups1))
    (hfr1 : st.frames = [fr])
    (hlen : st.stack.dropLast.length = 2)
    (hlast2 : st.stack.dropLast.getLast? = some res2) :
    execOp st fr .opReturn rest =
      .done res2 { st with
        stack := [], frames := [], cells := cells1, openUpvals := ups1 } := by
  simp only [execOp]
  rw [hres]; dsimp only; rw [hclose]
  rw [hfr1]
  dsimp only
  rw [hlen]
  dsimp only
  rw [hlast2]
  simp

/-! ## C3: closures capturing the same local share one upvalue cell -/

/-- Walk of `captureUpval` when an open cell for `stackIdx` already exists
behind cells of larger index: the existing id is returned and the list is
rebuilt unchanged. -/
theorem captureWalk_reuse (cells : List Cell) (newId stackIdx : Nat)
    (pre post : List Nat) (cid : Nat)
    (hpre : ∀ id ∈ pre, ∃ i, (cells.getD id default).idx = some i ∧ stackIdx < i)
    (hcid : (cells.getD cid default).idx = some stackIdx) :
    captureWalk cells newId stackIdx (pre ++ cid :: post) =
      some (cid, pre ++ cid :: post) := by
  induction pre with
  | nil =>
    simp only [List.nil_append, captureWalk]
    rw [hcid]
    simp
  | cons a pre ih =>
    obtain ⟨i, hidx, hlt⟩ := hpre a (by simp)
    simp only [List.cons_append, captureWalk]
    rw [hidx]
    dsimp only
    rw [if_pos hlt]
    simp only [List.append_eq]
    rw [ih (fun id hid => hpre id (List.mem_cons_of_mem a hid))]

/-- C3: (capture) `captureUpval` on a stack slot that already has an open
cell returns exactly that cell and changes nothing — no second cell is
allocated, so every closure capturing the local holds the same cell; and
(sharing) an `OpSetUpval` through one closure rewrites the shared cell to
a boxed copy of the assigned value, after which an `OpGetUpval` through
any other closure whose upvalue slot holds the same cell pushes that
value. -/
theorem c3_shared_upvalue_cell :
    (∀ (st : VMSt) (stackIdx cid : Nat) (pre post : List Nat),
      st.openUpvals = pre ++ cid :: post →
      (∀ id ∈ pre, ∃ i, (st.cells.getD id default).idx = some i ∧ stackIdx < i) →
      (st.cells.getD cid default).idx = some stackIdx →
      stackIdx < st.stack.length →
      cid < st.cells.length →
      captureUpval st stackIdx = some (cid, st)) ∧
    (∀ (st : VMSt) (fr : Frame) (tail : List Nat) (u1 cid : Nat) (v : Value),
      st.frames.getLast? = some fr →
      (st.chunkOf fr).code.drop fr.ip = ob .opSetUpval :: u1 :: tail →
      (st.closes.getD fr.closId default).upvals.get? u1 = some (some cid) →
      st.peekAt 0 = some v →
      cid < st.cells.length →
      ∃ st', step st = .cont st' ∧
        (st'.cells.getD cid default).val = .boxed v ∧
        (∀ (st2 : VMSt) (fr2 : Frame) (tail2 : List Nat) (u2 : Nat),
          st2.frames.getLast? = some fr2 →
          (st2.chunkOf fr2).code.drop fr2.ip = ob .opGetUpval :: u2 :: tail2 →
          (st2.closes.getD fr2.closId default).upvals.get? u2 = some (some cid) →
          st2.cells = st'.cells →
          step st2 = .cont ((st2.setIp (fr2.ip + 2)).push v))) := by
  constructor
  · intro st stackIdx cid pre post hopen hpre hcid hlen hcl
    unfold captureUpval
    rw [if_pos hlen, hopen,
      captureWalk_reuse st.cells st.cells.length stackIdx pre post cid hpre hcid]
    have hbeq : (cid == st.cells.length) = false := by
      simp [Nat.ne_of_lt hcl]
    simp only [hbeq]
    rw [← hopen]
    simp
  · intro st fr tail u1 cid v hfr hdrop hup hpeek hcl
    refine ⟨{ st.setIp (fr.ip + 2) with
        cells := st.cells.set cid
          { val := .boxed v, idx := some (st.stack.length - 1) } }, ?_, ?_, ?_⟩
    · rw [step_eq_execOp st fr (ob .opSetUpval) (u1 :: tail) .opSetUpval hfr hdrop
        (decode_ob _)]
      exact exec_setUpval st fr (u1 :: tail) u1 cid v rfl hup hpeek
    · exact congrArg Cell.val (getD_set_self st.cells cid _ hcl)
    · intro st2 fr2 tail2 u2 hfr2 hdrop2 hup2 hcells
      rw [step_eq_execOp st2 fr2 (ob .opGetUpval) (u2 :: tail2) .opGetUpval hfr2
        hdrop2 (decode_ob _)]
      refine exec_getUpval st2 fr2 (u2 :: tail2) u2 cid v rfl hup2 ?_
      rw [hcells]
      have : ((st.cells.set cid
          { val := .boxed v, idx := some (st.stack.length - 1) }).getD cid default).val
          = CellVal.boxed v := congrArg Cell.val (getD_set_self st.cells cid _ hcl)
      dsimp only at this ⊢
      rw [this]
      rfl

/-- Witness for C3: a one-cell state for the capture part, and a two-closure
state (both closures' upvalue slot 0 holding cell 0) for the sharing part. -/
theorem c3_shared_upvalue_cell_witness :
    captureUpval
      (⟨[.vnil], [], [], [0], [⟨.stackRef 0, some 0⟩], [], [], [], [], [], [], []⟩ : VMSt) 0 =
      some (0,
        (⟨[.vnil], [], [], [0], [⟨.stackRef 0, some 0⟩], [], [], [], [], [], [], []⟩ : VMSt)) ∧
    (∃ st', step
        (⟨[.vnum 7], [⟨0, 0, 0⟩], [], [0], [⟨.stackRef 0, some 0⟩], [],
          [⟨none, 0, 1, ⟨[ob .opSetUpval, 0], []⟩⟩,
           ⟨none, 0, 1, ⟨[ob .opGetUpval, 0], []⟩⟩],
          [⟨0, [some 0]⟩, ⟨1, [some 0]⟩], [], [], [], []⟩ : VMSt) = .cont st' ∧
      (st'.cells.getD 0 default).val = .boxed (.vnum 7) ∧
      (∀ (st2 : VMSt) (fr2 : Frame) (tail2 : List Nat) (u2 : Nat),
        st2.frames.getLast? = some fr2 →
        (st2.chunkOf fr2).code.drop fr2.ip = ob .opGetUpval :: u2 :: tail2 →
        (st2.closes.getD fr2.closId default).upvals.get? u2 = some (some 0) →
        st2.cells = st'.cells →
        step st2 = .cont ((st2.setIp (fr2.ip + 2)).push (.vnum 7)))) :=
  ⟨c3_shared_upvalue_cell.1
      (⟨[.vnil], [], [], [0], [⟨.stackRef 0, some 0⟩], [], [], [], [], [], [], []⟩ : VMSt)
      0 0 [] [] rfl (by simp) rfl (by decide) (by decide),
   c3_shared_upvalue_cell.2
      (⟨[.vnum 7], [⟨0, 0, 0⟩], [], [0], [⟨.stackRef 0, some 0⟩], [],
        [⟨none, 0, 1, ⟨[ob .opSetUpval, 0], []⟩⟩,
         ⟨none, 0, 1, ⟨[ob .opGetUpval, 0], []⟩⟩],
        [⟨0, [some 0]⟩, ⟨1, [some 0]⟩], [], [], [], []⟩ : VMSt)
      ⟨0, 0, 0⟩ [] 0 0 (.vnum 7) rfl rfl rfl rfl (by decide)⟩

/-! ### Projections of `setIp` -/

theorem setIp_stack (st : VMSt) (i : Nat) : (st.setIp i).stack = st.stack := by
  unfold VMSt.setIp; cases st.frames.getLast? <;> rfl

theorem setIp_peekAt (st : VMSt) (i d : Nat) : (st.setIp i).peekAt d = st.peekAt d := by
  unfold VMSt.peekAt; rw [setIp_stack]

theorem setIp_insts (st : VMSt) (i : Nat) : (st.setIp i).insts = st.insts := by
  unfold VMSt.setIp; cases st.frames.getLast? <;> rfl

theorem setIp_classes (st : VMSt) (i : Nat) : (st.setIp i).classes = st.classes := by
  unfold VMSt.setIp; cases st.frames.getLast? <;> rfl

theorem setIp_strs (st : VMSt) (i : Nat) : (st.setIp i).strs = st.strs := by
  unfold VMSt.setIp; cases st.frames.getLast? <;> rfl

theorem setIp_closes (st : VMSt) (i : Nat) : (st.setIp i).closes = st.closes := by
  unfold VMSt.setIp; cases st.frames.getLast? <;> rfl

theorem setIp_funs (st : VMSt) (i : Nat) : (st.setIp i).funs = st.funs := by
  unfold VMSt.setIp; cases st.frames.getLast? <;> rfl

theorem setIp_bounds (st : VMSt) (i : Nat) : (st.setIp i).bounds = st.bounds := by
  unfold VMSt.setIp; cases st.frames.getLast? <;> rfl

theorem setIp_globals (st : VMSt) (i : Nat) : (st.setIp i).globals = st.globals := by
  unfold VMSt.setIp; cases st.frames.getLast? <;> rfl

/-! ## C7: calling a class value -/

/-- C7: `vm.call` on a `Class` value replaces the callee stack slot
(`base = len − argCount − 1`) with a fresh `Instance` of that class; when
the class has a method under the interned key "init" that is a closure, it
is invoked as a closure call with the same `argCount` (pushing the frame
on an arity match, raising "expected A arguments but got N" otherwise);
with no `init`, the call succeeds exactly when `argCount = 0` and raises
"expected 0 arguments but got N." otherwise. -/
theorem c7_class_call (st : VMSt) (cid argCount : Nat)
    (hstk : argCount + 1 ≤ st.stack.length) :
    (∀ icid, alookup (st.classes.getD cid default).methods "init" =
        some (.vclos icid) →
      vmCall runNative st (.vclass cid) argCount =
        callClos
          { st with
            insts := st.insts ++ [⟨cid, []⟩],
            stack := st.stack.set (st.stack.length - argCount - 1)
              (.vinst st.insts.length) } icid argCount) ∧
    (∀ (st1 : VMSt) (icid : Nat),
      (argCount = (st1.funs.getD (st1.closes.getD icid default).funId default).arity →
        callClos st1 icid argCount = .okSt { st1 with
          frames := st1.frames ++ [⟨icid, 0, st1.stack.length - argCount - 1⟩] }) ∧
      (argCount ≠ (st1.funs.getD (st1.closes.getD icid default).funId default).arity →
        callClos st1 icid argCount = .errOut
          (s!"expected {(st1.funs.getD (st1.closes.getD icid default).funId default).arity} arguments but got {argCount}")
          st1)) ∧
    (alookup (st.classes.getD cid default).methods "init" = none →
      (argCount = 0 →
        vmCall runNative st (.vclass cid) argCount = .okSt
          { st with
            insts := st.insts ++ [⟨cid, []⟩],
            stack := st.stack.set (st.stack.length - argCount - 1)
              (.vinst st.insts.length) }) ∧
      (argCount ≠ 0 →
        vmCall runNative st (.vclass cid) argCount = .errOut
          (s!"expected 0 arguments but got {argCount}.")
          { st with
            insts := st.insts ++ [⟨cid, []⟩],
            stack := st.stack.set (st.stack.length - argCount - 1)
              (.vinst st.insts.length) })) := by
  refine ⟨?_, ?_, ?_⟩
  · intro icid hinit
    unfold vmCall
    rw [if_neg (by omega)]
    dsimp only
    rw [hinit]
  · intro st1 icid
    constructor
    · intro he
      unfold callClos
      rw [if_neg (by omega)]
    · intro hne
      unfold callClos
      rw [if_pos hne]
  · intro hinit
    constructor
    · intro he
      unfold vmCall
      rw [if_neg (by omega)]
      dsimp only
      rw [hinit]
      dsimp only
      rw [if_neg (by omega)]
    · intro hne
      unfold vmCall
      rw [if_neg (by omega)]
      dsimp only
      rw [hinit]
      dsimp only
      rw [if_pos hne]

/-- Witness for C7: a class whose `init` closure has arity 1, called with
one argument (instance created, frame pushed), and an `init`-less class
called with two arguments (the "expected 0 arguments" error). -/
theorem c7_class_call_witness :
    vmCall runNative
      (⟨[.vclass 0, .vnum 1], [], [], [], [], [],
        [⟨none, 1, 0, ⟨[], []⟩⟩], [⟨0, []⟩],
        [⟨0, [("init", .vclos 0)]⟩, ⟨0, []⟩], [], [], []⟩ : VMSt)
      (.vclass 0) 1 =
      callClos
        (⟨[.vinst 0, .vnum 1], [], [], [], [], [],
          [⟨none, 1, 0, ⟨[], []⟩⟩], [⟨0, []⟩],
          [⟨0, [("init", .vclos 0)]⟩, ⟨0, []⟩], [⟨0, []⟩], [], []⟩ : VMSt) 0 1 ∧
    callClos
      (⟨[.vinst 0, .vnum 1], [], [], [], [], [],
        [⟨none, 1, 0, ⟨[], []⟩⟩], [⟨0, []⟩],
        [⟨0, [("init", .vclos 0)]⟩, ⟨0, []⟩], [⟨0, []⟩], [], []⟩ : VMSt) 0 1 =
      .okSt
        (⟨[.vinst 0, .vnum 1], [⟨0, 0, 0⟩], [], [], [], [],
          [⟨none, 1, 0, ⟨[], []⟩⟩], [⟨0, []⟩],
          [⟨0, [("init", .vclos 0)]⟩, ⟨0, []⟩], [⟨0, []⟩], [], []⟩ : VMSt) ∧
    vmCall runNative
      (⟨[.vclass 1, .vnum 1, .vnum 2], [], [], [], [], [],
        [⟨none, 1, 0, ⟨[], []⟩⟩], [⟨0, []⟩],
        [⟨0, [("init", .vclos 0)]⟩, ⟨0, []⟩], [], [], []⟩ : VMSt)
      (.vclass 1) 2 =
      .errOut "expected 0 arguments but got 2."
        (⟨[.vinst 0, .vnum 1, .vnum 2], [], [], [], [], [],
          [⟨none, 1, 0, ⟨[], []⟩⟩], [⟨0, []⟩],
          [⟨0, [("init", .vclos 0)]⟩, ⟨0, []⟩], [⟨1, []⟩], [], []⟩ : VMSt) :=
  ⟨(c7_class_call
      (⟨[.vclass 0, .vnum 1], [], [], [], [], [],
        [⟨none, 1, 0, ⟨[], []⟩⟩], [⟨0, []⟩],
        [⟨0, [("init", .vclos 0)]⟩, ⟨0, []⟩], [], [], []⟩ : VMSt) 0 1
      (by decide)).1 0 rfl,
   ((c7_class_call
      (⟨[.vclass 0, .vnum 1], [], [], [], [], [],
        [⟨none, 1, 0, ⟨[], []⟩⟩], [⟨0, []⟩],
        [⟨0, [("init", .vclos 0)]⟩, ⟨0, []⟩], [], [], []⟩ : VMSt) 0 1
      (by decide)).2.1
      (⟨[.vinst 0, .vnum 1], [], [], [], [], [],
        [⟨none, 1, 0, ⟨[], []⟩⟩], [⟨0, []⟩],
        [⟨0, [("init", .vclos 0)]⟩, ⟨0, []⟩], [⟨0, []⟩], [], []⟩ : VMSt) 0).1 rfl,
   ((c7_class_call
      (⟨[.vclass 1, .vnum 1, .vnum 2], [], [], [], [], [],
        [⟨none, 1, 0, ⟨[], []⟩⟩], [⟨0, []⟩],
        [⟨0, [("init", .vclos 0)]⟩, ⟨0, []⟩], [], [], []⟩ : VMSt) 1 2
      (by decide)).2.2 rfl).2 (by decide)⟩

/-- A successful `peek(d)` means the stack holds more than `d` values. -/
theorem peekAt_lt (st : VMSt) (d : Nat) (v : Value) (h : st.peekAt d = some v) :
    d < st.stack.length := by
  unfold VMSt.peekAt at h
  by_cases hd : d < st.stack.length
  · exact hd
  · rw [if_neg hd] at h; cases h

/-- A successful `peek(d)` is the stack entry at `len − 1 − d`. -/
theorem peekAt_get (st : VMSt) (d : Nat) (v : Value) (h : st.peekAt d = some v) :
    st.stack.get? (st.stack.length - 1 - d) = some v := by
  unfold VMSt.peekAt at h
  rw [if_pos (peekAt_lt st d v h)] at h
  exact h

/-! ## C6: the `OpInvoke` superinstruction -/

/-- C6: executing `OpInvoke c n` with a name constant `c` (string id `id`)
and `n` arguments: a non-instance receiver raises the runtime error; a
field hit replaces the callee slot with the field's value and calls it
with `n` arguments; a method hit looks the name up in the instance's
class and pushes the closure's frame directly — the state changes only in
its frame list, so no `BoundMethod` is allocated (`bounds` untouched) and
the receiver is still at `base = len − n − 1`, slot 0 of the callee frame;
with neither field nor method the "undefined property" error is raised. -/
theorem c6_opInvoke (st : VMSt) (fr : Frame) (tail : List Nat)
    (c argCount id iid : Nat)
    (hfr : st.frames.getLast? = some fr)
    (hdrop : (st.chunkOf fr).code.drop fr.ip = ob .opInvoke :: c :: argCount :: tail)
    (hk : (st.chunkOf fr).consts.get? c = some (.vstr id)) :
    (∀ v, st.peekAt argCount = some v → (∀ j, v ≠ .vinst j) →
      step st = .errOut "only instances have methods" (st.setIp (fr.ip + 3))) ∧
    (∀ field, st.peekAt argCount = some (.vinst iid) →
      alookup (st.insts.getD iid default).fields (st.strs.getD id "") = some field →
      step st = (vmCall runNative
        { st.setIp (fr.ip + 3) with
          stack := st.stack.set (st.stack.length - argCount - 1) field }
        field argCount).toStep) ∧
    (∀ mcid, st.peekAt argCount = some (.vinst iid) →
      alookup (st.insts.getD iid default).fields (st.strs.getD id "") = none →
      alookup (st.classes.getD (st.insts.getD iid default).classId default).methods
        (st.strs.getD id "") = some (.vclos mcid) →
      argCount = (st.funs.getD (st.closes.getD mcid default).funId default).arity →
      step st = .cont { st.setIp (fr.ip + 3) with
        frames := (st.setIp (fr.ip + 3)).frames ++
          [⟨mcid, 0, st.stack.length - argCount - 1⟩] } ∧
      st.stack.get? (st.stack.length - argCount - 1) = some (.vinst iid)) ∧
    (st.peekAt argCount = some (.vinst iid) →
      alookup (st.insts.getD iid default).fields (st.strs.getD id "") = none →
      alookup (st.classes.getD (st.insts.getD iid default).classId default).methods
        (st.strs.getD id "") = none →
      step st = .errOut ("undefined property " ++ st.strs.getD id "")
        (st.setIp (fr.ip + 3))) := by
  have hstep : step st = execOp st fr .opInvoke (c :: argCount :: tail) :=
    step_eq_execOp st fr (ob .opInvoke) _ .opInvoke hfr hdrop (decode_ob _)
  refine ⟨?_, ?_, ?_, ?_⟩
  · intro v hpeek hni
    rw [hstep]
    exact exec_invoke_noninst st fr _ c argCount id v rfl rfl hk
      (by rw [setIp_peekAt]; exact hpeek) hni
  · intro field hpeek hfield
    rw [hstep]
    simp only [execOp]
    dsimp only [List.get?]
    rw [hk]
    dsimp only
    rw [setIp_peekAt, hpeek]
    dsimp only
    rw [setIp_insts, hfield]
    dsimp only
    rw [setIp_stack]
  · intro mcid hpeek hfield hmeth harity
    constructor
    · rw [hstep]
      simp only [execOp]
      dsimp only [List.get?]
      rw [hk]
      dsimp only
      rw [setIp_peekAt, hpeek]
      dsimp only
      rw [setIp_insts, hfield]
      dsimp only
      unfold invokeFromClass
      rw [setIp_classes, hmeth]
      dsimp only
      unfold vmCall
      rw [if_neg (by rw [setIp_stack]; have := peekAt_lt st argCount _ hpeek; omega)]
      dsimp only
      unfold callClos
      rw [if_neg (by rw [setIp_funs, setIp_closes]; omega)]
      rw [setIp_stack]
      simp [CallOut.toStep, setIp_classes, setIp_insts]
    · have hlen := peekAt_lt st argCount _ hpeek
      have hg := peekAt_get st argCount _ hpeek
      rw [← hg]
      congr 1
      omega
  · intro hpeek hfield hmeth
    rw [hstep]
    simp only [execOp]
    dsimp only [List.get?]
    rw [hk]
    dsimp only
    rw [setIp_peekAt, hpeek]
    dsimp only
    rw [setIp_insts, hfield]
    dsimp only
    unfold invokeFromClass
    rw [setIp_classes, hmeth]
    rfl

/-- Witness for C6: `inst.m(5)` on an instance whose class has method `m`
(arity 1) and no field `m`: the frame for the method closure is pushed
directly, the stack (receiver in slot 0) and the bound-method heap are
untouched. -/
theorem c6_opInvoke_witness :
    step
      (⟨[.vinst 0, .vnum 5], [⟨0, 0, 0⟩], [], [], [], ["m"],
        [⟨none, 0, 0, ⟨[ob .opInvoke, 0, 1], [.vstr 0]⟩⟩, ⟨none, 1, 0, ⟨[], []⟩⟩],
        [⟨0, []⟩, ⟨1, []⟩], [⟨0, [("m", .vclos 1)]⟩], [⟨0, []⟩], [], []⟩ : VMSt) =
      .cont
        (⟨[.vinst 0, .vnum 5], [⟨0, 3, 0⟩, ⟨1, 0, 0⟩], [], [], [], ["m"],
          [⟨none, 0, 0, ⟨[ob .opInvoke, 0, 1], [.vstr 0]⟩⟩, ⟨none, 1, 0, ⟨[], []⟩⟩],
          [⟨0, []⟩, ⟨1, []⟩], [⟨0, [("m", .vclos 1)]⟩], [⟨0, []⟩], [], []⟩ : VMSt) ∧
    (⟨[.vinst 0, .vnum 5], [⟨0, 0, 0⟩], [], [], [], ["m"],
      [⟨none, 0, 0, ⟨[ob .opInvoke, 0, 1], [.vstr 0]⟩⟩, ⟨none, 1, 0, ⟨[], []⟩⟩],
      [⟨0, []⟩, ⟨1, []⟩], [⟨0, [("m", .vclos 1)]⟩], [⟨0, []⟩], [], []⟩
        : VMSt).stack.get? 0 = some (.vinst 0) :=
  (c6_opInvoke
    (⟨[.vinst 0, .vnum 5], [⟨0, 0, 0⟩], [], [], [], ["m"],
      [⟨none, 0, 0, ⟨[ob .opInvoke, 0, 1], [.vstr 0]⟩⟩, ⟨none, 1, 0, ⟨[], []⟩⟩],
      [⟨0, []⟩, ⟨1, []⟩], [⟨0, [("m", .vclos 1)]⟩], [⟨0, []⟩], [], []⟩ : VMSt)
    ⟨0, 0, 0⟩ [] 0 1 0 0 rfl rfl rfl).2.2.1 1 (by decide) (by decide)
    (by decide) (by decide)

/-! ## C10: error recovery resets only the two stacks -/

/-- C10: `Recover` empties exactly the value stack and the call-frame
stack, leaving the globals map, the open-upvalue list and every heap
untouched; every error outcome of `Interpret` (compile-time or runtime)
is `Recover` applied to the state reached at the failure, so the globals
defined before the failure — and `NewVM`'s built-in `clock` native —
stay visible to subsequent `Interpret` calls on the same VM. -/
theorem c10_interpret_error_recovery :
    (∀ st : VMSt, (recoverVM st).stack = [] ∧ (recoverVM st).frames = [] ∧
      (recoverVM st).globals = st.globals ∧
      (recoverVM st).openUpvals = st.openUpvals ∧
      (recoverVM st).cells = st.cells ∧ (recoverVM st).strs = st.strs ∧
      (recoverVM st).insts = st.insts ∧ (recoverVM st).classes = st.classes) ∧
    (∀ (st0 : VMSt) (cres : Option (FunObj × List String)) (fuel : Nat)
        (r : String) (stF : VMSt),
      interpretCompiled st0 cres fuel = .errOut r stF →
      ∃ stMid, stF = recoverVM stMid) ∧
    alookup newVM.globals "clock" = some (.vnative 0) ∧
    (∀ st : VMSt, alookup (recoverVM st).globals "clock" =
      alookup st.globals "clock") := by
  refine ⟨fun st => ⟨rfl, rfl, rfl, rfl, rfl, rfl, rfl, rfl⟩, ?_, rfl, fun st => rfl⟩
  intro st0 cres fuel r stF h
  unfold interpretCompiled at h
  split at h
  · injection h with h1 h2
    exact ⟨st0, h2.symm⟩
  · dsimp only at h
    split at h
    · injection h with h1 h2
      exact ⟨_, h2.symm⟩
    · simp at h
    · split at h
      · simp at h
      · injection h with h1 h2
        exact ⟨_, h2.symm⟩
      · simp at h
      · simp at h

/-- Witness for C10: the run of the bare expression `nope` fails with
"undefined variable nope"; the final state is a `Recover` image (its
stacks empty, the globals including `clock` and the open-upvalue list
carried over from the failure state). -/
theorem c10_interpret_error_recovery_witness :
    ∃ stMid,
      (⟨[], [], [("clock", .vnative 0)], [], [], ["clock", "nope"],
        [⟨none, 0, 0, ⟨[ob .opGetGlobal, 0, ob .opNil, ob .opReturn],
          [.vstr 1]⟩⟩], [⟨0, []⟩], [], [], [], []⟩ : VMSt) = recoverVM stMid :=
  c10_interpret_error_recovery.2.1 newVM
    (compileExprModeScript newVM.strs (.eget "nope")) 100
    "undefined variable nope"
    (⟨[], [], [("clock", .vnative 0)], [], [], ["clock", "nope"],
      [⟨none, 0, 0, ⟨[ob .opGetGlobal, 0, ob .opNil, ob .opReturn],
        [.vstr 1]⟩⟩], [⟨0, []⟩], [], [], [], []⟩ : VMSt) rfl

/-! ### List-extension algebra -/

theorem listExtends_refl {α : Type} (l : List α) : ListExtends l l := ⟨[], by simp⟩

theorem listExtends_trans {α : Type} {a b c : List α}
    (h1 : ListExtends a b) (h2 : ListExtends b c) : ListExtends a c := by
  obtain ⟨u, rfl⟩ := h1
  obtain ⟨v, rfl⟩ := h2
  exact ⟨u ++ v, by simp⟩

theorem listExtends_append {α : Type} (l u : List α) : ListExtends l (l ++ u) := ⟨u, rfl⟩

theorem listExtends_length {α : Type} {a b : List α} (h : ListExtends a b) :
    a.length ≤ b.length := by
  obtain ⟨u, rfl⟩ := h
  simp

theorem listExtends_get {α : Type} {a b : List α} {n : Nat}
    (h : ListExtends a b) (hn : n < a.length) : b.get? n = a.get? n := by
  obtain ⟨u, rfl⟩ := h
  simp only [List.get?_eq_getElem?]
  exact List.getElem?_append_left hn

theorem listExtends_getD {α : Type} [Inhabited α] {a b : List α} {n : Nat}
    (h : ListExtends a b) (hn : n < a.length) : b.getD n default = a.getD n default := by
  simp only [List.getD_eq_getElem?_getD, ← List.get?_eq_getElem?]
  rw [listExtends_get h hn]

theorem listExtends_set {α : Type} {a b : List α} {p : Nat} {x : α}
    (h : ListExtends a b) (hp : a.length ≤ p) : ListExtends a (b.set p x) := by
  obtain ⟨u, rfl⟩ := h
  rw [List.set_append_right p x hp]
  exact ⟨_, rfl⟩

theorem get_concat_length {α : Type} (l : List α) (x : α) :
    (l ++ [x]).get? l.length = some x := by
  simp only [List.get?_eq_getElem?]
  exact List.getElem?_concat_length l x

theorem getD_concat_length {α : Type} [Inhabited α] (l : List α) (x : α) :
    (l ++ [x]).getD l.length default = x := by
  simp only [List.getD_eq_getElem?_getD, ← List.get?_eq_getElem?]
  rw [get_concat_length]
  rfl

/-! ### Scalarish facts about the value operations -/

theorem vAdd_ok_facts {s : List String} {a b v : Value} {s' : List String}
    (h : vAdd s a b = some (v, s')) : scalarish v = true ∧ ListExtends s s' := by
  cases a <;> cases b <;> simp [vAdd, newVStr] at h <;> obtain ⟨rfl, rfl⟩ := h
  · exact ⟨rfl, listExtends_refl s⟩
  · exact ⟨rfl, ⟨_, rfl⟩⟩

theorem vSub_ok_scalarish {a b v : Value} (h : vSub a b = some v) :
    scalarish v = true := by
  cases a <;> cases b <;> simp [vSub] at h
  subst h
  rfl

theorem vMul_ok_scalarish {a b v : Value} (h : vMul a b = some v) :
    scalarish v = true := by
  cases a <;> cases b <;> simp [vMul] at h
  subst h
  rfl

theorem vDiv_ok_scalarish {a b v : Value} (h : vDiv a b = some v) :
    scalarish v = true := by
  cases a <;> cases b <;> simp [vDiv] at h
  subst h
  rfl

theorem vGreater_ok_scalarish {a b v : Value} (h : vGreater a b = some v) :
    scalarish v = true := by
  cases a <;> cases b <;> simp [vGreater] at h
  subst h
  rfl

theorem vLess_ok_scalarish {a b v : Value} (h : vLess a b = some v) :
    scalarish v = true := by
  cases a <;> cases b <;> simp [vLess] at h
  subst h
  rfl

theorem vNeg_ok_scalarish {a v : Value} (h : vNeg a = some v) :
    scalarish v = true := by
  cases a <;> simp [vNeg] at h
  subst h
  rfl

/-! ### Globals-invariant facts -/

theorem aset_globalsOk {g : List (String × Value)} {k : String} {v : Value}
    (hg : GlobalsOk g) (hv : scalarish v = true) : GlobalsOk (aset g k v) := by
  induction g with
  | nil => intro p hp; simp [aset] at hp; subst hp; exact hv
  | cons q g ih =>
    intro p hp
    simp only [aset] at hp
    by_cases hk : q.1 == k
    · rw [if_pos hk] at hp
      rcases List.mem_cons.mp hp with rfl | hm
      · exact hv
      · exact hg p (List.mem_cons_of_mem q hm)
    · rw [if_neg hk] at hp
      rcases List.mem_cons.mp hp with rfl | hm
      · exact hg _ (List.mem_cons_self _ _)
      · exact ih (fun x hx => hg x (List.mem_cons_of_mem q hx)) p hm

theorem alookup_scalarish {g : List (String × Value)} {k : String} {v : Value}
    (hg : GlobalsOk g) (h : alookup g k = some v) : scalarish v = true := by
  unfold alookup at h
  cases hf : g.find? (fun p => p.1 == k) with
  | none => rw [hf] at h; cases h
  | some p =>
    rw [hf] at h
    injection h with h1
    subst h1
    exact hg p (List.mem_of_find?_eq_some hf)

/-! ### Inversion of the emission helpers -/

theorem mkConst_some {σ : CompSt} {v : Value} {p : Nat × CompSt}
    (h : mkConst σ v = some p) :
    p.1 = σ.consts.length ∧ p.2.code = σ.code ∧ p.2.consts = σ.consts ++ [v] ∧
    p.2.strs = σ.strs ∧ σ.consts.length ≤ 255 := by
  unfold mkConst at h
  dsimp only at h
  split at h
  · cases h
  · injection h with h1
    subst h1
    exact ⟨rfl, rfl, rfl, rfl, by omega⟩

theorem emitConstC_some {σ : CompSt} {v : Value} {σ' : CompSt}
    (h : emitConstC σ v = some σ') :
    σ'.code = σ.code ++ [ob .opConst, σ.consts.length] ∧
    σ'.consts = σ.consts ++ [v] ∧ σ'.strs = σ.strs := by
  unfold emitConstC at h
  cases hm : mkConst σ v with
  | none => rw [hm] at h; cases h
  | some p =>
    rw [hm] at h
    simp only [Option.map_some'] at h
    obtain ⟨h1, h2, h3, h4, h5⟩ := mkConst_some hm
    injection h with h6
    subst h6
    simp [emitBytesC, h1, h2, h3, h4]

theorem identConst_some {σ : CompSt} {n : String} {p : Nat × CompSt}
    (h : identConst σ n = some p) :
    p.1 = σ.consts.length ∧ p.2.code = σ.code ∧
    p.2.consts = σ.consts ++ [.vstr σ.strs.length] ∧
    p.2.strs = σ.strs ++ [n] ∧ σ.consts.length ≤ 255 := by
  unfold identConst newVStr at h
  exact mkConst_some h

theorem patchJump_some {σ : CompSt} {off : Nat} {σ' : CompSt}
    (h : patchJump σ off = some σ') :
    σ.code.length - (off + 2) ≤ 65535 ∧
    σ'.code = (σ.code.set off ((σ.code.length - (off + 2)) >>> 8 &&& 255)).set
      (off + 1) ((σ.code.length - (off + 2)) &&& 255) ∧
    σ'.consts = σ.consts ∧ σ'.strs = σ.strs := by
  unfold patchJump at h
  dsimp only at h
  split at h
  · cases h
  · injection h with h1
    subst h1
    refine ⟨by omega, rfl, rfl, rfl⟩

/-! ### Compilation only appends to code, constants and strings -/

mutual

theorem compileE_mono : ∀ (e : Expr) (σ σ' : CompSt), compileE e σ = some σ' →
    ListExtends σ.code σ'.code ∧ ListExtends σ.consts σ'.consts ∧
    ListExtends σ.strs σ'.strs
  | .enum q, σ, σ', h => by
    simp only [compileE] at h
    obtain ⟨h1, h2, h3⟩ := emitConstC_some h
    exact ⟨h1 ▸ listExtends_append _ _, h2 ▸ listExtends_append _ _,
      h3 ▸ listExtends_refl _⟩
  | .estr s, σ, σ', h => by
    simp only [compileE, newVStr] at h
    obtain ⟨h1, h2, h3⟩ := emitConstC_some h
    refine ⟨h1 ▸ listExtends_append _ _, h2 ▸ listExtends_append _ _, ?_⟩
    rw [h3]
    exact listExtends_append _ _
  | .ebool true, σ, σ', h => by
    simp only [compileE] at h
    injection h with h1
    exact ⟨h1 ▸ listExtends_append _ _, h1 ▸ listExtends_refl _,
      h1 ▸ listExtends_refl _⟩
  | .ebool false, σ, σ', h => by
    simp only [compileE] at h
    injection h with h1
    exact ⟨h1 ▸ listExtends_append _ _, h1 ▸ listExtends_refl _,
      h1 ▸ listExtends_refl _⟩
  | .enil, σ, σ', h => by
    simp only [compileE] at h
    injection h with h1
    exact ⟨h1 ▸ listExtends_append _ _, h1 ▸ listExtends_refl _,
      h1 ▸ listExtends_refl _⟩
  | .eget n, σ, σ', h => by
    simp only [compileE, Option.bind_eq_bind, Option.bind_eq_some] at h
    obtain ⟨p, hp, h1⟩ := h
    obtain ⟨_, hc, hk, hs, _⟩ := identConst_some hp
    injection h1 with h1
    subst h1
    refine ⟨?_, ?_, ?_⟩
    · simp only [emitBytesC]
      rw [hc]
      exact listExtends_append _ _
    · rw [show (emitBytesC p.2 [ob .opGetGlobal, p.1]).consts = p.2.consts from rfl, hk]
      exact listExtends_append _ _
    · rw [show (emitBytesC p.2 [ob .opGetGlobal, p.1]).strs = p.2.strs from rfl, hs]
      exact listExtends_append _ _
  | .eset n r, σ, σ', h => by
    simp only [compileE, Option.bind_eq_bind, Option.bind_eq_some] at h
    obtain ⟨p, hp, σ2, h2, h1⟩ := h
    obtain ⟨_, hc, hk, hs, _⟩ := identConst_some hp
    obtain ⟨m1, m2, m3⟩ := compileE_mono r p.2 σ2 h2
    injection h1 with h1
    subst h1
    refine ⟨?_, ?_, ?_⟩
    · refine listExtends_trans (hc ▸ m1) ?_
      exact listExtends_append _ _
    · exact listExtends_trans (hk ▸ listExtends_append _ _)
        (listExtends_trans m2 (listExtends_refl _))
    · exact listExtends_trans (hs ▸ listExtends_append _ _)
        (listExtends_trans m3 (listExtends_refl _))
  | .enot e, σ, σ', h => by
    simp only [compileE, Option.bind_eq_bind, Option.bind_eq_some] at h
    obtain ⟨σ1, h1, h2⟩ := h
    obtain ⟨m1, m2, m3⟩ := compileE_mono e σ σ1 h1
    injection h2 with h2
    subst h2
    exact ⟨listExtends_trans m1 (listExtends_append _ _), m2, m3⟩
  | .eneg e, σ, σ', h => by
    simp only [compileE, Option.bind_eq_bind, Option.bind_eq_some] at h
    obtain ⟨σ1, h1, h2⟩ := h
    obtain ⟨m1, m2, m3⟩ := compileE_mono e σ σ1 h1
    injection h2 with h2
    subst h2
    exact ⟨listExtends_trans m1 (listExtends_append _ _), m2, m3⟩
  | .ebin op l r, σ, σ', h => by
    simp only [compileE, Option.bind_eq_bind, Option.bind_eq_some] at h
    obtain ⟨σ1, h1, σ2, h2, h3⟩ := h
    obtain ⟨a1, a2, a3⟩ := compileE_mono l σ σ1 h1
    obtain ⟨b1, b2, b3⟩ := compileE_mono r σ1 σ2 h2
    injection h3 with h3
    subst h3
    exact ⟨listExtends_trans a1 (listExtends_trans b1 (listExtends_append _ _)),
      listExtends_trans a2 b2, listExtends_trans a3 b3⟩
  | .eand l r, σ, σ', h => by
    simp only [compileE, Option.bind_eq_bind, Option.bind_eq_some] at h
    obtain ⟨σ1, h1, σ4, h4, hp⟩ := h
    obtain ⟨a1, a2, a3⟩ := compileE_mono l σ σ1 h1
    obtain ⟨b1, b2, b3⟩ := compileE_mono r _ σ4 h4
    obtain ⟨_, hc, hk, hs⟩ := patchJump_some hp
    have hj : (emitJump σ1 .opJumpUnless).1 = σ1.code.length + 1 := by
      simp [emitJump, emitBytesC]
    have hmid : ListExtends σ1.code
        (emitBytesC (emitJump σ1 .opJumpUnless).2 [ob .opPop]).code := by
      refine ⟨[ob .opJumpUnless, 255, 255, ob .opPop], ?_⟩
      simp [emitJump, emitBytesC]
    have hext : ListExtends σ.code σ4.code :=
      listExtends_trans a1 (listExtends_trans hmid b1)
    have hlen1 := listExtends_length a1
    refine ⟨?_, ?_, ?_⟩
    · rw [hc, hj]
      exact listExtends_set (listExtends_set hext (by omega)) (by omega)
    · rw [hk]
      exact listExtends_trans a2 b2
    · rw [hs]
      exact listExtends_trans a3 b3
  | .eor l r, σ, σ', h => by
    simp only [compileE, Option.bind_eq_bind, Option.bind_eq_some] at h
    obtain ⟨σ1, h1, σp, hpe, σ6, h6, hp2⟩ := h
    obtain ⟨a1, a2, a3⟩ := compileE_mono l σ σ1 h1
    obtain ⟨_, cp1, cp2, cp3⟩ := patchJump_some hpe
    obtain ⟨b1, b2, b3⟩ := compileE_mono r _ σ6 h6
    obtain ⟨_, hc, hk, hs⟩ := patchJump_some hp2
    have hj1 : (emitJump (emitJump σ1 .opJumpUnless).2 .opJump).1 =
        σ1.code.length + 4 := by
      simp [emitJump, emitBytesC]
    have hj1e : (emitJump σ1 .opJumpUnless).1 = σ1.code.length + 1 := by
      simp [emitJump, emitBytesC]
    have hlen1 := listExtends_length a1
    have hmid : ListExtends σ1.code
        (emitJump (emitJump σ1 .opJumpUnless).2 .opJump).2.code := by
      refine ⟨[ob .opJumpUnless, 255, 255, ob .opJump, 255, 255], ?_⟩
      simp [emitJump, emitBytesC]
    have hextp : ListExtends σ.code σp.code := by
      rw [cp1, hj1e]
      exact listExtends_set
        (listExtends_set (listExtends_trans a1 hmid) (by omega)) (by omega)
    have hext6 : ListExtends σ.code σ6.code := by
      refine listExtends_trans hextp (listExtends_trans ?_ b1)
      exact listExtends_append _ [ob .opPop]
    have hlen6 := listExtends_length hext6
    refine ⟨?_, ?_, ?_⟩
    · rw [hc, hj1]
      exact listExtends_set (listExtends_set hext6 (by omega)) (by omega)
    · rw [hk]
      refine listExtends_trans a2 ?_
      have hcst : (emitBytesC σp [ob .opPop]).consts = σ1.consts := by
        simp [emitBytesC, cp2, emitJump]
      rw [← hcst]
      exact b2
    · rw [hs]
      refine listExtends_trans a3 ?_
      have hst : (emitBytesC σp [ob .opPop]).strs = σ1.strs := by
        simp [emitBytesC, cp3, emitJump]
      rw [← hst]
      exact b3
  | .ecall f args, σ, σ', h => by
    simp only [compileE, Option.bind_eq_bind, Option.bind_eq_some] at h
    obtain ⟨σ1, h1, h2⟩ := h
    split at h2
    · cases h2
    · cases hca : compileArgs args σ1 with
      | none =>
        rw [hca] at h2
        cases h2
      | some σ2 =>
        rw [hca] at h2
        obtain ⟨a1, a2, a3⟩ := compileE_mono f σ σ1 h1
        obtain ⟨b1, b2, b3⟩ := compileArgs_mono args σ1 σ2 hca
        injection h2 with h3
        subst h3
        exact ⟨listExtends_trans a1 (listExtends_trans b1 (listExtends_append _ _)),
          listExtends_trans a2 b2, listExtends_trans a3 b3⟩
  | .egetp o n, σ, σ', h => by
    simp only [compileE, Option.bind_eq_bind, Option.bind_eq_some] at h
    obtain ⟨σ1, h1, p, hp, h2⟩ := h
    obtain ⟨a1, a2, a3⟩ := compileE_mono o σ σ1 h1
    obtain ⟨_, hc, hk, hs, _⟩ := identConst_some hp
    injection h2 with h2
    subst h2
    refine ⟨?_, ?_, ?_⟩
    · refine listExtends_trans a1 ?_
      rw [show (emitBytesC p.2 [ob .opGetProp, p.1]).code = p.2.code ++ _ from rfl, hc]
      exact listExtends_append _ _
    · refine listExtends_trans a2 ?_
      rw [show (emitBytesC p.2 [ob .opGetProp, p.1]).consts = p.2.consts from rfl, hk]
      exact listExtends_append _ _
    · refine listExtends_trans a3 ?_
      rw [show (emitBytesC p.2 [ob .opGetProp, p.1]).strs = p.2.strs from rfl, hs]
      exact listExtends_append _ _
  | .esetp o n r, σ, σ', h => by
    simp only [compileE, Option.bind_eq_bind, Option.bind_eq_some] at h
    obtain ⟨σ1, h1, p, hp, σ3, h3, h2⟩ := h
    obtain ⟨a1, a2, a3⟩ := compileE_mono o σ σ1 h1
    obtain ⟨_, hc, hk, hs, _⟩ := identConst_some hp
    obtain ⟨b1, b2, b3⟩ := compileE_mono r p.2 σ3 h3
    injection h2 with h2
    subst h2
    refine ⟨?_, ?_, ?_⟩
    · refine listExtends_trans a1 (listExtends_trans (hc ▸ b1) ?_)
      exact listExtends_append _ _
    · exact listExtends_trans a2 (listExtends_trans (hk ▸ listExtends_append _ _)
        (listExtends_trans b2 (listExtends_refl _)))
    · exact listExtends_trans a3 (listExtends_trans (hs ▸ listExtends_append _ _)
        (listExtends_trans b3 (listExtends_refl _)))
  | .einvoke o n args, σ, σ', h => by
    simp only [compileE, Option.bind_eq_bind, Option.bind_eq_some] at h
    obtain ⟨σ1, h1, p, hp, h2⟩ := h
    split at h2
    · cases h2
    · cases hca : compileArgs args p.2 with
      | none =>
        rw [hca] at h2
        cases h2
      | some σ3 =>
        rw [hca] at h2
        obtain ⟨a1, a2, a3⟩ := compileE_mono o σ σ1 h1
        obtain ⟨_, hc, hk, hs, _⟩ := identConst_some hp
        obtain ⟨b1, b2, b3⟩ := compileArgs_mono args p.2 σ3 hca
        injection h2 with h3
        subst h3
        refine ⟨?_, ?_, ?_⟩
        · refine listExtends_trans a1 (listExtends_trans (hc ▸ b1) ?_)
          exact listExtends_append _ _
        · exact listExtends_trans a2 (listExtends_trans (hk ▸ listExtends_append _ _)
            (listExtends_trans b2 (listExtends_refl _)))
        · exact listExtends_trans a3 (listExtends_trans (hs ▸ listExtends_append _ _)
            (listExtends_trans b3 (listExtends_refl _)))

theorem compileArgs_mono : ∀ (as : List Expr) (σ σ' : CompSt),
    compileArgs as σ = some σ' →
    ListExtends σ.code σ'.code ∧ ListExtends σ.consts σ'.consts ∧
    ListExtends σ.strs σ'.strs
  | [], σ, σ', h => by
    simp only [compileArgs] at h
    injection h with h1
    subst h1
    exact ⟨listExtends_refl _, listExtends_refl _, listExtends_refl _⟩
  | e :: rest, σ, σ', h => by
    simp only [compileArgs, Option.bind_eq_bind, Option.bind_eq_some] at h
    obtain ⟨σ1, h1, h2⟩ := h
    obtain ⟨a1, a2, a3⟩ := compileE_mono e σ σ1 h1
    obtain ⟨b1, b2, b3⟩ := compileArgs_mono rest σ1 σ' h2
    exact ⟨listExtends_trans a1 b1, listExtends_trans a2 b2,
      listExtends_trans a3 b3⟩

end

/-! ### Locating compiled code inside a chunk -/

theorem codeAt_of_extends {pre mid c : List Nat}
    (h : ListExtends (pre ++ mid) c) : CodeAt c pre.length mid := by
  obtain ⟨u, hu⟩ := h
  exact ⟨u, by rw [hu, List.append_assoc, List.drop_left]⟩

theorem codeAt_cons {c : List Nat} {ip b : Nat} {mid : List Nat}
    (h : CodeAt c ip (b :: mid)) : ∃ u, c.drop ip = b :: (mid ++ u) := by
  obtain ⟨u, hu⟩ := h
  exact ⟨u, by simpa using hu⟩

theorem codeAt_append_left {c : List Nat} {ip : Nat} {a b : List Nat}
    (h : CodeAt c ip (a ++ b)) : CodeAt c ip a := by
  obtain ⟨u, hu⟩ := h
  exact ⟨b ++ u, by rw [hu, List.append_assoc]⟩

theorem codeAt_append_right {c : List Nat} {ip : Nat} {a b : List Nat}
    (h : CodeAt c ip (a ++ b)) : CodeAt c (ip + a.length) b := by
  obtain ⟨u, hu⟩ := h
  refine ⟨u, ?_⟩
  rw [← List.drop_drop, hu, List.append_assoc, List.drop_left]

theorem set_append_at {α : Type} (l t : List α) (k : Nat) (x : α) :
    (l ++ t).set (l.length + k) x = l ++ t.set k x := by
  rw [List.set_append_right (l.length + k) x (by omega)]
  have h1 : l.length + k - l.length = k := by omega
  rw [h1]

/-! ### Stack access helpers -/

theorem peekAt_stack_cons (st : VMSt) (l vs : List Value) (v : Value) (d : Nat)
    (hst : st.stack = l ++ v :: vs) (hd : vs.length = d) :
    st.peekAt d = some v := by
  subst hd
  unfold VMSt.peekAt
  have hlen : st.stack.length = l.length + (vs.length + 1) := by rw [hst]; simp
  rw [if_pos (by omega)]
  have hidx : st.stack.length - 1 - vs.length = l.length := by omega
  rw [hidx, hst, List.get?_eq_getElem?, List.getElem?_append_right (by omega)]
  simp

theorem vmCall_native_run (st : VMSt) (l vs : List Value) (nid argc : Nat)
    (hst : st.stack = l ++ .vnative nid :: vs) (hargs : vs.length = argc) :
    vmCall runNative st (.vnative nid) argc =
      .okSt { st with stack := l ++ [.vnum 0] } := by
  subst hargs
  have hlen : st.stack.length = l.length + (vs.length + 1) := by rw [hst]; simp
  have htake : st.stack.take (st.stack.length - vs.length - 1) = l := by
    have h1 : st.stack.length - vs.length - 1 = l.length := by omega
    rw [h1, hst]
    exact List.take_left ..
  unfold vmCall
  rw [if_neg (by omega)]
  simp only [runNative, htake]

theorem vmCall_noncallable (st : VMSt) (v : Value) (argc : Nat)
    (hlen : argc + 1 ≤ st.stack.length)
    (hv : scalarish v = true) (hnn : ∀ nid, v ≠ .vnative nid) :
    vmCall runNative st v argc =
      .errOut "can only call functions and classes" st := by
  unfold vmCall
  rw [if_neg (by omega)]
  cases v <;> simp_all [scalarish]

theorem consts_get_chain {a : List Value} {v : Value} {b c : List Value}
    (h1 : ListExtends (a ++ [v]) b) (h2 : ListExtends b c) :
    c.get? a.length = some v := by
  have h4 : c.get? a.length = (a ++ [v]).get? a.length :=
    listExtends_get (listExtends_trans h1 h2) (by simp)
  rw [h4, get_concat_length]

/-- Dispatch from an `advE` state whose code at `ip` starts with opcode
byte `b`. -/
theorem step_advE {st : VMSt} {fr : Frame} {ip : Nat} {stk : List Value}
    {g : List (String × Value)} {s : List String} {b : Nat} {ops : List Nat}
    {op : OpCode}
    (hca : CodeAt (st.chunkOf fr).code ip (b :: ops))
    (hb : decodeOp b = some op) :
    ∃ u, step (advE st fr ip stk g s) =
      execOp (advE st fr ip stk g s) { fr with ip := ip } op (ops ++ u) := by
  obtain ⟨u, hu⟩ := codeAt_cons hca
  refine ⟨u, ?_⟩
  refine step_eq_execOp _ _ b _ _ (advE_frames_getLast st fr ip stk g s) ?_ hb
  rw [advE_chunkOf]
  exact hu

/-! ### Exact code layout of the `and` / `or` emitters -/

theorem and_patch_eq (pre c2 : List Nat) (b1 b4 hi lo : Nat) :
    ((pre ++ b1 :: 255 :: 255 :: b4 :: c2).set (pre.length + 1) hi).set
        (pre.length + 2) lo =
      pre ++ b1 :: hi :: lo :: b4 :: c2 := by
  rw [set_append_at pre _ 1 hi]
  have e1 : (b1 :: 255 :: 255 :: b4 :: c2).set 1 hi =
      b1 :: hi :: 255 :: b4 :: c2 := rfl
  rw [e1, set_append_at pre _ 2 lo]
  have e2 : (b1 :: hi :: 255 :: b4 :: c2).set 2 lo =
      b1 :: hi :: lo :: b4 :: c2 := rfl
  rw [e2]

theorem or_patch_eq (pre c2 : List Nat) (x1 x2 x3 x4 x7 hi lo : Nat) :
    ((pre ++ x1 :: x2 :: x3 :: x4 :: 255 :: 255 :: x7 :: c2).set
        (pre.length + 4) hi).set (pre.length + 5) lo =
      pre ++ x1 :: x2 :: x3 :: x4 :: hi :: lo :: x7 :: c2 := by
  rw [set_append_at pre _ 4 hi]
  have e1 : (x1 :: x2 :: x3 :: x4 :: 255 :: 255 :: x7 :: c2).set 4 hi =
      x1 :: x2 :: x3 :: x4 :: hi :: 255 :: x7 :: c2 := rfl
  rw [e1, set_append_at pre _ 5 lo]
  have e2 : (x1 :: x2 :: x3 :: x4 :: hi :: 255 :: x7 :: c2).set 5 lo =
      x1 :: x2 :: x3 :: x4 :: hi :: lo :: x7 :: c2 := rfl
  rw [e2]

/-- Layout of the code produced for `l and r`: the left operand, an
`OpJumpUnless` over `OpPop` and the right operand, with the back-patched
big-endian distance `len(r-code) + 1`. -/
theorem compileE_and_shape {l r : Expr} {σ σA : CompSt}
    (h : compileE (.eand l r) σ = some σA) :
    ∃ σ1 σ4 c2,
      compileE l σ = some σ1 ∧
      compileE r (emitBytesC (emitJump σ1 .opJumpUnless).2 [ob .opPop]) =
        some σ4 ∧
      (emitBytesC (emitJump σ1 .opJumpUnless).2 [ob .opPop]).code =
        σ1.code ++ [ob .opJumpUnless, 255, 255, ob .opPop] ∧
      σ4.code = σ1.code ++
        ob .opJumpUnless :: 255 :: 255 :: ob .opPop :: c2 ∧
      c2.length + 1 ≤ 65535 ∧
      σA.code = σ1.code ++ ob .opJumpUnless ::
        ((c2.length + 1) >>> 8 &&& 255) :: ((c2.length + 1) &&& 255) ::
        ob .opPop :: c2 ∧
      σA.consts = σ4.consts ∧ σA.strs = σ4.strs := by
  simp only [compileE, Option.bind_eq_bind, Option.bind_eq_some] at h
  obtain ⟨σ1, h1, σ4, h4, hp⟩ := h
  have hσ3 : (emitBytesC (emitJump σ1 .opJumpUnless).2 [ob .opPop]).code =
      σ1.code ++ [ob .opJumpUnless, 255, 255, ob .opPop] := by
    simp [emitJump, emitBytesC]
  obtain ⟨⟨c2, hc2⟩, _, _⟩ := compileE_mono r _ σ4 h4
  rw [hσ3] at hc2
  obtain ⟨hle, hcode, hk, hs⟩ := patchJump_some hp
  have hj : (emitJump σ1 .opJumpUnless).1 = σ1.code.length + 1 := by
    simp [emitJump, emitBytesC]
  have hlen4 : σ4.code.length = σ1.code.length + (4 + c2.length) := by
    rw [hc2]; simp only [List.length_append, List.length_cons, List.length_nil]; omega
  have hjump : σ4.code.length - (σ1.code.length + 1 + 2) = c2.length + 1 := by
    rw [hlen4]; omega
  rw [hj] at hle hcode
  rw [hjump] at hle hcode
  have e2 : σ1.code.length + 1 + 1 = σ1.code.length + 2 := rfl
  rw [e2] at hcode
  have e3 : σ1.code ++ [ob .opJumpUnless, 255, 255, ob .opPop] ++ c2 =
      σ1.code ++ ob .opJumpUnless :: 255 :: 255 :: ob .opPop :: c2 := by
    simp
  rw [hc2, e3, and_patch_eq] at hcode
  exact ⟨σ1, σ4, c2, h1, h4, hσ3, by rw [hc2, e3], hle, hcode, hk, hs⟩

/-- Layout of the code produced for `l or r`: the left operand, an
`OpJumpUnless` with distance 3 over an `OpJump`, the `OpJump` to the end
with back-patched distance `len(r-code) + 1`, then `OpPop` and the right
operand. -/
theorem compileE_or_shape {l r : Expr} {σ σO : CompSt}
    (h : compileE (.eor l r) σ = some σO) :
    ∃ σ1 σp σ6 c2,
      compileE l σ = some σ1 ∧
      patchJump (emitJump (emitJump σ1 .opJumpUnless).2 .opJump).2
        (emitJump σ1 .opJumpUnless).1 = some σp ∧
      compileE r (emitBytesC σp [ob .opPop]) = some σ6 ∧
      (emitBytesC σp [ob .opPop]).code =
        σ1.code ++ [ob .opJumpUnless, 0, 3, ob .opJump, 255, 255, ob .opPop] ∧
      σ6.code = σ1.code ++ ob .opJumpUnless :: 0 :: 3 :: ob .opJump ::
        255 :: 255 :: ob .opPop :: c2 ∧
      c2.length + 1 ≤ 65535 ∧
      σO.code = σ1.code ++ ob .opJumpUnless :: 0 :: 3 :: ob .opJump ::
        ((c2.length + 1) >>> 8 &&& 255) :: ((c2.length + 1) &&& 255) ::
        ob .opPop :: c2 ∧
      σO.consts = σ6.consts ∧ σO.strs = σ6.strs := by
  simp only [compileE, Option.bind_eq_bind, Option.bind_eq_some] at h
  obtain ⟨σ1, h1, σp, hpe, σ6, h6, hp2⟩ := h
  have hj1e : (emitJump σ1 .opJumpUnless).1 = σ1.code.length + 1 := by
    simp [emitJump, emitBytesC]
  have hj1 : (emitJump (emitJump σ1 .opJumpUnless).2 .opJump).1 =
      σ1.code.length + 4 := by
    simp [emitJump, emitBytesC]
  have hpEndcode : (emitJump (emitJump σ1 .opJumpUnless).2 .opJump).2.code =
      σ1.code ++ ob .opJumpUnless :: 255 :: 255 :: ob .opJump ::
        255 :: 255 :: [] := by
    simp [emitJump, emitBytesC]
  obtain ⟨hle0, hcode0, hk0, hs0⟩ := patchJump_some hpe
  have hlenEnd : (emitJump (emitJump σ1 .opJumpUnless).2 .opJump).2.code.length =
      σ1.code.length + 6 := by
    rw [hpEndcode]; simp
  have hj0 : (emitJump (emitJump σ1 .opJumpUnless).2 .opJump).2.code.length -
      (σ1.code.length + 1 + 2) = 3 := by
    rw [hlenEnd]; omega
  rw [hj1e] at hcode0
  rw [hj0] at hcode0
  have ehi0 : (3 : Nat) >>> 8 &&& 255 = 0 := by decide
  have elo0 : (3 : Nat) &&& 255 = 3 := by decide
  rw [ehi0, elo0] at hcode0
  have e2 : σ1.code.length + 1 + 1 = σ1.code.length + 2 := rfl
  rw [e2, hpEndcode, and_patch_eq] at hcode0
  have hσ5 : (emitBytesC σp [ob .opPop]).code =
      σ1.code ++ [ob .opJumpUnless, 0, 3, ob .opJump, 255, 255, ob .opPop] := by
    simp [emitBytesC, hcode0]
  obtain ⟨⟨c2, hc2⟩, _, _⟩ := compileE_mono r _ σ6 h6
  rw [hσ5] at hc2
  have e4 : σ1.code ++
      [ob .opJumpUnless, 0, 3, ob .opJump, 255, 255, ob .opPop] ++ c2 =
      σ1.code ++ ob .opJumpUnless :: 0 :: 3 :: ob .opJump ::
        255 :: 255 :: ob .opPop :: c2 := by
    simp
  rw [e4] at hc2
  obtain ⟨hle, hcode, hk, hs⟩ := patchJump_some hp2
  have hlen6 : σ6.code.length = σ1.code.length + (7 + c2.length) := by
    rw [hc2]; simp only [List.length_append, List.length_cons, List.length_nil]; omega
  have hjump : σ6.code.length - (σ1.code.length + 4 + 2) = c2.length + 1 := by
    rw [hlen6]; omega
  rw [hj1] at hle hcode
  rw [hjump] at hle hcode
  have e5 : σ1.code.length + 4 + 1 = σ1.code.length + 5 := rfl
  rw [e5, hc2, or_patch_eq] at hcode
  exact ⟨σ1, σp, σ6, c2, h1, hpe, h6, hσ5, hc2, hle, hcode, hk, hs⟩

/-- One dispatch step, fully determined by the opcode byte found at the
frame's ip and the outcome of `execOp` on the remaining bytes. -/
theorem step_at {st : VMSt} {fr : Frame} {b : Nat} {ops : List Nat}
    {op : OpCode} {out : StepOut}
    (hfr : st.frames.getLast? = some fr)
    (hca : CodeAt (st.chunkOf fr).code fr.ip (b :: ops))
    (hb : decodeOp b = some op)
    (hex : ∀ u, execOp st fr op (ops ++ u) = out) :
    step st = out := by
  obtain ⟨u, hu⟩ := codeAt_cons hca
  rw [step_eq_execOp st fr b (ops ++ u) op hfr hu hb]
  exact hex u

/-- `step_at` specialised to an `advE` state: the frame is the original
one with the ip moved, and the chunk is unchanged. -/
theorem advE_step_eq {st : VMSt} {fr : Frame} {ip : Nat} {stk : List Value}
    {g : List (String × Value)} {s : List String} {b : Nat} {ops : List Nat}
    {op : OpCode} {out : StepOut}
    (hca : CodeAt (st.chunkOf fr).code ip (b :: ops))
    (hb : decodeOp b = some op)
    (hex : ∀ u, execOp (advE st fr ip stk g s) { fr with ip := ip } op
      (ops ++ u) = out) :
    step (advE st fr ip stk g s) = out := by
  refine step_at (advE_frames_getLast st fr ip stk g s) ?_ hb hex
  exact hca

theorem advE_stack (st : VMSt) (fr : Frame) (ip : Nat) (stk : List Value)
    (g : List (String × Value)) (s : List String) :
    (advE st fr ip stk g s).stack = stk := rfl

theorem advE_globals (st : VMSt) (fr : Frame) (ip : Nat) (stk : List Value)
    (g : List (String × Value)) (s : List String) :
    (advE st fr ip stk g s).globals = g := rfl

theorem advE_strs (st : VMSt) (fr : Frame) (ip : Nat) (stk : List Value)
    (g : List (String × Value)) (s : List String) :
    (advE st fr ip stk g s).strs = s := rfl

/-! ### One-instruction steps from an `advE` state, binary operators -/

theorem advE_step_equal (st : VMSt) (fr : Frame) (n2 : Nat) (L : List Value)
    (vl vr : Value) (g : List (String × Value)) (s : List String)
    (hca : CodeAt (st.chunkOf fr).code n2 [ob .opEqual]) :
    step (advE st fr n2 ((L ++ [vl]) ++ [vr]) g s) =
      .cont (advE st fr (n2 + 1) (L ++ [.vbool (vEq vl vr)]) g s) := by
  refine advE_step_eq hca (decode_ob .opEqual) (fun u => ?_)
  rw [exec_equal (advE st fr n2 ((L ++ [vl]) ++ [vr]) g s) { fr with ip := n2 }
    ([] ++ u) vl vr (List.getLast?_concat _)
    (show ((L ++ [vl]) ++ [vr]).dropLast.getLast? = some vl by
      rw [List.dropLast_concat]; exact List.getLast?_concat _)]
  rw [setIp_with_stack_advE _ _ _ _
    (advE_frames_getLast st fr n2 ((L ++ [vl]) ++ [vr]) g s)]
  rw [advE_advE]
  simp [advE_stack, advE_globals, advE_strs, List.dropLast_concat]

theorem advE_step_not (st : VMSt) (fr : Frame) (n : Nat) (L : List Value)
    (x : Value) (g : List (String × Value)) (s : List String)
    (hca : CodeAt (st.chunkOf fr).code n [ob .opNot]) :
    step (advE st fr n (L ++ [x]) g s) =
      .cont (advE st fr (n + 1) (L ++ [.vbool (!vTruthy x)]) g s) := by
  refine advE_step_eq hca (decode_ob .opNot) (fun u => ?_)
  rw [exec_not (advE st fr n (L ++ [x]) g s) { fr with ip := n } ([] ++ u) x
    (List.getLast?_concat _)]
  rw [setIp_with_stack_advE _ _ _ _ (advE_frames_getLast st fr n (L ++ [x]) g s)]
  rw [advE_advE]
  simp [advE_stack, advE_globals, advE_strs, List.dropLast_concat]

theorem advE_step_add_ok (st : VMSt) (fr : Frame) (n2 : Nat) (L : List Value)
    (vl vr w : Value) (g : List (String × Value)) (s s1 : List String)
    (hca : CodeAt (st.chunkOf fr).code n2 [ob .opAdd])
    (hop : vAdd s vl vr = some (w, s1)) :
    step (advE st fr n2 ((L ++ [vl]) ++ [vr]) g s) =
      .cont (advE st fr (n2 + 1) (L ++ [w]) g s1) := by
  refine advE_step_eq hca (decode_ob .opAdd) (fun u => ?_)
  rw [exec_add_ok (advE st fr n2 ((L ++ [vl]) ++ [vr]) g s) { fr with ip := n2 }
    ([] ++ u) vl vr w s1 (List.getLast?_concat _)
    (show ((L ++ [vl]) ++ [vr]).dropLast.getLast? = some vl by
      rw [List.dropLast_concat]; exact List.getLast?_concat _) hop]
  rw [setIp_with_stack_strs_advE _ _ _ _ _
    (advE_frames_getLast st fr n2 ((L ++ [vl]) ++ [vr]) g s)]
  rw [advE_advE]
  simp [advE_stack, advE_globals, advE_strs, List.dropLast_concat]

theorem advE_step_sub_ok (st : VMSt) (fr : Frame) (n2 : Nat) (L : List Value)
    (vl vr w : Value) (g : List (String × Value)) (s : List String)
    (hca : CodeAt (st.chunkOf fr).code n2 [ob .opSub])
    (hop : vSub vl vr = some w) :
    step (advE st fr n2 ((L ++ [vl]) ++ [vr]) g s) =
      .cont (advE st fr (n2 + 1) (L ++ [w]) g s) := by
  refine advE_step_eq hca (decode_ob .opSub) (fun u => ?_)
  rw [exec_sub_ok (advE st fr n2 ((L ++ [vl]) ++ [vr]) g s) { fr with ip := n2 }
    ([] ++ u) vl vr w (List.getLast?_concat _)
    (show ((L ++ [vl]) ++ [vr]).dropLast.getLast? = some vl by
      rw [List.dropLast_concat]; exact List.getLast?_concat _) hop]
  rw [setIp_with_stack_advE _ _ _ _
    (advE_frames_getLast st fr n2 ((L ++ [vl]) ++ [vr]) g s)]
  rw [advE_advE]
  simp [advE_stack, advE_globals, advE_strs, List.dropLast_concat]

theorem advE_step_mul_ok (st : VMSt) (fr : Frame) (n2 : Nat) (L : List Value)
    (vl vr w : Value) (g : List (String × Value)) (s : List String)
    (hca : CodeAt (st.chunkOf fr).code n2 [ob .opMul])
    (hop : vMul vl vr = some w) :
    step (advE st fr n2 ((L ++ [vl]) ++ [vr]) g s) =
      .cont (advE st fr (n2 + 1) (L ++ [w]) g s) := by
  refine advE_step_eq hca (decode_ob .opMul) (fun u => ?_)
  rw [exec_mul_ok (advE st fr n2 ((L ++ [vl]) ++ [vr]) g s) { fr with ip := n2 }
    ([] ++ u) vl vr w (List.getLast?_concat _)
    (show ((L ++ [vl]) ++ [vr]).dropLast.getLast? = some vl by
      rw [List.dropLast_concat]; exact List.getLast?_concat _) hop]
  rw [setIp_with_stack_advE _ _ _ _
    (advE_frames_getLast st fr n2 ((L ++ [vl]) ++ [vr]) g s)]
  rw [advE_advE]
  simp [advE_stack, advE_globals, advE_strs, List.dropLast_concat]

theorem advE_step_div_ok (st : VMSt) (fr : Frame) (n2 : Nat) (L : List Value)
    (vl vr w : Value) (g : List (String × Value)) (s : List String)
    (hca : CodeAt (st.chunkOf fr).code n2 [ob .opDiv])
    (hop : vDiv vl vr = some w) :
    step (advE st fr n2 ((L ++ [vl]) ++ [vr]) g s) =
      .cont (advE st fr (n2 + 1) (L ++ [w]) g s) := by
  refine advE_step_eq hca (decode_ob .opDiv) (fun u => ?_)
  rw [exec_div_ok (advE st fr n2 ((L ++ [vl]) ++ [vr]) g s) { fr with ip := n2 }
    ([] ++ u) vl vr w (List.getLast?_concat _)
    (show ((L ++ [vl]) ++ [vr]).dropLast.getLast? = some vl by
      rw [List.dropLast_concat]; exact List.getLast?_concat _) hop]
  rw [setIp_with_stack_advE _ _ _ _
    (advE_frames_getLast st fr n2 ((L ++ [vl]) ++ [vr]) g s)]
  rw [advE_advE]
  simp [advE_stack, advE_globals, advE_strs, List.dropLast_concat]

theorem advE_step_greater_ok (st : VMSt) (fr : Frame) (n2 : Nat) (L : List Value)
    (vl vr w : Value) (g : List (String × Value)) (s : List String)
    (hca : CodeAt (st.chunkOf fr).code n2 [ob .opGreater])
    (hop : vGreater vl vr = some w) :
    step (advE st fr n2 ((L ++ [vl]) ++ [vr]) g s) =
      .cont (advE st fr (n2 + 1) (L ++ [w]) g s) := by
  refine advE_step_eq hca (decode_ob .opGreater) (fun u => ?_)
  rw [exec_greater_ok (advE st fr n2 ((L ++ [vl]) ++ [vr]) g s)
    { fr with ip := n2 } ([] ++ u) vl vr w (List.getLast?_concat _)
    (show ((L ++ [vl]) ++ [vr]).dropLast.getLast? = some vl by
      rw [List.dropLast_concat]; exact List.getLast?_concat _) hop]
  rw [setIp_with_stack_advE _ _ _ _
    (advE_frames_getLast st fr n2 ((L ++ [vl]) ++ [vr]) g s)]
  rw [advE_advE]
  simp [advE_stack, advE_globals, advE_strs, List.dropLast_concat]

theorem advE_step_less_ok (st : VMSt) (fr : Frame) (n2 : Nat) (L : List Value)
    (vl vr w : Value) (g : List (String × Value)) (s : List String)
    (hca : CodeAt (st.chunkOf fr).code n2 [ob .opLess])
    (hop : vLess vl vr = some w) :
    step (advE st fr n2 ((L ++ [vl]) ++ [vr]) g s) =
      .cont (advE st fr (n2 + 1) (L ++ [w]) g s) := by
  refine advE_step_eq hca (decode_ob .opLess) (fun u => ?_)
  rw [exec_less_ok (advE st fr n2 ((L ++ [vl]) ++ [vr]) g s) { fr with ip := n2 }
    ([] ++ u) vl vr w (List.getLast?_concat _)
    (show ((L ++ [vl]) ++ [vr]).dropLast.getLast? = some vl by
      rw [List.dropLast_concat]; exact List.getLast?_concat _) hop]
  rw [setIp_with_stack_advE _ _ _ _
    (advE_frames_getLast st fr n2 ((L ++ [vl]) ++ [vr]) g s)]
  rw [advE_advE]
  simp [advE_stack, advE_globals, advE_strs, List.dropLast_concat]

/-! ### `OpCall` steps on scalar-like callees -/

theorem advE_step_call_native (st : VMSt) (fr : Frame) (n2 argc : Nat)
    (L vs : List Value) (nid : Nat) (g : List (String × Value))
    (s : List String)
    (hca : CodeAt (st.chunkOf fr).code n2 [ob .opCall, argc])
    (hvs : vs.length = argc) :
    step (advE st fr n2 ((L ++ [.vnative nid]) ++ vs) g s) =
      .cont (advE st fr (n2 + 2) (L ++ [.vnum 0]) g s) := by
  have hpeek : (advE st fr n2 ((L ++ [.vnative nid]) ++ vs) g s).peekAt argc =
      some (.vnative nid) := by
    refine peekAt_stack_cons _ L vs _ argc ?_ hvs
    rw [advE_stack, List.append_assoc]
    rfl
  refine advE_step_eq hca (decode_ob .opCall) (fun u => ?_)
  rw [exec_call _ _ ([argc] ++ u) argc (.vnative nid) rfl hpeek]
  have hstX : ((advE st fr n2 ((L ++ [.vnative nid]) ++ vs) g s).setIp
      (({ fr with ip := n2 } : Frame).ip + 2)).stack =
      L ++ .vnative nid :: vs := by
    rw [setIp_stack, advE_stack, List.append_assoc]
    rfl
  rw [vmCall_native_run _ L vs nid argc hstX hvs]
  dsimp only [CallOut.toStep]
  simp [VMSt.setIp, advE, List.getLast?_concat, List.dropLast_concat]

theorem advE_step_call_noncallable (st : VMSt) (fr : Frame) (n2 argc : Nat)
    (L vs : List Value) (vf : Value) (g : List (String × Value))
    (s : List String)
    (hca : CodeAt (st.chunkOf fr).code n2 [ob .opCall, argc])
    (hvs : vs.length = argc)
    (hv : scalarish vf = true) (hnn : ∀ nid, vf ≠ Value.vnative nid) :
    step (advE st fr n2 ((L ++ [vf]) ++ vs) g s) =
      .errOut "can only call functions and classes"
        ((advE st fr n2 ((L ++ [vf]) ++ vs) g s).setIp
          (({ fr with ip := n2 } : Frame).ip + 2)) := by
  have hpeek : (advE st fr n2 ((L ++ [vf]) ++ vs) g s).peekAt argc =
      some vf := by
    refine peekAt_stack_cons _ L vs _ argc ?_ hvs
    rw [advE_stack, List.append_assoc]
    rfl
  have hlenS : argc + 1 ≤ ((advE st fr n2 ((L ++ [vf]) ++ vs) g s).setIp
      (({ fr with ip := n2 } : Frame).ip + 2)).stack.length := by
    rw [setIp_stack, advE_stack]
    simp only [List.length_append, List.length_cons]
    omega
  refine advE_step_eq hca (decode_ob .opCall) (fun u => ?_)
  rw [exec_call _ _ ([argc] ++ u) argc vf rfl hpeek]
  rw [vmCall_noncallable _ vf argc hlenS hv hnn]
  rfl

/-! ## Main correctness of expression compilation

Executing the code emitted for an expression from the position right
after it was emitted either pushes exactly one (scalar-like) result value
— moving only the ip, the value stack, the globals and the string heap —
or stops with a Lox runtime error.  In particular the compiled code never
`panic`s (no `.fault`) and never underflows the stack. -/

mutual

theorem compileE_run : ∀ (e : Expr) (σ σA : CompSt) (st : VMSt) (fr : Frame),
    compileE e σ = some σA →
    st.frames.getLast? = some fr →
    fr.ip = σ.code.length →
    CodeAt (st.chunkOf fr).code σ.code.length (σA.code.drop σ.code.length) →
    ListExtends σA.consts (st.chunkOf fr).consts →
    GlobalsOk st.globals →
    (∃ v g s, scalarish v = true ∧ GlobalsOk g ∧ ListExtends st.strs s ∧
      StepsTo st (advE st fr σA.code.length (st.stack ++ [v]) g s)) ∨
    (∃ stE r stF, StepsTo st stE ∧ step stE = .errOut r stF)
  | .enum q, σ, σA, st, fr, h, hfr, hip, hcode, hconsts, hg => by
    simp only [compileE] at h
    obtain ⟨hc, hk, _⟩ := emitConstC_some h
    have hdropE : σA.code.drop σ.code.length = [ob .opConst, σ.consts.length] := by
      rw [hc, List.drop_left]
    rw [hdropE, ← hip] at hcode
    have hv : (st.chunkOf fr).consts.get? σ.consts.length = some (.vnum q) :=
      consts_get_chain ⟨[], by rw [hk, List.append_nil]⟩ hconsts
    have hn : σA.code.length = σ.code.length + 2 := by rw [hc]; simp
    left
    refine ⟨.vnum q, st.globals, st.strs, rfl, hg, listExtends_refl _, ?_⟩
    refine stepsTo_single (step_at hfr hcode (decode_ob .opConst) (fun u => ?_))
    rw [exec_const st fr ([σ.consts.length] ++ u) σ.consts.length (.vnum q) rfl hv]
    rw [setIp_push_advE st fr _ _ hfr, hip, hn]
  | .estr s, σ, σA, st, fr, h, hfr, hip, hcode, hconsts, hg => by
    simp only [compileE, newVStr] at h
    obtain ⟨hc0, hk0, _⟩ := emitConstC_some h
    have hc : σA.code = σ.code ++ [ob .opConst, σ.consts.length] := hc0
    have hk : σA.consts = σ.consts ++ [.vstr σ.strs.length] := hk0
    have hdropE : σA.code.drop σ.code.length = [ob .opConst, σ.consts.length] := by
      rw [hc, List.drop_left]
    rw [hdropE, ← hip] at hcode
    have hv : (st.chunkOf fr).consts.get? σ.consts.length =
        some (.vstr σ.strs.length) :=
      consts_get_chain ⟨[], by rw [hk, List.append_nil]⟩ hconsts
    have hn : σA.code.length = σ.code.length + 2 := by rw [hc]; simp
    left
    refine ⟨.vstr σ.strs.length, st.globals, st.strs, rfl, hg,
      listExtends_refl _, ?_⟩
    refine stepsTo_single (step_at hfr hcode (decode_ob .opConst) (fun u => ?_))
    rw [exec_const st fr ([σ.consts.length] ++ u) σ.consts.length (.vstr σ.strs.length) rfl hv]
    rw [setIp_push_advE st fr _ _ hfr, hip, hn]
  | .ebool true, σ, σA, st, fr, h, hfr, hip, hcode, hconsts, hg => by
    simp only [compileE] at h
    injection h with h
    subst h
    have hdropE : (emitBytesC σ [ob .opTrue]).code.drop σ.code.length =
        [ob .opTrue] := by
      show (σ.code ++ [ob .opTrue]).drop σ.code.length = _
      rw [List.drop_left]
    rw [hdropE, ← hip] at hcode
    have hn : (emitBytesC σ [ob .opTrue]).code.length = σ.code.length + 1 := by
      show (σ.code ++ [ob .opTrue]).length = _
      simp
    left
    refine ⟨.vbool true, st.globals, st.strs, rfl, hg, listExtends_refl _, ?_⟩
    refine stepsTo_single (step_at hfr hcode (decode_ob .opTrue) (fun u => ?_))
    rw [exec_true st fr]
    rw [setIp_push_advE st fr _ _ hfr, hip, hn]
  | .ebool false, σ, σA, st, fr, h, hfr, hip, hcode, hconsts, hg => by
    simp only [compileE] at h
    injection h with h
    subst h
    have hdropE : (emitBytesC σ [ob .opFalse]).code.drop σ.code.length =
        [ob .opFalse] := by
      show (σ.code ++ [ob .opFalse]).drop σ.code.length = _
      rw [List.drop_left]
    rw [hdropE, ← hip] at hcode
    have hn : (emitBytesC σ [ob .opFalse]).code.length = σ.code.length + 1 := by
      show (σ.code ++ [ob .opFalse]).length = _
      simp
    left
    refine ⟨.vbool false, st.globals, st.strs, rfl, hg, listExtends_refl _, ?_⟩
    refine stepsTo_single (step_at hfr hcode (decode_ob .opFalse) (fun u => ?_))
    rw [exec_false st fr]
    rw [setIp_push_advE st fr _ _ hfr, hip, hn]
  | .enil, σ, σA, st, fr, h, hfr, hip, hcode, hconsts, hg => by
    simp only [compileE] at h
    injection h with h
    subst h
    have hdropE : (emitBytesC σ [ob .opNil]).code.drop σ.code.length =
        [ob .opNil] := by
      show (σ.code ++ [ob .opNil]).drop σ.code.length = _
      rw [List.drop_left]
    rw [hdropE, ← hip] at hcode
    have hn : (emitBytesC σ [ob .opNil]).code.length = σ.code.length + 1 := by
      show (σ.code ++ [ob .opNil]).length = _
      simp
    left
    refine ⟨.vnil, st.globals, st.strs, rfl, hg, listExtends_refl _, ?_⟩
    refine stepsTo_single (step_at hfr hcode (decode_ob .opNil) (fun u => ?_))
    rw [exec_nil st fr]
    rw [setIp_push_advE st fr _ _ hfr, hip, hn]
  | .eget n, σ, σA, st, fr, h, hfr, hip, hcode, hconsts, hg => by
    simp only [compileE, Option.bind_eq_bind, Option.bind_eq_some] at h
    obtain ⟨p, hpi, h2⟩ := h
    injection h2 with h2
    subst h2
    obtain ⟨hp1, hpc, hpk, hps, _⟩ := identConst_some hpi
    have hc : (emitBytesC p.2 [ob .opGetGlobal, p.1]).code =
        σ.code ++ [ob .opGetGlobal, p.1] := by
      show p.2.code ++ _ = _
      rw [hpc]
    have hk : (emitBytesC p.2 [ob .opGetGlobal, p.1]).consts =
        σ.consts ++ [.vstr σ.strs.length] := by
      show p.2.consts = _
      rw [hpk]
    have hdropE : (emitBytesC p.2 [ob .opGetGlobal, p.1]).code.drop
        σ.code.length = [ob .opGetGlobal, p.1] := by
      rw [hc, List.drop_left]
    rw [hdropE, ← hip] at hcode
    have hv : (st.chunkOf fr).consts.get? p.1 = some (.vstr σ.strs.length) := by
      rw [hp1]
      exact consts_get_chain ⟨[], by rw [hk, List.append_nil]⟩ hconsts
    have hn : (emitBytesC p.2 [ob .opGetGlobal, p.1]).code.length =
        σ.code.length + 2 := by rw [hc]; simp
    cases hlook : alookup st.globals (st.strs.getD σ.strs.length "") with
    | none =>
      right
      refine ⟨st, "undefined variable " ++ st.strs.getD σ.strs.length "", st,
        stepsTo_refl st, ?_⟩
      refine step_at hfr hcode (decode_ob .opGetGlobal) (fun u => ?_)
      exact exec_getGlobal_missing st fr ([p.1] ++ u) p.1 σ.strs.length rfl hv hlook
    | some v =>
      left
      refine ⟨v, st.globals, st.strs, alookup_scalarish hg hlook, hg,
        listExtends_refl _, ?_⟩
      refine stepsTo_single (step_at hfr hcode (decode_ob .opGetGlobal)
        (fun u => ?_))
      rw [exec_getGlobal_found st fr ([p.1] ++ u) p.1 σ.strs.length v rfl hv hlook]
      rw [setIp_push_advE st fr _ _ hfr, hip, hn]
  | .eset n r, σ, σA, st, fr, h, hfr, hip, hcode, hconsts, hg => by
    simp only [compileE, Option.bind_eq_bind, Option.bind_eq_some] at h
    obtain ⟨p, hpi, σ2, h2, h3⟩ := h
    injection h3 with h3
    subst h3
    obtain ⟨hp1, hpc, hpk, hps, _⟩ := identConst_some hpi
    obtain ⟨⟨u2, hu2⟩, hk2, _⟩ := compileE_mono r p.2 σ2 h2
    have hc : (emitBytesC σ2 [ob .opSetGlobal, p.1]).code =
        σ2.code ++ [ob .opSetGlobal, p.1] := rfl
    have hu2b : σ2.code = σ.code ++ u2 := by rw [hu2, hpc]
    have hdropE : (emitBytesC σ2 [ob .opSetGlobal, p.1]).code.drop
        σ.code.length = u2 ++ [ob .opSetGlobal, p.1] := by
      rw [hc, hu2b, List.append_assoc, List.drop_left]
    rw [hdropE] at hcode
    have hlen1 : σ.code.length + u2.length = σ2.code.length := by
      rw [hu2b]; simp
    have hcode1 : CodeAt (st.chunkOf fr).code p.2.code.length
        (σ2.code.drop p.2.code.length) := by
      rw [hpc, hu2b, List.drop_left]
      exact codeAt_append_left hcode
    have hip1 : fr.ip = p.2.code.length := by rw [hpc]; exact hip
    rcases compileE_run r p.2 σ2 st fr h2 hfr hip1 hcode1 hconsts hg with
      ⟨v, g, s, hv, hgv, hsv, hrun⟩ | herr
    · have hcaSG : CodeAt (st.chunkOf fr).code σ2.code.length
          [ob .opSetGlobal, p.1] := by
        have h4 := codeAt_append_right hcode
        rwa [hlen1] at h4
      have hvk : (st.chunkOf fr).consts.get? p.1 =
          some (.vstr σ.strs.length) := by
        rw [hp1]
        refine consts_get_chain ?_ hconsts
        rw [← hpk]
        exact hk2
      cases hlook : alookup g (s.getD σ.strs.length "") with
      | none =>
        right
        refine ⟨advE st fr σ2.code.length (st.stack ++ [v]) g s,
          "undefined variable " ++ s.getD σ.strs.length "",
          advE st fr σ2.code.length (st.stack ++ [v]) g s, hrun, ?_⟩
        refine advE_step_eq hcaSG (decode_ob .opSetGlobal) (fun u => ?_)
        exact exec_setGlobal_missing _ _ ([p.1] ++ u) p.1 σ.strs.length rfl
          hvk hlook
      | some w =>
        left
        refine ⟨v, aset g (s.getD σ.strs.length "") v, s, hv,
          aset_globalsOk hgv hv, hsv, ?_⟩
        refine stepsTo_trans hrun (stepsTo_single ?_)
        refine advE_step_eq hcaSG (decode_ob .opSetGlobal) (fun u => ?_)
        rw [exec_setGlobal_found (advE st fr σ2.code.length (st.stack ++ [v]) g s)
          { fr with ip := σ2.code.length } ([p.1] ++ u) p.1 σ.strs.length w v rfl
          hvk hlook
          (peekAt_stack_cons (advE st fr σ2.code.length (st.stack ++ [v]) g s)
            st.stack [] v 0 rfl rfl)]
        rw [setIp_with_globals_advE _ _ _ _
          (advE_frames_getLast st fr σ2.code.length (st.stack ++ [v]) g s)]
        rw [advE_advE]
        have hnn : (emitBytesC σ2 [ob .opSetGlobal, p.1]).code.length =
            σ2.code.length + 2 := by rw [hc]; simp [binOpBytes]
        rw [hnn]
        simp [advE_stack, advE_globals, advE_strs]
    · exact Or.inr herr
  | .enot e, σ, σA, st, fr, h, hfr, hip, hcode, hconsts, hg => by
    simp only [compileE, Option.bind_eq_bind, Option.bind_eq_some] at h
    obtain ⟨σ1, h1, h2⟩ := h
    injection h2 with h2
    subst h2
    obtain ⟨⟨u1, hu1⟩, _, _⟩ := compileE_mono e σ σ1 h1
    have hc : (emitBytesC σ1 [ob .opNot]).code = σ1.code ++ [ob .opNot] := rfl
    have hdropE : (emitBytesC σ1 [ob .opNot]).code.drop σ.code.length =
        u1 ++ [ob .opNot] := by
      rw [hc, hu1, List.append_assoc, List.drop_left]
    rw [hdropE] at hcode
    have hlen1 : σ.code.length + u1.length = σ1.code.length := by rw [hu1]; simp
    have hcode1 : CodeAt (st.chunkOf fr).code σ.code.length
        (σ1.code.drop σ.code.length) := by
      rw [hu1, List.drop_left]
      exact codeAt_append_left hcode
    have hcaNot : CodeAt (st.chunkOf fr).code σ1.code.length [ob .opNot] := by
      have h3 := codeAt_append_right hcode
      rwa [hlen1] at h3
    rcases compileE_run e σ σ1 st fr h1 hfr hip hcode1 hconsts hg with
      ⟨v, g, s, hv, hgv, hsv, hrun⟩ | herr
    · left
      have hnn : (emitBytesC σ1 [ob .opNot]).code.length =
          σ1.code.length + 1 := by rw [hc]; simp
      refine ⟨.vbool (!vTruthy v), g, s, rfl, hgv, hsv, ?_⟩
      refine stepsTo_trans hrun (stepsTo_single ?_)
      refine advE_step_eq hcaNot (decode_ob .opNot) (fun u => ?_)
      rw [exec_not _ _ _ v (List.getLast?_concat _)]
      rw [setIp_with_stack_advE _ _ _ _
        (advE_frames_getLast st fr σ1.code.length (st.stack ++ [v]) g s)]
      rw [advE_advE, hnn]
      simp [advE_stack, advE_globals, advE_strs, List.dropLast_concat]
    · exact Or.inr herr
  | .eneg e, σ, σA, st, fr, h, hfr, hip, hcode, hconsts, hg => by
    simp only [compileE, Option.bind_eq_bind, Option.bind_eq_some] at h
    obtain ⟨σ1, h1, h2⟩ := h
    injection h2 with h2
    subst h2
    obtain ⟨⟨u1, hu1⟩, _, _⟩ := compileE_mono e σ σ1 h1
    have hc : (emitBytesC σ1 [ob .opNeg]).code = σ1.code ++ [ob .opNeg] := rfl
    have hdropE : (emitBytesC σ1 [ob .opNeg]).code.drop σ.code.length =
        u1 ++ [ob .opNeg] := by
      rw [hc, hu1, List.append_assoc, List.drop_left]
    rw [hdropE] at hcode
    have hlen1 : σ.code.length + u1.length = σ1.code.length := by rw [hu1]; simp
    have hcode1 : CodeAt (st.chunkOf fr).code σ.code.length
        (σ1.code.drop σ.code.length) := by
      rw [hu1, List.drop_left]
      exact codeAt_append_left hcode
    have hcaNeg : CodeAt (st.chunkOf fr).code σ1.code.length [ob .opNeg] := by
      have h3 := codeAt_append_right hcode
      rwa [hlen1] at h3
    rcases compileE_run e σ σ1 st fr h1 hfr hip hcode1 hconsts hg with
      ⟨v, g, s, hv, hgv, hsv, hrun⟩ | herr
    · cases hvn : vNeg v with
      | some r0 =>
        left
        have hnn : (emitBytesC σ1 [ob .opNeg]).code.length =
            σ1.code.length + 1 := by rw [hc]; simp
        refine ⟨r0, g, s, vNeg_ok_scalarish hvn, hgv, hsv, ?_⟩
        refine stepsTo_trans hrun (stepsTo_single ?_)
        refine advE_step_eq hcaNeg (decode_ob .opNeg) (fun u => ?_)
        rw [exec_neg_ok _ _ _ v r0 (List.getLast?_concat _) hvn]
        rw [setIp_with_stack_advE _ _ _ _
          (advE_frames_getLast st fr σ1.code.length (st.stack ++ [v]) g s)]
        rw [advE_advE, hnn]
        simp [advE_stack, advE_globals, advE_strs, List.dropLast_concat]
      | none =>
        right
        refine ⟨advE st fr σ1.code.length (st.stack ++ [v]) g s,
          "operand must be a number",
          { advE st fr σ1.code.length (st.stack ++ [v]) g s with
            stack := (st.stack ++ [v]).dropLast }, hrun, ?_⟩
        refine advE_step_eq hcaNeg (decode_ob .opNeg) (fun u => ?_)
        exact exec_neg_err _ _ _ v (List.getLast?_concat _) hvn
    · exact Or.inr herr
  | .ebin op l r, σ, σA, st, fr, h, hfr, hip, hcode, hconsts, hg => by
    simp only [compileE, Option.bind_eq_bind, Option.bind_eq_some] at h
    obtain ⟨σ1, h1, σ2, h2, h3⟩ := h
    injection h3 with h3
    subst h3
    obtain ⟨⟨u1, hu1⟩, _, _⟩ := compileE_mono l σ σ1 h1
    obtain ⟨⟨u2, hu2⟩, hk2, _⟩ := compileE_mono r σ1 σ2 h2
    have hc : (emitBytesC σ2 (binOpBytes op)).code =
        σ2.code ++ binOpBytes op := rfl
    have hdropE : (emitBytesC σ2 (binOpBytes op)).code.drop σ.code.length =
        u1 ++ (u2 ++ binOpBytes op) := by
      rw [hc, hu2, hu1, List.append_assoc, List.append_assoc, List.drop_left]
    rw [hdropE] at hcode
    have hlen1 : σ.code.length + u1.length = σ1.code.length := by rw [hu1]; simp
    have hlen2 : σ1.code.length + u2.length = σ2.code.length := by rw [hu2]; simp
    have hcode1 : CodeAt (st.chunkOf fr).code σ.code.length
        (σ1.code.drop σ.code.length) := by
      rw [hu1, List.drop_left]
      exact codeAt_append_left hcode
    have hconstsL : ListExtends σ1.consts (st.chunkOf fr).consts :=
      listExtends_trans hk2 hconsts
    rcases compileE_run l σ σ1 st fr h1 hfr hip hcode1 hconstsL hg with
      ⟨vl, g1, s1, hvl, hg1, hs1, hrun1⟩ | herr
    · have hcode2mid : CodeAt (st.chunkOf fr).code σ1.code.length
          (σ2.code.drop σ1.code.length) := by
        rw [hu2, List.drop_left]
        have h4 := codeAt_append_right hcode
        rw [hlen1] at h4
        exact codeAt_append_left h4
      rcases compileE_run r σ1 σ2
          (advE st fr σ1.code.length (st.stack ++ [vl]) g1 s1)
          { fr with ip := σ1.code.length } h2
          (advE_frames_getLast st fr σ1.code.length (st.stack ++ [vl]) g1 s1)
          rfl hcode2mid hconsts hg1 with
        ⟨vr, g2, s2, hvr, hg2, hs2, hrun2⟩ | ⟨stE, rr, stF, hrunE, hstepE⟩
      · have hconv : advE (advE st fr σ1.code.length (st.stack ++ [vl]) g1 s1)
            { fr with ip := σ1.code.length } σ2.code.length
            ((advE st fr σ1.code.length (st.stack ++ [vl]) g1 s1).stack ++ [vr])
            g2 s2 =
            advE st fr σ2.code.length ((st.stack ++ [vl]) ++ [vr]) g2 s2 := by
          rw [advE_advE, advE_stack]
        rw [hconv] at hrun2
        have hrun12 := stepsTo_trans hrun1 hrun2
        have hcaOp : CodeAt (st.chunkOf fr).code σ2.code.length
            (binOpBytes op) := by
          have h4 := codeAt_append_right hcode
          rw [hlen1] at h4
          have h5 := codeAt_append_right h4
          rwa [hlen2] at h5
        have hsv : ListExtends st.strs s2 := listExtends_trans hs1 hs2
        cases op with
        | beq =>
          left
          have hnQ : (emitBytesC σ2 (binOpBytes .beq)).code.length =
              σ2.code.length + 1 := by rw [hc]; simp [binOpBytes]
          refine ⟨.vbool (vEq vl vr), g2, s2, rfl, hg2, hsv, ?_⟩
          refine stepsTo_trans hrun12 (stepsTo_single ?_)
          rw [hnQ]
          exact advE_step_equal st fr σ2.code.length st.stack vl vr g2 s2 hcaOp
        | bne =>
          left
          have hcaOp2 : CodeAt (st.chunkOf fr).code σ2.code.length
              ([ob .opEqual] ++ [ob .opNot]) := hcaOp
          have hnQ : (emitBytesC σ2 (binOpBytes .bne)).code.length =
              σ2.code.length + 2 := by rw [hc]; simp [binOpBytes]
          refine ⟨.vbool (!vTruthy (.vbool (vEq vl vr))), g2, s2, rfl, hg2,
            hsv, ?_⟩
          refine stepsTo_trans hrun12 ?_
          refine stepsTo_head
            (advE_step_equal st fr σ2.code.length st.stack vl vr g2 s2
              (codeAt_append_left hcaOp2)) (stepsTo_single ?_)
          rw [hnQ]
          exact advE_step_not st fr (σ2.code.length + 1) st.stack
            (.vbool (vEq vl vr)) g2 s2 (codeAt_append_right hcaOp2)
        | bgt =>
          cases hop : vGreater vl vr with
          | some w =>
            left
            have hnQ : (emitBytesC σ2 (binOpBytes .bgt)).code.length =
                σ2.code.length + 1 := by rw [hc]; simp [binOpBytes]
            refine ⟨w, g2, s2, vGreater_ok_scalarish hop, hg2, hsv, ?_⟩
            refine stepsTo_trans hrun12 (stepsTo_single ?_)
            rw [hnQ]
            exact advE_step_greater_ok st fr σ2.code.length st.stack vl vr w
              g2 s2 hcaOp hop
          | none =>
            right
            refine ⟨advE st fr σ2.code.length ((st.stack ++ [vl]) ++ [vr]) g2 s2,
              "operands must be numbers",
              { advE st fr σ2.code.length ((st.stack ++ [vl]) ++ [vr]) g2 s2 with
                stack := ((st.stack ++ [vl]) ++ [vr]).dropLast.dropLast },
              hrun12, ?_⟩
            refine advE_step_eq hcaOp (decode_ob .opGreater) (fun u => ?_)
            exact exec_greater_err _ _ _ vl vr (List.getLast?_concat _)
              (show ((st.stack ++ [vl]) ++ [vr]).dropLast.getLast? = some vl by
                rw [List.dropLast_concat]; exact List.getLast?_concat _) hop
        | bge =>
          have hcaOp2 : CodeAt (st.chunkOf fr).code σ2.code.length
              ([ob .opLess] ++ [ob .opNot]) := hcaOp
          cases hop : vLess vl vr with
          | some w =>
            left
            have hnQ : (emitBytesC σ2 (binOpBytes .bge)).code.length =
                σ2.code.length + 2 := by rw [hc]; simp [binOpBytes]
            refine ⟨.vbool (!vTruthy w), g2, s2, rfl, hg2, hsv, ?_⟩
            refine stepsTo_trans hrun12 ?_
            refine stepsTo_head
              (advE_step_less_ok st fr σ2.code.length st.stack vl vr w g2 s2
                (codeAt_append_left hcaOp2) hop) (stepsTo_single ?_)
            rw [hnQ]
            exact advE_step_not st fr (σ2.code.length + 1) st.stack w g2 s2
              (codeAt_append_right hcaOp2)
          | none =>
            right
            refine ⟨advE st fr σ2.code.length ((st.stack ++ [vl]) ++ [vr]) g2 s2,
              "operands must be numbers",
              { advE st fr σ2.code.length ((st.stack ++ [vl]) ++ [vr]) g2 s2 with
                stack := ((st.stack ++ [vl]) ++ [vr]).dropLast.dropLast },
              hrun12, ?_⟩
            refine advE_step_eq (codeAt_append_left hcaOp2) (decode_ob .opLess)
              (fun u => ?_)
            exact exec_less_err _ _ _ vl vr (List.getLast?_concat _)
              (show ((st.stack ++ [vl]) ++ [vr]).dropLast.getLast? = some vl by
                rw [List.dropLast_concat]; exact List.getLast?_concat _) hop
        | blt =>
          cases hop : vLess vl vr with
          | some w =>
            left
            have hnQ : (emitBytesC σ2 (binOpBytes .blt)).code.length =
                σ2.code.length + 1 := by rw [hc]; simp [binOpBytes]
            refine ⟨w, g2, s2, vLess_ok_scalarish hop, hg2, hsv, ?_⟩
            refine stepsTo_trans hrun12 (stepsTo_single ?_)
            rw [hnQ]
            exact advE_step_less_ok st fr σ2.code.length st.stack vl vr w
              g2 s2 hcaOp hop
          | none =>
            right
            refine ⟨advE st fr σ2.code.length ((st.stack ++ [vl]) ++ [vr]) g2 s2,
              "operands must be numbers",
              { advE st fr σ2.code.length ((st.stack ++ [vl]) ++ [vr]) g2 s2 with
                stack := ((st.stack ++ [vl]) ++ [vr]).dropLast.dropLast },
              hrun12, ?_⟩
            refine advE_step_eq hcaOp (decode_ob .opLess) (fun u => ?_)
            exact exec_less_err _ _ _ vl vr (List.getLast?_concat _)
              (show ((st.stack ++ [vl]) ++ [vr]).dropLast.getLast? = some vl by
                rw [List.dropLast_concat]; exact List.getLast?_concat _) hop
        | ble =>
          have hcaOp2 : CodeAt (st.chunkOf fr).code σ2.code.length
              ([ob .opGreater] ++ [ob .opNot]) := hcaOp
          cases hop : vGreater vl vr with
          | some w =>
            left
            have hnQ : (emitBytesC σ2 (binOpBytes .ble)).code.length =
                σ2.code.length + 2 := by rw [hc]; simp [binOpBytes]
            refine ⟨.vbool (!vTruthy w), g2, s2, rfl, hg2, hsv, ?_⟩
            refine stepsTo_trans hrun12 ?_
            refine stepsTo_head
              (advE_step_greater_ok st fr σ2.code.length st.stack vl vr w g2 s2
                (codeAt_append_left hcaOp2) hop) (stepsTo_single ?_)
            rw [hnQ]
            exact advE_step_not st fr (σ2.code.length + 1) st.stack w g2 s2
              (codeAt_append_right hcaOp2)
          | none =>
            right
            refine ⟨advE st fr σ2.code.length ((st.stack ++ [vl]) ++ [vr]) g2 s2,
              "operands must be numbers",
              { advE st fr σ2.code.length ((st.stack ++ [vl]) ++ [vr]) g2 s2 with
                stack := ((st.stack ++ [vl]) ++ [vr]).dropLast.dropLast },
              hrun12, ?_⟩
            refine advE_step_eq (codeAt_append_left hcaOp2) (decode_ob .opGreater)
              (fun u => ?_)
            exact exec_greater_err _ _ _ vl vr (List.getLast?_concat _)
              (show ((st.stack ++ [vl]) ++ [vr]).dropLast.getLast? = some vl by
                rw [List.dropLast_concat]; exact List.getLast?_concat _) hop
        | add =>
          cases hop : vAdd s2 vl vr with
          | some p =>
            left
            have hnQ : (emitBytesC σ2 (binOpBytes .add)).code.length =
                σ2.code.length + 1 := by rw [hc]; simp [binOpBytes]
            obtain ⟨hscal, hext⟩ := vAdd_ok_facts hop
            refine ⟨p.1, g2, p.2, hscal, hg2, listExtends_trans hsv hext, ?_⟩
            refine stepsTo_trans hrun12 (stepsTo_single ?_)
            rw [hnQ]
            exact advE_step_add_ok st fr σ2.code.length st.stack vl vr p.1
              g2 s2 p.2 hcaOp (by rw [hop])
          | none =>
            right
            refine ⟨advE st fr σ2.code.length ((st.stack ++ [vl]) ++ [vr]) g2 s2,
              "operands must be all numbers or all strings",
              { advE st fr σ2.code.length ((st.stack ++ [vl]) ++ [vr]) g2 s2 with
                stack := ((st.stack ++ [vl]) ++ [vr]).dropLast.dropLast },
              hrun12, ?_⟩
            refine advE_step_eq hcaOp (decode_ob .opAdd) (fun u => ?_)
            exact exec_add_err _ _ _ vl vr (List.getLast?_concat _)
              (show ((st.stack ++ [vl]) ++ [vr]).dropLast.getLast? = some vl by
                rw [List.dropLast_concat]; exact List.getLast?_concat _) hop
        | sub =>
          cases hop : vSub vl vr with
          | some w =>
            left
            have hnQ : (emitBytesC σ2 (binOpBytes .sub)).code.length =
                σ2.code.length + 1 := by rw [hc]; simp [binOpBytes]
            refine ⟨w, g2, s2, vSub_ok_scalarish hop, hg2, hsv, ?_⟩
            refine stepsTo_trans hrun12 (stepsTo_single ?_)
            rw [hnQ]
            exact advE_step_sub_ok st fr σ2.code.length st.stack vl vr w
              g2 s2 hcaOp hop
          | none =>
            right
            refine ⟨advE st fr σ2.code.length ((st.stack ++ [vl]) ++ [vr]) g2 s2,
              "operands must be numbers",
              { advE st fr σ2.code.length ((st.stack ++ [vl]) ++ [vr]) g2 s2 with
                stack := ((st.stack ++ [vl]) ++ [vr]).dropLast.dropLast },
              hrun12, ?_⟩
            refine advE_step_eq hcaOp (decode_ob .opSub) (fun u => ?_)
            exact exec_sub_err _ _ _ vl vr (List.getLast?_concat _)
              (show ((st.stack ++ [vl]) ++ [vr]).dropLast.getLast? = some vl by
                rw [List.dropLast_concat]; exact List.getLast?_concat _) hop
        | mul =>
          cases hop : vMul vl vr with
          | some w =>
            left
            have hnQ : (emitBytesC σ2 (binOpBytes .mul)).code.length =
                σ2.code.length + 1 := by rw [hc]; simp [binOpBytes]
            refine ⟨w, g2, s2, vMul_ok_scalarish hop, hg2, hsv, ?_⟩
            refine stepsTo_trans hrun12 (stepsTo_single ?_)
            rw [hnQ]
            exact advE_step_mul_ok st fr σ2.code.length st.stack vl vr w
              g2 s2 hcaOp hop
          | none =>
            right
            refine ⟨advE st fr σ2.code.length ((st.stack ++ [vl]) ++ [vr]) g2 s2,
              "operands must be numbers",
              { advE st fr σ2.code.length ((st.stack ++ [vl]) ++ [vr]) g2 s2 with
                stack := ((st.stack ++ [vl]) ++ [vr]).dropLast.dropLast },
              hrun12, ?_⟩
            refine advE_step_eq hcaOp (decode_ob .opMul) (fun u => ?_)
            exact exec_mul_err _ _ _ vl vr (List.getLast?_concat _)
              (show ((st.stack ++ [vl]) ++ [vr]).dropLast.getLast? = some vl by
                rw [List.dropLast_concat]; exact List.getLast?_concat _) hop
        | div =>
          cases hop : vDiv vl vr with
          | some w =>
            left
            have hnQ : (emitBytesC σ2 (binOpBytes .div)).code.length =
                σ2.code.length + 1 := by rw [hc]; simp [binOpBytes]
            refine ⟨w, g2, s2, vDiv_ok_scalarish hop, hg2, hsv, ?_⟩
            refine stepsTo_trans hrun12 (stepsTo_single ?_)
            rw [hnQ]
            exact advE_step_div_ok st fr σ2.code.length st.stack vl vr w
              g2 s2 hcaOp hop
          | none =>
            right
            refine ⟨advE st fr σ2.code.length ((st.stack ++ [vl]) ++ [vr]) g2 s2,
              "operands must be numbers",
              { advE st fr σ2.code.length ((st.stack ++ [vl]) ++ [vr]) g2 s2 with
                stack := ((st.stack ++ [vl]) ++ [vr]).dropLast.dropLast },
              hrun12, ?_⟩
            refine advE_step_eq hcaOp (decode_ob .opDiv) (fun u => ?_)
            exact exec_div_err _ _ _ vl vr (List.getLast?_concat _)
              (show ((st.stack ++ [vl]) ++ [vr]).dropLast.getLast? = some vl by
                rw [List.dropLast_concat]; exact List.getLast?_concat _) hop
      · exact Or.inr ⟨stE, rr, stF, stepsTo_trans hrun1 hrunE, hstepE⟩
    · exact Or.inr herr
  | .eand l r, σ, σA, st, fr, h, hfr, hip, hcode, hconsts, hg => by
    obtain ⟨σ1, σ4, c2, h1, h4, hσ3, hc4, hle, hcA, hkA, hsA⟩ :=
      compileE_and_shape h
    obtain ⟨⟨u1, hu1⟩, _, _⟩ := compileE_mono l σ σ1 h1
    have hdropE : σA.code.drop σ.code.length =
        u1 ++ (ob .opJumpUnless :: ((c2.length + 1) >>> 8 &&& 255) ::
          ((c2.length + 1) &&& 255) :: ob .opPop :: c2) := by
      rw [hcA, hu1, List.append_assoc, List.drop_left]
    rw [hdropE] at hcode
    have hlen1 : σ.code.length + u1.length = σ1.code.length := by rw [hu1]; simp
    have hcode1 : CodeAt (st.chunkOf fr).code σ.code.length
        (σ1.code.drop σ.code.length) := by
      rw [hu1, List.drop_left]
      exact codeAt_append_left hcode
    have hconsts4 : ListExtends σ4.consts (st.chunkOf fr).consts :=
      hkA ▸ hconsts
    have hk41 : ListExtends σ1.consts σ4.consts :=
      (compileE_mono r _ σ4 h4).2.1
    have hconsts1 : ListExtends σ1.consts (st.chunkOf fr).consts :=
      listExtends_trans hk41 hconsts4
    rcases compileE_run l σ σ1 st fr h1 hfr hip hcode1 hconsts1 hg with
      ⟨vl, g1, s1, hvl, hg1, hs1, hrun1⟩ | herr
    · have hcaJ : CodeAt (st.chunkOf fr).code σ1.code.length
          (ob .opJumpUnless :: ((c2.length + 1) >>> 8 &&& 255) ::
            ((c2.length + 1) &&& 255) :: ob .opPop :: c2) := by
        have h5 := codeAt_append_right hcode
        rwa [hlen1] at h5
      obtain ⟨hrec, hhi, hlo⟩ := jump_bytes_recompose (c2.length + 1) hle
      have hlenA : σA.code.length = σ1.code.length + 4 + c2.length := by
        rw [hcA]
        simp only [List.length_append, List.length_cons]
        omega
      have hpeek : (advE st fr σ1.code.length (st.stack ++ [vl]) g1 s1).peekAt 0 =
          some vl :=
        peekAt_stack_cons _ st.stack [] vl 0 rfl rfl
      cases htr : vTruthy vl with
      | false =>
        left
        refine ⟨vl, g1, s1, hvl, hg1, hs1, ?_⟩
        refine stepsTo_trans hrun1 (stepsTo_single ?_)
        refine advE_step_eq hcaJ (decode_ob .opJumpUnless) (fun u => ?_)
        rw [exec_jumpUnless_falsy
          (advE st fr σ1.code.length (st.stack ++ [vl]) g1 s1)
          { fr with ip := σ1.code.length }
          ((((c2.length + 1) >>> 8 &&& 255) :: ((c2.length + 1) &&& 255) ::
            ob .opPop :: c2) ++ u)
          ((c2.length + 1) >>> 8 &&& 255) ((c2.length + 1) &&& 255) vl
          rfl rfl hpeek htr]
        rw [setIp_advE _ _ _
          (advE_frames_getLast st fr σ1.code.length (st.stack ++ [vl]) g1 s1)]
        rw [advE_advE]
        have hipEq : ({ fr with ip := σ1.code.length } : Frame).ip + 3 +
            (((c2.length + 1) >>> 8 &&& 255) * 256 + ((c2.length + 1) &&& 255)) =
            σA.code.length := by
          show σ1.code.length + 3 + _ = _
          rw [hrec, hlenA]
          omega
        rw [hipEq]
        simp [advE_stack, advE_globals, advE_strs]
      | true =>
        have hstep1 : step (advE st fr σ1.code.length (st.stack ++ [vl]) g1 s1) =
            .cont (advE st fr (σ1.code.length + 3) (st.stack ++ [vl]) g1 s1) := by
          refine advE_step_eq hcaJ (decode_ob .opJumpUnless) (fun u => ?_)
          rw [exec_jumpUnless_truthy
            (advE st fr σ1.code.length (st.stack ++ [vl]) g1 s1)
            { fr with ip := σ1.code.length }
            ((((c2.length + 1) >>> 8 &&& 255) :: ((c2.length + 1) &&& 255) ::
              ob .opPop :: c2) ++ u)
            ((c2.length + 1) >>> 8 &&& 255) ((c2.length + 1) &&& 255) vl
            rfl rfl hpeek htr]
          rw [setIp_advE _ _ _
            (advE_frames_getLast st fr σ1.code.length (st.stack ++ [vl]) g1 s1)]
          rw [advE_advE]
          simp [advE_stack, advE_globals, advE_strs]
        have hcaJ4 : CodeAt (st.chunkOf fr).code σ1.code.length
            ([ob .opJumpUnless, (c2.length + 1) >>> 8 &&& 255,
              (c2.length + 1) &&& 255] ++ (ob .opPop :: c2)) := hcaJ
        have hcaPop : CodeAt (st.chunkOf fr).code (σ1.code.length + 3)
            (ob .opPop :: c2) := codeAt_append_right hcaJ4
        have hstep2 : step (advE st fr (σ1.code.length + 3)
              (st.stack ++ [vl]) g1 s1) =
            .cont (advE st fr (σ1.code.length + 4) st.stack g1 s1) := by
          refine advE_step_eq hcaPop (decode_ob .opPop) (fun u => ?_)
          rw [exec_pop _ _ _ vl (List.getLast?_concat _)]
          rw [setIp_with_stack_advE _ _ _ _
            (advE_frames_getLast st fr (σ1.code.length + 3)
              (st.stack ++ [vl]) g1 s1)]
          rw [advE_advE]
          simp [advE_stack, advE_globals, advE_strs, List.dropLast_concat]
        have hlen3 : (emitBytesC (emitJump σ1 .opJumpUnless).2
            [ob .opPop]).code.length = σ1.code.length + 4 := by
          rw [hσ3]; simp
        have hip3 : ({ fr with ip := σ1.code.length + 4 } : Frame).ip =
            (emitBytesC (emitJump σ1 .opJumpUnless).2 [ob .opPop]).code.length := by
          show σ1.code.length + 4 = _
          rw [hlen3]
        have hcode3 : CodeAt (st.chunkOf fr).code
            (emitBytesC (emitJump σ1 .opJumpUnless).2 [ob .opPop]).code.length
            (σ4.code.drop
              (emitBytesC (emitJump σ1 .opJumpUnless).2 [ob .opPop]).code.length) := by
          have hd : σ4.code.drop
              (emitBytesC (emitJump σ1 .opJumpUnless).2 [ob .opPop]).code.length =
              c2 := by
            rw [hc4, hlen3]
            rw [show σ1.code ++ ob .opJumpUnless :: (255 : Nat) :: 255 ::
                ob .opPop :: c2 =
              (σ1.code ++ [ob .opJumpUnless, 255, 255, ob .opPop]) ++ c2 by simp]
            rw [show σ1.code.length + 4 =
              (σ1.code ++ [ob .opJumpUnless, 255, 255, ob .opPop]).length by simp]
            rw [List.drop_left]
          rw [hd, hlen3]
          have hcaJ4b : CodeAt (st.chunkOf fr).code σ1.code.length
              ([ob .opJumpUnless, (c2.length + 1) >>> 8 &&& 255,
                (c2.length + 1) &&& 255, ob .opPop] ++ c2) := hcaJ
          exact codeAt_append_right hcaJ4b
        rcases compileE_run r (emitBytesC (emitJump σ1 .opJumpUnless).2
              [ob .opPop]) σ4
            (advE st fr (σ1.code.length + 4) st.stack g1 s1)
            { fr with ip := σ1.code.length + 4 } h4
            (advE_frames_getLast st fr (σ1.code.length + 4) st.stack g1 s1)
            hip3 hcode3 hconsts4 hg1 with
          ⟨vr, g2, s2, hvr, hg2, hs2, hrunR⟩ | ⟨stE, rr, stF, hrunE, hstepE⟩
        · left
          have hconv : advE (advE st fr (σ1.code.length + 4) st.stack g1 s1)
              { fr with ip := σ1.code.length + 4 } σ4.code.length
              ((advE st fr (σ1.code.length + 4) st.stack g1 s1).stack ++ [vr])
              g2 s2 =
              advE st fr σA.code.length (st.stack ++ [vr]) g2 s2 := by
            rw [advE_advE, advE_stack]
            have hlen4 : σ4.code.length = σA.code.length := by
              rw [hlenA, hc4]
              simp only [List.length_append, List.length_cons]
              omega
            rw [hlen4]
          rw [hconv] at hrunR
          refine ⟨vr, g2, s2, hvr, hg2, listExtends_trans hs1 hs2, ?_⟩
          exact stepsTo_trans hrun1 (stepsTo_head hstep1
            (stepsTo_head hstep2 hrunR))
        · right
          refine ⟨stE, rr, stF, ?_, hstepE⟩
          exact stepsTo_trans hrun1 (stepsTo_head hstep1
            (stepsTo_head hstep2 hrunE))
    · exact Or.inr herr
  | .eor l r, σ, σA, st, fr, h, hfr, hip, hcode, hconsts, hg => by
    obtain ⟨σ1, σp, σ6, c2, h1, hpe, h6, hσ5, hc6, hle, hcA, hkA, hsA⟩ :=
      compileE_or_shape h
    obtain ⟨⟨u1, hu1⟩, _, _⟩ := compileE_mono l σ σ1 h1
    obtain ⟨_, _, cp2, cp3⟩ := patchJump_some hpe
    have cp2b : σp.consts = σ1.consts := cp2
    have hdropE : σA.code.drop σ.code.length =
        u1 ++ (ob .opJumpUnless :: 0 :: 3 :: ob .opJump ::
          ((c2.length + 1) >>> 8 &&& 255) :: ((c2.length + 1) &&& 255) ::
          ob .opPop :: c2) := by
      rw [hcA, hu1, List.append_assoc, List.drop_left]
    rw [hdropE] at hcode
    have hlen1 : σ.code.length + u1.length = σ1.code.length := by rw [hu1]; simp
    have hcode1 : CodeAt (st.chunkOf fr).code σ.code.length
        (σ1.code.drop σ.code.length) := by
      rw [hu1, List.drop_left]
      exact codeAt_append_left hcode
    have hconsts6 : ListExtends σ6.consts (st.chunkOf fr).consts :=
      hkA ▸ hconsts
    have hk61 : ListExtends σ1.consts σ6.consts := by
      have hm : ListExtends σp.consts σ6.consts :=
        (compileE_mono r _ σ6 h6).2.1
      rwa [cp2b] at hm
    have hconsts1 : ListExtends σ1.consts (st.chunkOf fr).consts :=
      listExtends_trans hk61 hconsts6
    rcases compileE_run l σ σ1 st fr h1 hfr hip hcode1 hconsts1 hg with
      ⟨vl, g1, s1, hvl, hg1, hs1, hrun1⟩ | herr
    · have hcaJ : CodeAt (st.chunkOf fr).code σ1.code.length
          (ob .opJumpUnless :: 0 :: 3 :: ob .opJump ::
            ((c2.length + 1) >>> 8 &&& 255) :: ((c2.length + 1) &&& 255) ::
            ob .opPop :: c2) := by
        have h5 := codeAt_append_right hcode
        rwa [hlen1] at h5
      obtain ⟨hrec, hhi, hlo⟩ := jump_bytes_recompose (c2.length + 1) hle
      have hlenA : σA.code.length = σ1.code.length + 7 + c2.length := by
        rw [hcA]
        simp only [List.length_append, List.length_cons]
        omega
      have hpeek : (advE st fr σ1.code.length (st.stack ++ [vl]) g1 s1).peekAt 0 =
          some vl :=
        peekAt_stack_cons _ st.stack [] vl 0 rfl rfl
      cases htr : vTruthy vl with
      | true =>
        left
        have hstep1 : step (advE st fr σ1.code.length (st.stack ++ [vl]) g1 s1) =
            .cont (advE st fr (σ1.code.length + 3) (st.stack ++ [vl]) g1 s1) := by
          refine advE_step_eq hcaJ (decode_ob .opJumpUnless) (fun u => ?_)
          rw [exec_jumpUnless_truthy
            (advE st fr σ1.code.length (st.stack ++ [vl]) g1 s1)
            { fr with ip := σ1.code.length }
            (((0 : Nat) :: 3 :: ob .opJump :: ((c2.length + 1) >>> 8 &&& 255) ::
              ((c2.length + 1) &&& 255) :: ob .opPop :: c2) ++ u)
            0 3 vl rfl rfl hpeek htr]
          rw [setIp_advE _ _ _
            (advE_frames_getLast st fr σ1.code.length (st.stack ++ [vl]) g1 s1)]
          rw [advE_advE]
          simp [advE_stack, advE_globals, advE_strs]
        have hcaJ3 : CodeAt (st.chunkOf fr).code σ1.code.length
            ([ob .opJumpUnless, 0, 3] ++ (ob .opJump ::
              ((c2.length + 1) >>> 8 &&& 255) :: ((c2.length + 1) &&& 255) ::
              ob .opPop :: c2)) := hcaJ
        have hcaJump : CodeAt (st.chunkOf fr).code (σ1.code.length + 3)
            (ob .opJump :: ((c2.length + 1) >>> 8 &&& 255) ::
              ((c2.length + 1) &&& 255) :: ob .opPop :: c2) :=
          codeAt_append_right hcaJ3
        have hstep2 : step (advE st fr (σ1.code.length + 3)
              (st.stack ++ [vl]) g1 s1) =
            .cont (advE st fr σA.code.length (st.stack ++ [vl]) g1 s1) := by
          refine advE_step_eq hcaJump (decode_ob .opJump) (fun u => ?_)
          rw [exec_jump (advE st fr (σ1.code.length + 3) (st.stack ++ [vl]) g1 s1)
            { fr with ip := σ1.code.length + 3 }
            ((((c2.length + 1) >>> 8 &&& 255) :: ((c2.length + 1) &&& 255) ::
              ob .opPop :: c2) ++ u)
            ((c2.length + 1) >>> 8 &&& 255) ((c2.length + 1) &&& 255) rfl rfl]
          rw [setIp_advE _ _ _
            (advE_frames_getLast st fr (σ1.code.length + 3)
              (st.stack ++ [vl]) g1 s1)]
          rw [advE_advE]
          have hipEq : ({ fr with ip := σ1.code.length + 3 } : Frame).ip + 3 +
              (((c2.length + 1) >>> 8 &&& 255) * 256 +
                ((c2.length + 1) &&& 255)) = σA.code.length := by
            show σ1.code.length + 3 + 3 + _ = _
            rw [hrec, hlenA]
            omega
          rw [hipEq]
          simp [advE_stack, advE_globals, advE_strs]
        refine ⟨vl, g1, s1, hvl, hg1, hs1, ?_⟩
        exact stepsTo_trans hrun1 (stepsTo_head hstep1 (stepsTo_single hstep2))
      | false =>
        have hstep1 : step (advE st fr σ1.code.length (st.stack ++ [vl]) g1 s1) =
            .cont (advE st fr (σ1.code.length + 6) (st.stack ++ [vl]) g1 s1) := by
          refine advE_step_eq hcaJ (decode_ob .opJumpUnless) (fun u => ?_)
          rw [exec_jumpUnless_falsy
            (advE st fr σ1.code.length (st.stack ++ [vl]) g1 s1)
            { fr with ip := σ1.code.length }
            (((0 : Nat) :: 3 :: ob .opJump :: ((c2.length + 1) >>> 8 &&& 255) ::
              ((c2.length + 1) &&& 255) :: ob .opPop :: c2) ++ u)
            0 3 vl rfl rfl hpeek htr]
          rw [setIp_advE _ _ _
            (advE_frames_getLast st fr σ1.code.length (st.stack ++ [vl]) g1 s1)]
          rw [advE_advE]
          have hipEq : ({ fr with ip := σ1.code.length } : Frame).ip + 3 +
              (0 * 256 + 3) = σ1.code.length + 6 := by
            show σ1.code.length + 3 + (0 * 256 + 3) = _
            omega
          rw [hipEq]
          simp [advE_stack, advE_globals, advE_strs]
        have hcaJ6 : CodeAt (st.chunkOf fr).code σ1.code.length
            ([ob .opJumpUnless, 0, 3, ob .opJump,
              (c2.length + 1) >>> 8 &&& 255, (c2.length + 1) &&& 255] ++
              (ob .opPop :: c2)) := hcaJ
        have hcaPop : CodeAt (st.chunkOf fr).code (σ1.code.length + 6)
            (ob .opPop :: c2) := codeAt_append_right hcaJ6
        have hstep2 : step (advE st fr (σ1.code.length + 6)
              (st.stack ++ [vl]) g1 s1) =
            .cont (advE st fr (σ1.code.length + 7) st.stack g1 s1) := by
          refine advE_step_eq hcaPop (decode_ob .opPop) (fun u => ?_)
          rw [exec_pop _ _ _ vl (List.getLast?_concat _)]
          rw [setIp_with_stack_advE _ _ _ _
            (advE_frames_getLast st fr (σ1.code.length + 6)
              (st.stack ++ [vl]) g1 s1)]
          rw [advE_advE]
          simp [advE_stack, advE_globals, advE_strs, List.dropLast_concat]
        have hlen5 : (emitBytesC σp [ob .opPop]).code.length =
            σ1.code.length + 7 := by
          rw [hσ5]; simp
        have hip5 : ({ fr with ip := σ1.code.length + 7 } : Frame).ip =
            (emitBytesC σp [ob .opPop]).code.length := by
          show σ1.code.length + 7 = _
          rw [hlen5]
        have hcode5 : CodeAt (st.chunkOf fr).code
            (emitBytesC σp [ob .opPop]).code.length
            (σ6.code.drop (emitBytesC σp [ob .opPop]).code.length) := by
          have hd : σ6.code.drop (emitBytesC σp [ob .opPop]).code.length =
              c2 := by
            rw [hc6, hlen5]
            rw [show σ1.code ++ ob .opJumpUnless :: (0 : Nat) :: 3 ::
                ob .opJump :: 255 :: 255 :: ob .opPop :: c2 =
              (σ1.code ++ [ob .opJumpUnless, 0, 3, ob .opJump, 255, 255,
                ob .opPop]) ++ c2 by simp]
            rw [show σ1.code.length + 7 =
              (σ1.code ++ [ob .opJumpUnless, 0, 3, ob .opJump, 255, 255,
                ob .opPop]).length by simp]
            rw [List.drop_left]
          rw [hd, hlen5]
          have hcaJ7 : CodeAt (st.chunkOf fr).code σ1.code.length
              ([ob .opJumpUnless, 0, 3, ob .opJump,
                (c2.length + 1) >>> 8 &&& 255, (c2.length + 1) &&& 255,
                ob .opPop] ++ c2) := hcaJ
          exact codeAt_append_right hcaJ7
        rcases compileE_run r (emitBytesC σp [ob .opPop]) σ6
            (advE st fr (σ1.code.length + 7) st.stack g1 s1)
            { fr with ip := σ1.code.length + 7 } h6
            (advE_frames_getLast st fr (σ1.code.length + 7) st.stack g1 s1)
            hip5 hcode5 hconsts6 hg1 with
          ⟨vr, g2, s2, hvr, hg2, hs2, hrunR⟩ | ⟨stE, rr, stF, hrunE, hstepE⟩
        · left
          have hconv : advE (advE st fr (σ1.code.length + 7) st.stack g1 s1)
              { fr with ip := σ1.code.length + 7 } σ6.code.length
              ((advE st fr (σ1.code.length + 7) st.stack g1 s1).stack ++ [vr])
              g2 s2 =
              advE st fr σA.code.length (st.stack ++ [vr]) g2 s2 := by
            rw [advE_advE, advE_stack]
            have hlen6 : σ6.code.length = σA.code.length := by
              rw [hlenA, hc6]
              simp only [List.length_append, List.length_cons]
              omega
            rw [hlen6]
          rw [hconv] at hrunR
          refine ⟨vr, g2, s2, hvr, hg2, listExtends_trans hs1 hs2, ?_⟩
          exact stepsTo_trans hrun1 (stepsTo_head hstep1
            (stepsTo_head hstep2 hrunR))
        · right
          refine ⟨stE, rr, stF, ?_, hstepE⟩
          exact stepsTo_trans hrun1 (stepsTo_head hstep1
            (stepsTo_head hstep2 hrunE))
    · exact Or.inr herr
  | .ecall f args, σ, σA, st, fr, h, hfr, hip, hcode, hconsts, hg => by
    simp only [compileE, Option.bind_eq_bind, Option.bind_eq_some] at h
    obtain ⟨σ1, h1, h2⟩ := h
    split at h2
    · cases h2
    · cases hcargs : compileArgs args σ1 with
      | none => rw [hcargs] at h2; cases h2
      | some σ2 =>
        rw [hcargs] at h2
        injection h2 with h2
        subst h2
        obtain ⟨⟨u1, hu1⟩, _, _⟩ := compileE_mono f σ σ1 h1
        obtain ⟨⟨u2, hu2⟩, hk2, _⟩ := compileArgs_mono args σ1 σ2 hcargs
        have hc : (emitBytesC σ2 [ob .opCall, args.length]).code =
            σ2.code ++ [ob .opCall, args.length] := rfl
        have hdropE : (emitBytesC σ2 [ob .opCall, args.length]).code.drop
            σ.code.length = u1 ++ (u2 ++ [ob .opCall, args.length]) := by
          rw [hc, hu2, hu1, List.append_assoc, List.append_assoc, List.drop_left]
        rw [hdropE] at hcode
        have hlen1 : σ.code.length + u1.length = σ1.code.length := by
          rw [hu1]; simp
        have hlen2 : σ1.code.length + u2.length = σ2.code.length := by
          rw [hu2]; simp
        have hcode1 : CodeAt (st.chunkOf fr).code σ.code.length
            (σ1.code.drop σ.code.length) := by
          rw [hu1, List.drop_left]
          exact codeAt_append_left hcode
        have hconsts1 : ListExtends σ1.consts (st.chunkOf fr).consts :=
          listExtends_trans hk2 hconsts
        rcases compileE_run f σ σ1 st fr h1 hfr hip hcode1 hconsts1 hg with
          ⟨vf, g1, s1, hvf, hg1, hs1, hrun1⟩ | herr
        · have hcode2mid : CodeAt (st.chunkOf fr).code σ1.code.length
              (σ2.code.drop σ1.code.length) := by
            rw [hu2, List.drop_left]
            have h4 := codeAt_append_right hcode
            rw [hlen1] at h4
            exact codeAt_append_left h4
          rcases compileArgs_run args σ1 σ2
              (advE st fr σ1.code.length (st.stack ++ [vf]) g1 s1)
              { fr with ip := σ1.code.length } hcargs
              (advE_frames_getLast st fr σ1.code.length (st.stack ++ [vf]) g1 s1)
              rfl hcode2mid hconsts hg1 with
            ⟨vs, g2, s2, hvslen, hvsc, hg2, hs2, hrun2⟩ |
            ⟨stE, rr, stF, hrunE, hstepE⟩
          · have hconv : advE (advE st fr σ1.code.length (st.stack ++ [vf]) g1 s1)
                { fr with ip := σ1.code.length } σ2.code.length
                ((advE st fr σ1.code.length (st.stack ++ [vf]) g1 s1).stack ++ vs)
                g2 s2 =
                advE st fr σ2.code.length ((st.stack ++ [vf]) ++ vs) g2 s2 := by
              rw [advE_advE, advE_stack]
            rw [hconv] at hrun2
            have hrun12 := stepsTo_trans hrun1 hrun2
            have hcaC : CodeAt (st.chunkOf fr).code σ2.code.length
                [ob .opCall, args.length] := by
              have h4 := codeAt_append_right hcode
              rw [hlen1] at h4
              have h5 := codeAt_append_right h4
              rwa [hlen2] at h5
            have hnnQ : (emitBytesC σ2 [ob .opCall, args.length]).code.length =
                σ2.code.length + 2 := by rw [hc]; simp
            have hsv : ListExtends st.strs s2 := listExtends_trans hs1 hs2
            cases vf with
            | vnative nid =>
              left
              refine ⟨.vnum 0, g2, s2, rfl, hg2, hsv, ?_⟩
              refine stepsTo_trans hrun12 (stepsTo_single ?_)
              rw [hnnQ]
              exact advE_step_call_native st fr σ2.code.length args.length
                st.stack vs nid g2 s2 hcaC hvslen
            | vnil =>
              right
              refine ⟨advE st fr σ2.code.length ((st.stack ++ [.vnil]) ++ vs)
                g2 s2, "can only call functions and classes",
                (advE st fr σ2.code.length ((st.stack ++ [.vnil]) ++ vs)
                  g2 s2).setIp
                  (({ fr with ip := σ2.code.length } : Frame).ip + 2),
                hrun12, ?_⟩
              exact advE_step_call_noncallable st fr σ2.code.length args.length
                st.stack vs .vnil g2 s2 hcaC hvslen rfl
                (fun nid hX => Value.noConfusion hX)
            | vbool b =>
              right
              refine ⟨advE st fr σ2.code.length ((st.stack ++ [.vbool b]) ++ vs)
                g2 s2, "can only call functions and classes",
                (advE st fr σ2.code.length ((st.stack ++ [.vbool b]) ++ vs)
                  g2 s2).setIp
                  (({ fr with ip := σ2.code.length } : Frame).ip + 2),
                hrun12, ?_⟩
              exact advE_step_call_noncallable st fr σ2.code.length args.length
                st.stack vs (.vbool b) g2 s2 hcaC hvslen rfl
                (fun nid hX => Value.noConfusion hX)
            | vnum q =>
              right
              refine ⟨advE st fr σ2.code.length ((st.stack ++ [.vnum q]) ++ vs)
                g2 s2, "can only call functions and classes",
                (advE st fr σ2.code.length ((st.stack ++ [.vnum q]) ++ vs)
                  g2 s2).setIp
                  (({ fr with ip := σ2.code.length } : Frame).ip + 2),
                hrun12, ?_⟩
              exact advE_step_call_noncallable st fr σ2.code.length args.length
                st.stack vs (.vnum q) g2 s2 hcaC hvslen rfl
                (fun nid hX => Value.noConfusion hX)
            | vstr i =>
              right
              refine ⟨advE st fr σ2.code.length ((st.stack ++ [.vstr i]) ++ vs)
                g2 s2, "can only call functions and classes",
                (advE st fr σ2.code.length ((st.stack ++ [.vstr i]) ++ vs)
                  g2 s2).setIp
                  (({ fr with ip := σ2.code.length } : Frame).ip + 2),
                hrun12, ?_⟩
              exact advE_step_call_noncallable st fr σ2.code.length args.length
                st.stack vs (.vstr i) g2 s2 hcaC hvslen rfl
                (fun nid hX => Value.noConfusion hX)
            | vfun a => simp [scalarish] at hvf
            | vclos a => simp [scalarish] at hvf
            | vclass a => simp [scalarish] at hvf
            | vinst a => simp [scalarish] at hvf
            | vbound a => simp [scalarish] at hvf
          · exact Or.inr ⟨stE, rr, stF, stepsTo_trans hrun1 hrunE, hstepE⟩
        · exact Or.inr herr
  | .egetp o n, σ, σA, st, fr, h, hfr, hip, hcode, hconsts, hg => by
    simp only [compileE, Option.bind_eq_bind, Option.bind_eq_some] at h
    obtain ⟨σ1, h1, p, hpi, h2⟩ := h
    injection h2 with h2
    subst h2
    obtain ⟨hp1, hpc, hpk, hps, _⟩ := identConst_some hpi
    obtain ⟨⟨u1, hu1⟩, _, _⟩ := compileE_mono o σ σ1 h1
    have hc : (emitBytesC p.2 [ob .opGetProp, p.1]).code =
        σ1.code ++ [ob .opGetProp, p.1] := by
      show p.2.code ++ _ = _
      rw [hpc]
    have hdropE : (emitBytesC p.2 [ob .opGetProp, p.1]).code.drop σ.code.length =
        u1 ++ [ob .opGetProp, p.1] := by
      rw [hc, hu1, List.append_assoc, List.drop_left]
    rw [hdropE] at hcode
    have hlen1 : σ.code.length + u1.length = σ1.code.length := by rw [hu1]; simp
    have hcode1 : CodeAt (st.chunkOf fr).code σ.code.length
        (σ1.code.drop σ.code.length) := by
      rw [hu1, List.drop_left]
      exact codeAt_append_left hcode
    have hkA : (emitBytesC p.2 [ob .opGetProp, p.1]).consts =
        σ1.consts ++ [.vstr σ1.strs.length] := by
      show p.2.consts = _
      rw [hpk]
    have hconsts1 : ListExtends σ1.consts (st.chunkOf fr).consts :=
      listExtends_trans (listExtends_append σ1.consts [.vstr σ1.strs.length])
        (hkA ▸ hconsts)
    rcases compileE_run o σ σ1 st fr h1 hfr hip hcode1 hconsts1 hg with
      ⟨vo, g1, s1, hvo, hg1, hs1, hrun1⟩ | herr
    · right
      have hcaG : CodeAt (st.chunkOf fr).code σ1.code.length
          [ob .opGetProp, p.1] := by
        have h4 := codeAt_append_right hcode
        rwa [hlen1] at h4
      refine ⟨advE st fr σ1.code.length (st.stack ++ [vo]) g1 s1,
        "only instances have properties",
        advE st fr σ1.code.length (st.stack ++ [vo]) g1 s1, hrun1, ?_⟩
      refine advE_step_eq hcaG (decode_ob .opGetProp) (fun u => ?_)
      refine exec_getProp_noninst _ _ _ vo
        (peekAt_stack_cons _ st.stack [] vo 0 rfl rfl) ?_
      intro iid heq
      rw [heq] at hvo
      simp [scalarish] at hvo
    · exact Or.inr herr
  | .esetp o n r, σ, σA, st, fr, h, hfr, hip, hcode, hconsts, hg => by
    simp only [compileE, Option.bind_eq_bind, Option.bind_eq_some] at h
    obtain ⟨σ1, h1, p, hpi, σ3, h3, h2⟩ := h
    injection h2 with h2
    subst h2
    obtain ⟨hp1, hpc, hpk, hps, _⟩ := identConst_some hpi
    obtain ⟨⟨u1, hu1⟩, _, _⟩ := compileE_mono o σ σ1 h1
    obtain ⟨⟨u3, hu3⟩, hk3, _⟩ := compileE_mono r p.2 σ3 h3
    have hc : (emitBytesC σ3 [ob .opSetProp, p.1]).code =
        σ3.code ++ [ob .opSetProp, p.1] := rfl
    have hu3b : σ3.code = σ1.code ++ u3 := by rw [hu3, hpc]
    have hdropE : (emitBytesC σ3 [ob .opSetProp, p.1]).code.drop σ.code.length =
        u1 ++ (u3 ++ [ob .opSetProp, p.1]) := by
      rw [hc, hu3b, hu1, List.append_assoc, List.append_assoc, List.drop_left]
    rw [hdropE] at hcode
    have hlen1 : σ.code.length + u1.length = σ1.code.length := by rw [hu1]; simp
    have hlen3 : σ1.code.length + u3.length = σ3.code.length := by
      rw [hu3b]; simp
    have hcode1 : CodeAt (st.chunkOf fr).code σ.code.length
        (σ1.code.drop σ.code.length) := by
      rw [hu1, List.drop_left]
      exact codeAt_append_left hcode
    have hkp2 : ListExtends σ1.consts p.2.consts := by
      rw [hpk]
      exact listExtends_append _ _
    have hconsts1 : ListExtends σ1.consts (st.chunkOf fr).consts :=
      listExtends_trans hkp2 (listExtends_trans hk3 hconsts)
    rcases compileE_run o σ σ1 st fr h1 hfr hip hcode1 hconsts1 hg with
      ⟨vo, g1, s1, hvo, hg1, hs1, hrun1⟩ | herr
    · have hip3 : ({ fr with ip := σ1.code.length } : Frame).ip =
          p.2.code.length := by
        show σ1.code.length = _
        rw [hpc]
      have hcode3b : CodeAt (st.chunkOf fr).code p.2.code.length
          (σ3.code.drop p.2.code.length) := by
        rw [hpc, hu3b, List.drop_left]
        have h4 := codeAt_append_right hcode
        rw [hlen1] at h4
        exact codeAt_append_left h4
      rcases compileE_run r p.2 σ3
          (advE st fr σ1.code.length (st.stack ++ [vo]) g1 s1)
          { fr with ip := σ1.code.length } h3
          (advE_frames_getLast st fr σ1.code.length (st.stack ++ [vo]) g1 s1)
          hip3 hcode3b hconsts hg1 with
        ⟨vr, g2, s2, hvr, hg2, hs2, hrun2⟩ | ⟨stE, rr, stF, hrunE, hstepE⟩
      · have hconv : advE (advE st fr σ1.code.length (st.stack ++ [vo]) g1 s1)
            { fr with ip := σ1.code.length } σ3.code.length
            ((advE st fr σ1.code.length (st.stack ++ [vo]) g1 s1).stack ++ [vr])
            g2 s2 =
            advE st fr σ3.code.length ((st.stack ++ [vo]) ++ [vr]) g2 s2 := by
          rw [advE_advE, advE_stack]
        rw [hconv] at hrun2
        have hrun12 := stepsTo_trans hrun1 hrun2
        have hcaS : CodeAt (st.chunkOf fr).code σ3.code.length
            [ob .opSetProp, p.1] := by
          have h4 := codeAt_append_right hcode
          rw [hlen1] at h4
          have h5 := codeAt_append_right h4
          rwa [hlen3] at h5
        right
        refine ⟨advE st fr σ3.code.length ((st.stack ++ [vo]) ++ [vr]) g2 s2,
          "only instances have fields",
          advE st fr σ3.code.length ((st.stack ++ [vo]) ++ [vr]) g2 s2,
          hrun12, ?_⟩
        refine advE_step_eq hcaS (decode_ob .opSetProp) (fun u => ?_)
        refine exec_setProp_noninst _ _ _ vo
          (peekAt_stack_cons _ st.stack [vr] vo 1
            (by rw [advE_stack, List.append_assoc]; rfl) rfl) ?_
        intro iid heq
        rw [heq] at hvo
        simp [scalarish] at hvo
      · exact Or.inr ⟨stE, rr, stF, stepsTo_trans hrun1 hrunE, hstepE⟩
    · exact Or.inr herr
  | .einvoke o n args, σ, σA, st, fr, h, hfr, hip, hcode, hconsts, hg => by
    simp only [compileE, Option.bind_eq_bind, Option.bind_eq_some] at h
    obtain ⟨σ1, h1, p, hpi, h2⟩ := h
    split at h2
    · cases h2
    · cases hcargs : compileArgs args p.2 with
      | none => rw [hcargs] at h2; cases h2
      | some σ3 =>
        rw [hcargs] at h2
        injection h2 with h2
        subst h2
        obtain ⟨hp1, hpc, hpk, hps, _⟩ := identConst_some hpi
        obtain ⟨⟨u1, hu1⟩, _, _⟩ := compileE_mono o σ σ1 h1
        obtain ⟨⟨u3, hu3⟩, hk3, _⟩ := compileArgs_mono args p.2 σ3 hcargs
        have hc : (emitBytesC σ3 [ob .opInvoke, p.1, args.length]).code =
            σ3.code ++ [ob .opInvoke, p.1, args.length] := rfl
        have hu3b : σ3.code = σ1.code ++ u3 := by rw [hu3, hpc]
        have hdropE : (emitBytesC σ3 [ob .opInvoke, p.1, args.length]).code.drop
            σ.code.length = u1 ++ (u3 ++ [ob .opInvoke, p.1, args.length]) := by
          rw [hc, hu3b, hu1, List.append_assoc, List.append_assoc, List.drop_left]
        rw [hdropE] at hcode
        have hlen1 : σ.code.length + u1.length = σ1.code.length := by
          rw [hu1]; simp
        have hlen3 : σ1.code.length + u3.length = σ3.code.length := by
          rw [hu3b]; simp
        have hcode1 : CodeAt (st.chunkOf fr).code σ.code.length
            (σ1.code.drop σ.code.length) := by
          rw [hu1, List.drop_left]
          exact codeAt_append_left hcode
        have hkp2 : ListExtends σ1.consts p.2.consts := by
          rw [hpk]
          exact listExtends_append _ _
        have hconsts1 : ListExtends σ1.consts (st.chunkOf fr).consts :=
          listExtends_trans hkp2 (listExtends_trans hk3 hconsts)
        rcases compileE_run o σ σ1 st fr h1 hfr hip hcode1 hconsts1 hg with
          ⟨vo, g1, s1, hvo, hg1, hs1, hrun1⟩ | herr
        · have hip3 : ({ fr with ip := σ1.code.length } : Frame).ip =
              p.2.code.length := by
            show σ1.code.length = _
            rw [hpc]
          have hcode3b : CodeAt (st.chunkOf fr).code p.2.code.length
              (σ3.code.drop p.2.code.length) := by
            rw [hpc, hu3b, List.drop_left]
            have h4 := codeAt_append_right hcode
            rw [hlen1] at h4
            exact codeAt_append_left h4
          rcases compileArgs_run args p.2 σ3
              (advE st fr σ1.code.length (st.stack ++ [vo]) g1 s1)
              { fr with ip := σ1.code.length } hcargs
              (advE_frames_getLast st fr σ1.code.length (st.stack ++ [vo]) g1 s1)
              hip3 hcode3b hconsts hg1 with
            ⟨vs, g2, s2, hvslen, hvsc, hg2, hs2, hrun2⟩ |
            ⟨stE, rr, stF, hrunE, hstepE⟩
          · have hconv : advE (advE st fr σ1.code.length (st.stack ++ [vo]) g1 s1)
                { fr with ip := σ1.code.length } σ3.code.length
                ((advE st fr σ1.code.length (st.stack ++ [vo]) g1 s1).stack ++ vs)
                g2 s2 =
                advE st fr σ3.code.length ((st.stack ++ [vo]) ++ vs) g2 s2 := by
              rw [advE_advE, advE_stack]
            rw [hconv] at hrun2
            have hrun12 := stepsTo_trans hrun1 hrun2
            have hcaI : CodeAt (st.chunkOf fr).code σ3.code.length
                [ob .opInvoke, p.1, args.length] := by
              have h4 := codeAt_append_right hcode
              rw [hlen1] at h4
              have h5 := codeAt_append_right h4
              rwa [hlen3] at h5
            have hvk : (st.chunkOf fr).consts.get? p.1 =
                some (.vstr σ1.strs.length) := by
              rw [hp1]
              refine consts_get_chain ?_ hconsts
              rw [← hpk]
              exact hk3
            right
            refine ⟨advE st fr σ3.code.length ((st.stack ++ [vo]) ++ vs) g2 s2,
              "only instances have methods",
              (advE st fr σ3.code.length ((st.stack ++ [vo]) ++ vs) g2 s2).setIp
                (({ fr with ip := σ3.code.length } : Frame).ip + 3),
              hrun12, ?_⟩
            refine advE_step_eq hcaI (decode_ob .opInvoke) (fun u => ?_)
            refine exec_invoke_noninst _ _ ([p.1, args.length] ++ u) p.1
              args.length σ1.strs.length vo rfl rfl hvk ?_ ?_
            · rw [setIp_peekAt]
              refine peekAt_stack_cons _ st.stack vs vo args.length ?_ hvslen
              rw [advE_stack, List.append_assoc]
              rfl
            · intro iid heq
              rw [heq] at hvo
              simp [scalarish] at hvo
          · exact Or.inr ⟨stE, rr, stF, stepsTo_trans hrun1 hrunE, hstepE⟩
        · exact Or.inr herr

theorem compileArgs_run : ∀ (as : List Expr) (σ σA : CompSt) (st : VMSt)
    (fr : Frame),
    compileArgs as σ = some σA →
    st.frames.getLast? = some fr →
    fr.ip = σ.code.length →
    CodeAt (st.chunkOf fr).code σ.code.length (σA.code.drop σ.code.length) →
    ListExtends σA.consts (st.chunkOf fr).consts →
    GlobalsOk st.globals →
    (∃ vs g s, vs.length = as.length ∧ (∀ v ∈ vs, scalarish v = true) ∧
      GlobalsOk g ∧ ListExtends st.strs s ∧
      StepsTo st (advE st fr σA.code.length (st.stack ++ vs) g s)) ∨
    (∃ stE r stF, StepsTo st stE ∧ step stE = .errOut r stF)
  | [], σ, σA, st, fr, h, hfr, hip, hcode, hconsts, hg => by
    simp only [compileArgs] at h
    injection h with h
    subst h
    left
    refine ⟨[], st.globals, st.strs, rfl, by simp, hg, listExtends_refl _, ?_⟩
    rw [← hip]
    have hself := advE_self st fr hfr
    simp only [List.append_nil]
    rw [hself]
    exact stepsTo_refl st
  | e :: rest, σ, σA, st, fr, h, hfr, hip, hcode, hconsts, hg => by
    simp only [compileArgs, Option.bind_eq_bind, Option.bind_eq_some] at h
    obtain ⟨σ1, h1, h2⟩ := h
    obtain ⟨⟨u1, hu1⟩, _, _⟩ := compileE_mono e σ σ1 h1
    obtain ⟨⟨u2, hu2⟩, hk2, _⟩ := compileArgs_mono rest σ1 σA h2
    have hdropE : σA.code.drop σ.code.length = u1 ++ u2 := by
      rw [hu2, hu1, List.append_assoc, List.drop_left]
    rw [hdropE] at hcode
    have hlen1 : σ.code.length + u1.length = σ1.code.length := by
      rw [hu1]; simp
    have hcode1 : CodeAt (st.chunkOf fr).code σ.code.length
        (σ1.code.drop σ.code.length) := by
      rw [hu1, List.drop_left]
      exact codeAt_append_left hcode
    have hconsts1 : ListExtends σ1.consts (st.chunkOf fr).consts :=
      listExtends_trans hk2 hconsts
    rcases compileE_run e σ σ1 st fr h1 hfr hip hcode1 hconsts1 hg with
      ⟨v, g, s, hv, hgv, hsv, hrun⟩ | herr
    · have hcode2 : CodeAt (st.chunkOf fr).code σ1.code.length
          (σA.code.drop σ1.code.length) := by
        have h3 := codeAt_append_right hcode
        rw [hlen1] at h3
        have hd : σA.code.drop σ1.code.length = u2 := by
          rw [hu2, List.drop_left]
        rwa [← hd] at h3
      rcases compileArgs_run rest σ1 σA
          (advE st fr σ1.code.length (st.stack ++ [v]) g s)
          { fr with ip := σ1.code.length } h2
          (advE_frames_getLast st fr σ1.code.length (st.stack ++ [v]) g s)
          rfl hcode2 hconsts hgv with
        ⟨vs, g2, s2, hvslen, hvs, hg2, hs2, hrun2⟩ | ⟨stE, rr, stF, hrunE, hstepE⟩
      · left
        refine ⟨v :: vs, g2, s2, by simp [hvslen], ?_, hg2,
          listExtends_trans hsv hs2, ?_⟩
        · intro w hw
          rcases List.mem_cons.mp hw with rfl | hm
          · exact hv
          · exact hvs w hm
        · refine stepsTo_trans hrun ?_
          have hconv : advE (advE st fr σ1.code.length (st.stack ++ [v]) g s)
              { fr with ip := σ1.code.length } σA.code.length
              ((advE st fr σ1.code.length (st.stack ++ [v]) g s).stack ++ vs)
              g2 s2 =
              advE st fr σA.code.length (st.stack ++ v :: vs) g2 s2 := by
            rw [advE_advE, advE_stack]
            simp
          rw [hconv] at hrun2
          exact hrun2
      · exact Or.inr ⟨stE, rr, stF, stepsTo_trans hrun hrunE, hstepE⟩
    · exact Or.inr herr

end

/-! ### Finishing a script run: `OpPop? OpNil OpReturn` -/

/-- After the expression value `v` is on the stack, the script epilogue
`OpPop OpNil OpReturn` completes the run with result `nil` and an empty
value stack. -/
theorem script_stmt_finish (st : VMSt) (fr : Frame) (n1 : Nat) (v : Value)
    (g : List (String × Value)) (s : List String) (w : Value)
    (hca : CodeAt (st.chunkOf fr).code n1
      ([ob .opPop] ++ ([ob .opNil] ++ [ob .opReturn])))
    (hstack : st.stack = [w]) (hframes : st.frames = [fr])
    (hcells : st.cells = []) (hups : st.openUpvals = [])
    (hrun : StepsTo st (advE st fr n1 (st.stack ++ [v]) g s)) :
    ∃ n SF, runFuel n st = .okOut .vnil SF ∧ SF.stack = [] := by
  rw [hstack] at hrun
  have hstepPop : step (advE st fr n1 ([w] ++ [v]) g s) =
      .cont (advE st fr (n1 + 1) [w] g s) := by
    refine advE_step_eq (codeAt_append_left hca) (decode_ob .opPop)
      (fun u => ?_)
    rw [exec_pop _ _ _ v (List.getLast?_concat _)]
    rw [setIp_with_stack_advE _ _ _ _
      (advE_frames_getLast st fr n1 ([w] ++ [v]) g s)]
    rw [advE_advE]
    simp [advE_stack, advE_globals, advE_strs, List.dropLast_concat]
  have hcaNR := codeAt_append_right hca
  have hstepNil : step (advE st fr (n1 + 1) [w] g s) =
      .cont (advE st fr (n1 + 2) [w, .vnil] g s) := by
    refine advE_step_eq (codeAt_append_left hcaNR) (decode_ob .opNil)
      (fun u => ?_)
    rw [exec_nil _ _ _]
    rw [setIp_push_advE _ _ _ _ (advE_frames_getLast st fr (n1 + 1) [w] g s)]
    rw [advE_advE]
    simp [advE_stack, advE_globals, advE_strs]
  have hstepRet : step (advE st fr (n1 + 2) [w, .vnil] g s) =
      .done .vnil { advE st fr (n1 + 2) [w, .vnil] g s with
        stack := [], frames := [], cells := [], openUpvals := [] } := by
    refine advE_step_eq (codeAt_append_right hcaNR) (decode_ob .opReturn)
      (fun u => ?_)
    refine exec_return_top1 _ _ _ .vnil [] [] rfl ?_ ?_ rfl
    · show closeUpvals st.cells st.openUpvals _ = _
      rw [hcells, hups]
      rfl
    · show st.frames.dropLast ++ _ = _
      rw [hframes]
      rfl
  obtain ⟨n, hn⟩ := runFuel_of_stepsTo_done
    (stepsTo_trans hrun (stepsTo_head hstepPop (stepsTo_single hstepNil)))
    hstepRet
  exact ⟨n, _, hn, rfl⟩

/-- In REPL fallback mode the epilogue is `OpNil OpReturn`: the run
completes with the expression's value `v` and an empty value stack. -/
theorem script_mode_finish (st : VMSt) (fr : Frame) (n1 : Nat) (v : Value)
    (g : List (String × Value)) (s : List String) (w : Value)
    (hca : CodeAt (st.chunkOf fr).code n1 ([ob .opNil] ++ [ob .opReturn]))
    (hstack : st.stack = [w]) (hframes : st.frames = [fr])
    (hcells : st.cells = []) (hups : st.openUpvals = [])
    (hrun : StepsTo st (advE st fr n1 (st.stack ++ [v]) g s)) :
    ∃ n SF, runFuel n st = .okOut v SF ∧ SF.stack = [] := by
  rw [hstack] at hrun
  have hstepNil : step (advE st fr n1 ([w] ++ [v]) g s) =
      .cont (advE st fr (n1 + 1) [w, v, .vnil] g s) := by
    refine advE_step_eq (codeAt_append_left hca) (decode_ob .opNil)
      (fun u => ?_)
    rw [exec_nil _ _ _]
    rw [setIp_push_advE _ _ _ _
      (advE_frames_getLast st fr n1 ([w] ++ [v]) g s)]
    rw [advE_advE]
    simp [advE_stack, advE_globals, advE_strs]
  have hstepRet : step (advE st fr (n1 + 1) [w, v, .vnil] g s) =
      .done v { advE st fr (n1 + 1) [w, v, .vnil] g s with
        stack := [], frames := [], cells := [], openUpvals := [] } := by
    refine advE_step_eq (codeAt_append_right hca) (decode_ob .opReturn)
      (fun u => ?_)
    refine exec_return_top2 _ _ _ .vnil v [] [] rfl ?_ ?_ rfl rfl
    · show closeUpvals st.cells st.openUpvals _ = _
      rw [hcells, hups]
      rfl
    · show st.frames.dropLast ++ _ = _
      rw [hframes]
      rfl
  obtain ⟨n, hn⟩ := runFuel_of_stepsTo_done
    (stepsTo_trans hrun (stepsTo_single hstepNil)) hstepRet
  exact ⟨n, _, hn, rfl⟩

/-! ## C4: running a compiled expression statement -/

/-- `Interpret` after a successful compile of a zero-arity, zero-upvalue
script: the setup (closure allocation, push, `vm.call`) computes exactly
`scriptInitSt`, and the outcome is that of `runFuel` from the initial
frame. -/
theorem interpretCompiled_run (F : FunObj) (S : List String) (fuel : Nat)
    (ha : F.arity = 0) (hu : F.upvalCount = 0) :
    interpretCompiled newVM (some (F, S)) fuel =
      match runFuel fuel (scriptInitSt F S) with
      | .okOut v s => .okOut v s
      | .failOut e s => .errOut e (recoverVM s)
      | .faultOut s => .faultOut s
      | .outOfFuel s => .outOfFuel s := by
  simp [interpretCompiled, newVM, vmCall, callClos, VMSt.push,
    scriptInitSt, ha, hu, List.replicate]

/-- C4: compiling the expression source `e;` as a script and running it
through `Interpret` never `panic`s: with enough fuel the run either
completes — the script returns `nil` through the implicit
`OpNil OpReturn`, and the `OpReturn` case of `run` leaves the value stack
empty — or stops at a Lox runtime error, whose deferred `Recover` also
leaves the stack empty.  In the REPL fallback mode (same code without the
`OpPop`) a completing `Interpret` returns exactly the value of `e`: the
value `v` that the run of the compiled expression pushes onto the stack
(the `StepsTo` conjunct, from the initial frame to the end of `e`'s code)
is the value `Interpret` returns. -/
theorem c4_expression_round_trip (e : Expr) (σ1 : CompSt)
    (hc : compileE e { code := [], consts := [], strs := newVM.strs } =
      some σ1) :
    ∃ fuel1 fuel2,
      ((∃ st1, interpretExprStmt newVM e fuel1 = .okOut .vnil st1 ∧
          st1.stack = []) ∨
        (∃ r st1, interpretExprStmt newVM e fuel1 = .errOut r st1 ∧
          st1.stack = [])) ∧
      ((∃ v st2 g s,
          StepsTo (scriptInitSt (modeScriptFun σ1) σ1.strs)
            (advE (scriptInitSt (modeScriptFun σ1) σ1.strs)
              { closId := 0, ip := 0, base := 0 } σ1.code.length
              ((scriptInitSt (modeScriptFun σ1) σ1.strs).stack ++ [v]) g s) ∧
          interpretExprMode newVM e fuel2 = .okOut v st2 ∧
          st2.stack = []) ∨
        (∃ r st2, interpretExprMode newVM e fuel2 = .errOut r st2 ∧
          st2.stack = [])) := by
  have hcs : compileExprStmtScript newVM.strs e =
      some (stmtScriptFun σ1, σ1.strs) := by
    simp [compileExprStmtScript, hc, emitBytesC, stmtScriptFun]
  have hcm : compileExprModeScript newVM.strs e =
      some (modeScriptFun σ1, σ1.strs) := by
    simp [compileExprModeScript, hc, emitBytesC, modeScriptFun]
  have hstmt : ∃ fuel1,
      ((∃ st1, interpretExprStmt newVM e fuel1 = .okOut .vnil st1 ∧
          st1.stack = []) ∨
        (∃ r st1, interpretExprStmt newVM e fuel1 = .errOut r st1 ∧
          st1.stack = [])) := by
    rcases compileE_run e { code := [], consts := [], strs := newVM.strs } σ1
        (scriptInitSt (stmtScriptFun σ1) σ1.strs)
        { closId := 0, ip := 0, base := 0 } hc rfl rfl
        ⟨[ob .opPop, ob .opNil, ob .opReturn], rfl⟩ (listExtends_refl _)
        (fun p hp => by rcases List.mem_singleton.mp hp with rfl; rfl) with
      ⟨v, g, s, hv, hgv, hsv, hrun⟩ | ⟨stE, r, stF, hrunE, hstepE⟩
    · obtain ⟨n, SF, hn, hSF⟩ := script_stmt_finish _ _ σ1.code.length v g s
        (.vclos 0)
        (by
          show CodeAt (σ1.code ++ [ob .opPop, ob .opNil, ob .opReturn])
            σ1.code.length ([ob .opPop] ++ ([ob .opNil] ++ [ob .opReturn]))
          exact ⟨[], by rw [List.drop_left]; rfl⟩)
        rfl rfl rfl rfl hrun
      refine ⟨n, Or.inl ⟨SF, ?_, hSF⟩⟩
      simp only [interpretExprStmt]
      rw [hcs, interpretCompiled_run (stmtScriptFun σ1) σ1.strs n rfl rfl, hn]
    · obtain ⟨n, hn⟩ := runFuel_of_stepsTo_err hrunE hstepE
      refine ⟨n, Or.inr ⟨r, recoverVM stF, ?_, rfl⟩⟩
      simp only [interpretExprStmt]
      rw [hcs, interpretCompiled_run (stmtScriptFun σ1) σ1.strs n rfl rfl, hn]
  have hmode : ∃ fuel2,
      ((∃ v st2 g s,
          StepsTo (scriptInitSt (modeScriptFun σ1) σ1.strs)
            (advE (scriptInitSt (modeScriptFun σ1) σ1.strs)
              { closId := 0, ip := 0, base := 0 } σ1.code.length
              ((scriptInitSt (modeScriptFun σ1) σ1.strs).stack ++ [v]) g s) ∧
          interpretExprMode newVM e fuel2 = .okOut v st2 ∧
          st2.stack = []) ∨
        (∃ r st2, interpretExprMode newVM e fuel2 = .errOut r st2 ∧
          st2.stack = [])) := by
    rcases compileE_run e { code := [], consts := [], strs := newVM.strs } σ1
        (scriptInitSt (modeScriptFun σ1) σ1.strs)
        { closId := 0, ip := 0, base := 0 } hc rfl rfl
        ⟨[ob .opNil, ob .opReturn], rfl⟩ (listExtends_refl _)
        (fun p hp => by rcases List.mem_singleton.mp hp with rfl; rfl) with
      ⟨v, g, s, hv, hgv, hsv, hrun⟩ | ⟨stE, r, stF, hrunE, hstepE⟩
    · obtain ⟨n, SF, hn, hSF⟩ := script_mode_finish _ _ σ1.code.length v g s
        (.vclos 0)
        (by
          show CodeAt (σ1.code ++ [ob .opNil, ob .opReturn]) σ1.code.length
            ([ob .opNil] ++ [ob .opReturn])
          exact ⟨[], by rw [List.drop_left]; rfl⟩)
        rfl rfl rfl rfl hrun
      refine ⟨n, Or.inl ⟨v, SF, g, s, hrun, ?_, hSF⟩⟩
      simp only [interpretExprMode]
      rw [hcm, interpretCompiled_run (modeScriptFun σ1) σ1.strs n rfl rfl, hn]
    · obtain ⟨n, hn⟩ := runFuel_of_stepsTo_err hrunE hstepE
      refine ⟨n, Or.inr ⟨r, recoverVM stF, ?_, rfl⟩⟩
      simp only [interpretExprMode]
      rw [hcm, interpretCompiled_run (modeScriptFun σ1) σ1.strs n rfl rfl, hn]
  obtain ⟨f1, h1⟩ := hstmt
  obtain ⟨f2, h2⟩ := hmode
  exact ⟨f1, f2, h1, h2⟩

/-! ### Plain-state stepping helpers for the `and` / `or` claim -/

theorem getLast?_of_peekAt0 (st : VMSt) (v : Value)
    (h : st.peekAt 0 = some v) : st.stack.getLast? = some v := by
  unfold VMSt.peekAt at h
  split at h
  · rw [List.getLast?_eq_getElem?, ← List.get?_eq_getElem?]
    simpa using h
  · cases h

theorem setIp_frames_getLast (st : VMSt) (fr : Frame) (i : Nat)
    (hfr : st.frames.getLast? = some fr) :
    (st.setIp i).frames.getLast? = some { fr with ip := i } := by
  unfold VMSt.setIp
  rw [hfr]
  simp [List.getLast?_concat]

theorem setIp_setIp (st : VMSt) (fr : Frame) (i j : Nat)
    (hfr : st.frames.getLast? = some fr) :
    (st.setIp i).setIp j = st.setIp j := by
  unfold VMSt.setIp
  rw [hfr]
  simp [List.getLast?_concat, List.dropLast_concat, hfr]

theorem setIp_chunkOf (st : VMSt) (i : Nat) (f : Frame) :
    (st.setIp i).chunkOf f = st.chunkOf f := by
  unfold VMSt.setIp
  cases h : st.frames.getLast? with
  | none => rfl
  | some fr => rfl

/-! ## C5: `and` / `or` short-circuit at the operand level -/

/-- C5: with the left operand's value `a` on top of the stack and the ip
right after the left operand's code, the compiled `l and r` block behaves
as follows — if `a` is falsy, ONE dispatch step jumps straight to the end
of the block, leaving `a` itself on the stack as the result (no boolean
coercion) and never executing an instruction of `r`; if `a` is truthy,
the jump falls through and the next step pops `a`, positioning execution
at the start of `r`, whose value then becomes the block's result.  The
compiled `l or r` block mirrors this: a truthy `a` is kept as the result
by two jump steps over `r`; a falsy `a` reaches the `OpPop` and then `r`.
-/
theorem c5_and_or_short_circuit (l r : Expr) (σ σA σO σ1 : CompSt) (a : Value)
    (stA stO : VMSt) (frA frO : Frame)
    (hA : compileE (.eand l r) σ = some σA)
    (hO : compileE (.eor l r) σ = some σO)
    (hl : compileE l σ = some σ1)
    (hfrA : stA.frames.getLast? = some frA)
    (hipA : frA.ip = σ1.code.length)
    (hpeekA : stA.peekAt 0 = some a)
    (hcodeA : CodeAt (stA.chunkOf frA).code σ1.code.length
      (σA.code.drop σ1.code.length))
    (hfrO : stO.frames.getLast? = some frO)
    (hipO : frO.ip = σ1.code.length)
    (hpeekO : stO.peekAt 0 = some a)
    (hcodeO : CodeAt (stO.chunkOf frO).code σ1.code.length
      (σO.code.drop σ1.code.length)) :
    ((vTruthy a = false → step stA = .cont (stA.setIp σA.code.length)) ∧
     (vTruthy a = true →
       step stA = .cont (stA.setIp (σ1.code.length + 3)) ∧
       step (stA.setIp (σ1.code.length + 3)) =
         .cont { stA.setIp (σ1.code.length + 4) with
                 stack := stA.stack.dropLast })) ∧
    ((vTruthy a = true →
       step stO = .cont (stO.setIp (σ1.code.length + 3)) ∧
       step (stO.setIp (σ1.code.length + 3)) =
         .cont (stO.setIp σO.code.length)) ∧
     (vTruthy a = false →
       step stO = .cont (stO.setIp (σ1.code.length + 6)) ∧
       step (stO.setIp (σ1.code.length + 6)) =
         .cont { stO.setIp (σ1.code.length + 7) with
                 stack := stO.stack.dropLast })) := by
  obtain ⟨σ1a, σ4, c2, h1a, h4, hσ3, hc4, hle, hcA, hkA, hsA⟩ :=
    compileE_and_shape hA
  rw [hl] at h1a
  injection h1a with h1a
  subst h1a
  obtain ⟨σ1b, σp, σ6, d2, h1b, hpe, h6, hσ5, hc6, hleO, hcO, hkO, hsO⟩ :=
    compileE_or_shape hO
  rw [hl] at h1b
  injection h1b with h1b
  subst h1b
  obtain ⟨hrecA, _, _⟩ := jump_bytes_recompose (c2.length + 1) hle
  obtain ⟨hrecO, _, _⟩ := jump_bytes_recompose (d2.length + 1) hleO
  have hdropA : σA.code.drop σ1.code.length =
      ob .opJumpUnless :: ((c2.length + 1) >>> 8 &&& 255) ::
        ((c2.length + 1) &&& 255) :: ob .opPop :: c2 := by
    rw [hcA, List.drop_left]
  have hdropO : σO.code.drop σ1.code.length =
      ob .opJumpUnless :: 0 :: 3 :: ob .opJump ::
        ((d2.length + 1) >>> 8 &&& 255) :: ((d2.length + 1) &&& 255) ::
        ob .opPop :: d2 := by
    rw [hcO, List.drop_left]
  rw [hdropA] at hcodeA
  rw [hdropO] at hcodeO
  have hlenA : σA.code.length = σ1.code.length + 4 + c2.length := by
    rw [hcA]
    simp only [List.length_append, List.length_cons]
    omega
  have hlenO : σO.code.length = σ1.code.length + 7 + d2.length := by
    rw [hcO]
    simp only [List.length_append, List.length_cons]
    omega
  have hcodeA2 : CodeAt (stA.chunkOf frA).code frA.ip
      (ob .opJumpUnless :: ((c2.length + 1) >>> 8 &&& 255) ::
        ((c2.length + 1) &&& 255) :: ob .opPop :: c2) := by
    rw [hipA]
    exact hcodeA
  have hcodeO2 : CodeAt (stO.chunkOf frO).code frO.ip
      (ob .opJumpUnless :: 0 :: 3 :: ob .opJump ::
        ((d2.length + 1) >>> 8 &&& 255) :: ((d2.length + 1) &&& 255) ::
        ob .opPop :: d2) := by
    rw [hipO]
    exact hcodeO
  refine ⟨⟨?_, ?_⟩, ?_, ?_⟩
  · -- and, falsy: one jump to the end
    intro htr
    refine step_at hfrA hcodeA2 (decode_ob .opJumpUnless) (fun u => ?_)
    rw [exec_jumpUnless_falsy stA frA
      ((((c2.length + 1) >>> 8 &&& 255) :: ((c2.length + 1) &&& 255) ::
        ob .opPop :: c2) ++ u)
      ((c2.length + 1) >>> 8 &&& 255) ((c2.length + 1) &&& 255) a
      rfl rfl hpeekA htr]
    have heq : frA.ip + 3 + (((c2.length + 1) >>> 8 &&& 255) * 256 +
        ((c2.length + 1) &&& 255)) = σA.code.length := by
      rw [hipA, hrecA, hlenA]
      omega
    rw [heq]
  · -- and, truthy: fall through, then pop the operand
    intro htr
    constructor
    · refine step_at hfrA hcodeA2 (decode_ob .opJumpUnless) (fun u => ?_)
      rw [exec_jumpUnless_truthy stA frA
        ((((c2.length + 1) >>> 8 &&& 255) :: ((c2.length + 1) &&& 255) ::
          ob .opPop :: c2) ++ u)
        ((c2.length + 1) >>> 8 &&& 255) ((c2.length + 1) &&& 255) a
        rfl rfl hpeekA htr]
      rw [hipA]
    · have h5 : CodeAt (stA.chunkOf frA).code σ1.code.length
          ([ob .opJumpUnless, (c2.length + 1) >>> 8 &&& 255,
            (c2.length + 1) &&& 255] ++ (ob .opPop :: c2)) := by
        rw [← hipA]
        exact hcodeA2
      have hcaP : CodeAt (stA.chunkOf frA).code (σ1.code.length + 3)
          (ob .opPop :: c2) := codeAt_append_right h5
      refine step_at (setIp_frames_getLast stA frA _ hfrA)
        (by rw [setIp_chunkOf]; exact hcaP) (decode_ob .opPop) (fun u => ?_)
      rw [exec_pop _ _ _ a
        (by rw [setIp_stack]; exact getLast?_of_peekAt0 stA a hpeekA)]
      rw [setIp_setIp stA frA _ _ hfrA, setIp_stack]
  · -- or, truthy: two jumps to the end, operand kept
    intro htr
    constructor
    · refine step_at hfrO hcodeO2 (decode_ob .opJumpUnless) (fun u => ?_)
      rw [exec_jumpUnless_truthy stO frO
        (((0 : Nat) :: 3 :: ob .opJump :: ((d2.length + 1) >>> 8 &&& 255) ::
          ((d2.length + 1) &&& 255) :: ob .opPop :: d2) ++ u)
        0 3 a rfl rfl hpeekO htr]
      rw [hipO]
    · have h5 : CodeAt (stO.chunkOf frO).code σ1.code.length
          ([ob .opJumpUnless, 0, 3] ++ (ob .opJump ::
            ((d2.length + 1) >>> 8 &&& 255) ::
            ((d2.length + 1) &&& 255) :: ob .opPop :: d2)) := by
        rw [← hipO]
        exact hcodeO2
      have hcaJ : CodeAt (stO.chunkOf frO).code (σ1.code.length + 3)
          (ob .opJump :: ((d2.length + 1) >>> 8 &&& 255) ::
            ((d2.length + 1) &&& 255) :: ob .opPop :: d2) :=
        codeAt_append_right h5
      refine step_at (setIp_frames_getLast stO frO _ hfrO)
        (by rw [setIp_chunkOf]; exact hcaJ) (decode_ob .opJump) (fun u => ?_)
      rw [exec_jump _ _
        ((((d2.length + 1) >>> 8 &&& 255) :: ((d2.length + 1) &&& 255) ::
          ob .opPop :: d2) ++ u)
        ((d2.length + 1) >>> 8 &&& 255) ((d2.length + 1) &&& 255) rfl rfl]
      rw [setIp_setIp stO frO _ _ hfrO]
      have heq : ({ frO with ip := σ1.code.length + 3 } : Frame).ip + 3 +
          (((d2.length + 1) >>> 8 &&& 255) * 256 +
            ((d2.length + 1) &&& 255)) = σO.code.length := by
        show σ1.code.length + 3 + 3 + _ = _
        rw [hrecO, hlenO]
        omega
      rw [heq]
  · -- or, falsy: short jump to the pop, then r
    intro htr
    constructor
    · refine step_at hfrO hcodeO2 (decode_ob .opJumpUnless) (fun u => ?_)
      rw [exec_jumpUnless_falsy stO frO
        (((0 : Nat) :: 3 :: ob .opJump :: ((d2.length + 1) >>> 8 &&& 255) ::
          ((d2.length + 1) &&& 255) :: ob .opPop :: d2) ++ u)
        0 3 a rfl rfl hpeekO htr]
      have heq : frO.ip + 3 + (0 * 256 + 3) = σ1.code.length + 6 := by
        rw [hipO]
      rw [heq]
    · have h5 : CodeAt (stO.chunkOf frO).code σ1.code.length
          ([ob .opJumpUnless, 0, 3, ob .opJump,
            (d2.length + 1) >>> 8 &&& 255, (d2.length + 1) &&& 255] ++
            (ob .opPop :: d2)) := by
        rw [← hipO]
        exact hcodeO2
      have hcaP : CodeAt (stO.chunkOf frO).code (σ1.code.length + 6)
          (ob .opPop :: d2) := codeAt_append_right h5
      refine step_at (setIp_frames_getLast stO frO _ hfrO)
        (by rw [setIp_chunkOf]; exact hcaP) (decode_ob .opPop) (fun u => ?_)
      rw [exec_pop _ _ _ a
        (by rw [setIp_stack]; exact getLast?_of_peekAt0 stO a hpeekO)]
      rw [setIp_setIp stO frO _ _ hfrO, setIp_stack]

/-- C4 witness at `e := 2`: the statement form returns `nil` and the REPL
fallback returns the value `2` of the expression. -/
theorem c4_expression_round_trip_witness :
    compileE (.enum 2) { code := [], consts := [], strs := newVM.strs } =
      some { code := [ob .opConst, 0], consts := [.vnum 2],
             strs := ["clock"] } ∧
    (interpretExprStmt newVM (.enum 2) 4).value? = some .vnil ∧
    (interpretExprMode newVM (.enum 2) 3).value? = some (.vnum 2) ∧
    (∃ fuel1 fuel2,
      ((∃ st1, interpretExprStmt newVM (.enum 2) fuel1 = .okOut .vnil st1 ∧
          st1.stack = []) ∨
        (∃ r st1, interpretExprStmt newVM (.enum 2) fuel1 = .errOut r st1 ∧
          st1.stack = [])) ∧
      ((∃ v st2 g s,
          StepsTo (scriptInitSt (modeScriptFun { code := [ob .opConst, 0], consts := [.vnum 2], strs := ["clock"] }) ["clock"])
            (advE (scriptInitSt (modeScriptFun { code := [ob .opConst, 0], consts := [.vnum 2], strs := ["clock"] }) ["clock"])
              { closId := 0, ip := 0, base := 0 } 2
              ((scriptInitSt (modeScriptFun { code := [ob .opConst, 0], consts := [.vnum 2], strs := ["clock"] }) ["clock"]).stack ++ [v])
              g s) ∧
          interpretExprMode newVM (.enum 2) fuel2 = .okOut v st2 ∧
          st2.stack = []) ∨
        (∃ r st2, interpretExprMode newVM (.enum 2) fuel2 = .errOut r st2 ∧
          st2.stack = []))) :=
  ⟨rfl, rfl, rfl, c4_expression_round_trip (.enum 2)
    { code := [ob .opConst, 0], consts := [.vnum 2], strs := ["clock"] } rfl⟩

/-- C5 witness at `true and 7` / `true or 7` with operand `true` on the
stack. -/
theorem c5_and_or_short_circuit_witness :
    compileE (.eand (.ebool true) (.enum 7))
      { code := [], consts := [], strs := [] } =
      some { code := [ob .opTrue, ob .opJumpUnless, 0, 3, ob .opPop, ob .opConst, 0], consts := [.vnum 7], strs := [] } ∧
    compileE (.eor (.ebool true) (.enum 7))
      { code := [], consts := [], strs := [] } =
      some { code := [ob .opTrue, ob .opJumpUnless, 0, 3, ob .opJump, 0, 3, ob .opPop, ob .opConst, 0], consts := [.vnum 7], strs := [] } ∧
    compileE (.ebool true) { code := [], consts := [], strs := [] } =
      some { code := [ob .opTrue], consts := [], strs := [] } ∧
    c5StA.frames.getLast? = some { closId := 0, ip := 1, base := 0 } ∧
    ({ closId := 0, ip := 1, base := 0 } : Frame).ip = 1 ∧
    c5StA.peekAt 0 = some (.vbool true) ∧
    CodeAt (c5StA.chunkOf { closId := 0, ip := 1, base := 0 }).code 1
      [ob .opJumpUnless, 0, 3, ob .opPop, ob .opConst, 0] ∧
    c5StO.frames.getLast? = some { closId := 0, ip := 1, base := 0 } ∧
    c5StO.peekAt 0 = some (.vbool true) ∧
    CodeAt (c5StO.chunkOf { closId := 0, ip := 1, base := 0 }).code 1
      [ob .opJumpUnless, 0, 3, ob .opJump, 0, 3, ob .opPop, ob .opConst, 0] ∧
    (((vTruthy (.vbool true) = false → step c5StA = .cont (c5StA.setIp 7)) ∧
      (vTruthy (.vbool true) = true →
        step c5StA = .cont (c5StA.setIp 4) ∧
        step (c5StA.setIp 4) =
          .cont { c5StA.setIp 5 with stack := c5StA.stack.dropLast })) ∧
     ((vTruthy (.vbool true) = true →
        step c5StO = .cont (c5StO.setIp 4) ∧
        step (c5StO.setIp 4) = .cont (c5StO.setIp 10)) ∧
      (vTruthy (.vbool true) = false →
        step c5StO = .cont (c5StO.setIp 7) ∧
        step (c5StO.setIp 7) =
          .cont { c5StO.setIp 8 with stack := c5StO.stack.dropLast }))) :=
  ⟨rfl, rfl, rfl, rfl, rfl, rfl, ⟨[], rfl⟩, rfl, rfl, ⟨[], rfl⟩,
    c5_and_or_short_circuit (.ebool true) (.enum 7)
      { code := [], consts := [], strs := [] }
      { code := [ob .opTrue, ob .opJumpUnless, 0, 3, ob .opPop, ob .opConst, 0], consts := [.vnum 7], strs := [] }
      { code := [ob .opTrue, ob .opJumpUnless, 0, 3, ob .opJump, 0, 3, ob .opPop, ob .opConst, 0], consts := [.vnum 7], strs := [] }
      { code := [ob .opTrue], consts := [], strs := [] }
      (.vbool true) c5StA c5StO
      { closId := 0, ip := 1, base := 0 } { closId := 0, ip := 1, base := 0 }
      rfl rfl rfl rfl rfl rfl ⟨[], rfl⟩ rfl rfl rfl ⟨[], rfl⟩⟩
